import Mathlib

/-!
# Urho3D: runtime-compiled C++ (RCCpp) hot reload and the UIElement tree

A shallow embedding of two parts of the repository.

* `Source/Engine/RCCpp/RCCpp.h` and `RCCppWin.h` only declare the hot-reload
  orchestrator and the platform adapter; their bodies (`RCCpp.cpp`,
  `RCCppWin.cpp`) are not among the sources.  The orchestrator is therefore
  modelled from sections 3 and 4 of the specification, keeping the member
  names that the headers declare.
* `Source/Engine/UI/UIElement.cpp` is embedded from its code: the element
  tree (`InsertChild`, `RemoveChild`, `Remove`, `Detach`) as functions on a
  heap of elements, and the size setters (`SetSize`, `SetMinSize`,
  `SetMaxSize`, `SetFixedSize`, `UpdateLayout`) as functions on the fields of
  the receiving element.
-/

namespace Urho3D

/-! ## Part 1. RCCpp: the hot-reload orchestrator (modelled from the spec) -/

/-- Modelled from the spec: the compiled dynamic module that the loader finds
at the target library path (spec 6, module ABI boundary).  `RCCppWin.cpp`,
which opens the module and looks up its two exported symbols, is missing from
the sources.  `opens` says whether the module can be opened for the process,
`hasCreate` and `hasDestroy` whether the factory and the destructor symbol are
exported. -/
structure ModuleFile where
  opens : Bool
  hasCreate : Bool
  hasDestroy : Bool
deriving DecidableEq, Repr

/-- Modelled from the spec: the record `LoadedModule` of spec 3, with the
member names of `RCCppWin.h` (`library_`, `createObject_`, `destroyObject_`);
the code that fills these members is missing.  A handle is the number of the
module generation; a function pointer carries the handle of the generation it
was resolved from. -/
structure LoadedModule where
  libraryPath : String
  library_ : Nat
  createObject_ : Nat
  destroyObject_ : Nat
deriving DecidableEq, Repr

/-- Modelled from the spec: the `LiveObject` of spec 3 (the `RCCppObject`
returned by `CreateObject`, whose class is missing).  `generation` is the
handle of the module whose create function produced the object. -/
structure LiveObject where
  id : Nat
  generation : Nat
deriving DecidableEq, Repr

/-- Modelled from the spec: the module handles the process currently holds
open; the operating-system loader behind `LoadLib`/`UnloadLib` is missing. -/
structure ModuleTable where
  openHandles : List Nat
  nextHandle : Nat
deriving DecidableEq, Repr

/-- Modelled from the spec: `ResolveCreateFunction(handle)` of spec 4.2, whose
body (in `RCCppWin.cpp`) is missing: the factory symbol of the opened module,
if it is exported. -/
def ResolveCreateFunction (file : ModuleFile) (handle : Nat) : Option Nat :=
  if file.hasCreate then some handle else none

/-- Modelled from the spec: `ResolveDestroyFunction(handle)` of spec 4.2, whose
body (in `RCCppWin.cpp`) is missing: the destructor symbol of the opened
module, if it is exported. -/
def ResolveDestroyFunction (file : ModuleFile) (handle : Nat) : Option Nat :=
  if file.hasDestroy then some handle else none

/-- Modelled from the spec: `UnloadLibrary(handle)` of spec 4.2 (declared as
`RCCppWin::UnloadLib`, body missing): releases the module handle. -/
def UnloadLib (t : ModuleTable) (handle : Nat) : ModuleTable :=
  { t with openHandles := t.openHandles.erase handle }

/-- Modelled from the spec: `RCCppWin::LoadLib` (declared in `RCCppWin.h`, body
missing), after spec 4.2: open the module, locate the two well-known exported
symbols; "both must resolve or the load is treated as a failure and the handle
is released".  The result `some m` stands for the return value `true`, with
`m` the values stored in `library_`, `createObject_` and `destroyObject_`;
`none` stands for `false`. -/
def LoadLib (t : ModuleTable) (libraryPath : String) (file : ModuleFile) :
    Option LoadedModule × ModuleTable :=
  if file.opens then
    let handle := t.nextHandle
    let opened : ModuleTable :=
      { openHandles := handle :: t.openHandles, nextHandle := handle + 1 }
    match ResolveCreateFunction file handle, ResolveDestroyFunction file handle with
    | some create, some destroy =>
        (some { libraryPath := libraryPath, library_ := handle,
                createObject_ := create, destroyObject_ := destroy }, opened)
    | _, _ => (none, UnloadLib opened handle)
  else
    (none, t)

/-- Modelled from the spec: the calls the orchestrator makes on the platform
toolchain adapter (spec 4.2), recorded in the order they are made; the adapter
bodies are missing.  `CreateObject fn obj`: the create function `fn` produced
`obj`.  `DestroyObject fn obj`: the destroy function `fn` was called on
`obj`. -/
inductive AdapterCall where
  | Compile (file : String)
  | LoadLibrary (handle : Nat)
  | UnloadLibrary (handle : Nat)
  | CreateObject (fn : Nat) (obj : LiveObject)
  | DestroyObject (fn : Nat) (obj : LiveObject)
deriving DecidableEq, Repr

/-- Modelled from the spec: the states of the state machine of spec 4.4. -/
inductive Phase where
  | Idle
  | Compiling
  | Loading
  | Loaded
  | Failed
deriving DecidableEq, Repr

/-- Modelled from the spec: the `CompilationJob` of spec 3, run by a
`CompilationThread` (declared in `RCCpp.h`, body missing).  `outcome` is
`none` while the job is pending, `some true` when it succeeded, `some false`
when it failed. -/
structure CompilationJob where
  source : String
  target : String
  outcome : Option Bool
deriving DecidableEq, Repr

/-- Modelled from the spec: the orchestrator `RCCpp` (declared in `RCCpp.h`,
bodies in the missing `RCCpp.cpp`), after spec 3 and 4.4.  `workers` lists the
compilation jobs that are in flight (one `CompilationThread` each) and
`workersStarted` counts the worker threads ever started; `active` is the
active `LoadedModule`, `liveObject` the object it produced;
`firstCompilation_` is the header's flag for the first cycle; `calls` records
the adapter calls made so far. -/
structure RCCpp where
  phase : Phase
  mainRCCppFile_ : String
  active : Option LoadedModule
  liveObject : Option LiveObject
  workers : List CompilationJob
  workersStarted : Nat
  firstCompilation_ : Bool
  table : ModuleTable
  nextObject : Nat
  calls : List AdapterCall
deriving DecidableEq, Repr

/-- Modelled from the spec: what the orchestrator observes (spec 4.4 and its
per-frame driver); the handlers `HandleRCCppFileChanged` and
`HandlePostUpdate` and `CompilationThread::ThreadFunction` are declared in
`RCCpp.h` but their bodies are missing.
`FileChanged`: the registry reports a change of the main file or a dependency.
`WorkerFinished ok`: the worker thread finishes the toolchain invocation and
writes its outcome.  `PostUpdate file`: the tick on the owning thread polls the
worker; `file` is the module the loader finds at the target path.
`Settle`: the unconditional return from `Loaded` or `Failed` to `Idle`. -/
inductive Event where
  | FileChanged (path : String)
  | WorkerFinished (ok : Bool)
  | PostUpdate (file : ModuleFile)
  | Settle
deriving DecidableEq, Repr

/-- Modelled from the spec: the freshly constructed orchestrator, "the state
entered at startup" of spec 4.4 (the constructor `RCCpp::RCCpp` is missing):
idle, no module, no live object, no job, first cycle still ahead. -/
def RCCpp.fresh (mainFile : String) : RCCpp :=
  { phase := Phase.Idle, mainRCCppFile_ := mainFile, active := none, liveObject := none,
    workers := [], workersStarted := 0, firstCompilation_ := true,
    table := { openHandles := [], nextHandle := 0 }, nextObject := 0, calls := [] }

/-- Modelled from the spec: `GetLibraryPath` (declared in `RCCpp.h`, body
missing): "simply report the active LoadedModule's path" (spec 4.4). -/
def RCCpp.GetLibraryPath (s : RCCpp) : String :=
  match s.active with
  | some m => m.libraryPath
  | none => ""

/-- Modelled from the spec: the target library path of a compilation, "a path
derived from the source file's name" (spec 6); the derivation is missing. -/
def targetLibraryPath (mainFile : String) : String :=
  mainFile ++ ".lib"

/-- Modelled from the spec: `RCCpp::CompileAsync` (declared, body missing),
the transition `Idle -> Compiling` of spec 4.4: a job is created "when a
change is detected and no job is currently in flight" (spec 3); a change
detected while a job is running "must not spawn a second worker".  A change of
a dependency still compiles the main file. -/
def RCCpp.CompileAsync (s : RCCpp) : RCCpp :=
  if s.phase = Phase.Idle ∧ s.workers = [] then
    { s with
      phase := Phase.Compiling
      workers := [{ source := s.mainRCCppFile_,
                    target := targetLibraryPath s.mainRCCppFile_, outcome := none }]
      workersStarted := s.workersStarted + 1
      calls := s.calls ++ [AdapterCall.Compile s.mainRCCppFile_] }
  else
    s

/-- Modelled from the spec: the worker thread (`CompilationThread`, body
missing) reports the result of its single job (spec 4.3): the outcome of the
pending job is written, nothing else. -/
def RCCpp.workerFinished (s : RCCpp) (ok : Bool) : RCCpp :=
  { s with workers := s.workers.map (fun j =>
      match j.outcome with
      | none => { j with outcome := some ok }
      | some _ => j) }

/-- Modelled from the spec: the transition `Compiling -> Failed` of spec 4.4
("the previous module and LiveObject are left untouched"); the first cycle is
over after it whatever its result (spec 4.4: "a legitimately-failed first
compile also leaves the module null"). -/
def RCCpp.fail (s : RCCpp) : RCCpp :=
  { s with phase := Phase.Failed, workers := [], firstCompilation_ := false }

/-- Modelled from the spec: `RCCpp::ReloadLibrary` (declared, body missing),
the success branch of `Compiling -> Loaded` in spec 4.4, once the new module
`m` is loaded and resolved: "destroys the previous LiveObject using the
previous module's destroy function, unloads the previous module, creates a new
LiveObject via the new module's create function, installs the new module as
active".  In the first cycle (`firstCompilation_`) there is "no previous
LiveObject to destroy, no previous module to unload". -/
def RCCpp.ReloadLibrary (s : RCCpp) (m : LoadedModule) (t : ModuleTable) : RCCpp :=
  let destroyed : List AdapterCall :=
    if s.firstCompilation_ then []
    else
      match s.liveObject, s.active with
      | some obj, some previous => [AdapterCall.DestroyObject previous.destroyObject_ obj]
      | _, _ => []
  let unloaded : List AdapterCall :=
    if s.firstCompilation_ then []
    else
      match s.active with
      | some previous => [AdapterCall.UnloadLibrary previous.library_]
      | none => []
  let t1 : ModuleTable :=
    if s.firstCompilation_ then t
    else
      match s.active with
      | some previous => UnloadLib t previous.library_
      | none => t
  let obj : LiveObject := { id := s.nextObject, generation := m.createObject_ }
  { s with
    phase := Phase.Loaded
    active := some m
    liveObject := some obj
    workers := []
    firstCompilation_ := false
    table := t1
    nextObject := s.nextObject + 1
    calls := s.calls ++ [AdapterCall.LoadLibrary m.library_] ++ destroyed ++ unloaded ++
      [AdapterCall.CreateObject m.createObject_ obj] }

/-- Modelled from the spec: `RCCpp::HandlePostUpdate` (declared, body
missing), the poll of the per-frame driver of spec 4.4: a finished job is
consumed on the owning thread; on success the new module is loaded and both
symbols resolved ("if resolution fails, treat as compile failure"), then the
swap of `ReloadLibrary`; on failure `Compiling -> Failed`. -/
def RCCpp.HandlePostUpdate (s : RCCpp) (file : ModuleFile) : RCCpp :=
  match s.phase, s.workers with
  | Phase.Compiling, [job] =>
      match job.outcome with
      | none => s
      | some false => s.fail
      | some true =>
          match LoadLib s.table job.target file with
          | (some m, t) => s.ReloadLibrary m t
          | (none, t) => { s.fail with table := t }
  | _, _ => s

/-- Modelled from the spec: one step of the state machine of spec 4.4. -/
def RCCpp.step (s : RCCpp) : Event → RCCpp
  | Event.FileChanged _ => s.CompileAsync
  | Event.WorkerFinished ok => s.workerFinished ok
  | Event.PostUpdate file => s.HandlePostUpdate file
  | Event.Settle =>
      if s.phase = Phase.Loaded ∨ s.phase = Phase.Failed then { s with phase := Phase.Idle }
      else s

/-- Modelled from the spec: a run of the state machine over a sequence of
events. -/
def RCCpp.run (s : RCCpp) (events : List Event) : RCCpp :=
  events.foldl RCCpp.step s

/-- Modelled from the spec: one reload attempt (spec 4.4): a change is
detected, the worker reports `ok`, the next tick consumes the result with
`file` found at the target path. -/
def RCCpp.cycle (s : RCCpp) (path : String) (ok : Bool) (file : ModuleFile) : RCCpp :=
  s.run [Event.FileChanged path, Event.WorkerFinished ok, Event.PostUpdate file]

/-- Modelled from the spec: `RCCpp::ExecuteFile` (declared, body missing):
"registers and immediately triggers a first synchronous compile/load cycle for
a main file" (spec 6); the result says whether the cycle ended in `Loaded`. -/
def RCCpp.ExecuteFile (s : RCCpp) (fileName : String) (ok : Bool) (file : ModuleFile) :
    Bool × RCCpp :=
  let s1 := ({ s with mainRCCppFile_ := fileName }).cycle fileName ok file
  (decide (s1.phase = Phase.Loaded), s1)

/-- A module file loads when it opens and exports both symbols. -/
def ModuleFile.loads (file : ModuleFile) : Bool :=
  file.opens && file.hasCreate && file.hasDestroy

/-- The adapter call is a call of `DestroyObject` or of `UnloadLib`. -/
def AdapterCall.isDestroyOrUnload : AdapterCall → Bool
  | AdapterCall.DestroyObject _ _ => true
  | AdapterCall.UnloadLibrary _ => true
  | _ => false

/-- The pairing invariant of the orchestrator: every `DestroyObject` call so
far used the destroy function of the generation whose create function produced
the object, and the live object was produced by the create function of the
active module. -/
def RCCpp.GenerationsPaired (s : RCCpp) : Prop :=
  (∀ fn obj, AdapterCall.DestroyObject fn obj ∈ s.calls →
    AdapterCall.CreateObject fn obj ∈ s.calls ∧ fn = obj.generation) ∧
  (∀ obj m, s.liveObject = some obj → s.active = some m →
    AdapterCall.CreateObject m.destroyObject_ obj ∈ s.calls ∧
    m.destroyObject_ = obj.generation)

/-- An orchestrator that has completed one successful cycle for `a.cpp` and has
returned to `Idle`. -/
def RCCpp.loadedOnce : RCCpp :=
  (((RCCpp.fresh "a.cpp").cycle "a.cpp" true
    { opens := true, hasCreate := true, hasDestroy := true }).step Event.Settle)

/-- Two successful reload cycles of `a.cpp`, one after the other. -/
def RCCpp.twoReloads : List Event :=
  [Event.FileChanged "a.cpp", Event.WorkerFinished true,
   Event.PostUpdate { opens := true, hasCreate := true, hasDestroy := true },
   Event.Settle,
   Event.FileChanged "a.cpp", Event.WorkerFinished true,
   Event.PostUpdate { opens := true, hasCreate := true, hasDestroy := true }]

/-! ## Part 2. UIElement: the element tree (embedded from `UIElement.cpp`)

Elements are identified by natural numbers; a `UIElement*` is an
`Option Nat`, with `none` for the null pointer.  The heap `UI` gives the
members of every element.  Only the members that the tree operations and the
flag setters read or write are carried.  `MarkDirty`, `UpdateLayout` and
`SendEvent`, which the tree operations also call, write positions, sizes and
dirty flags and deliver events, never `parent_` or `children_`; they are left
out here (no event subscriber is modelled).  `InsertChild` also re-applies the
style of an element that names one (`appliedStyle_`); elements are modelled
without an applied style. -/

/-- The enumeration `LayoutMode` used by `UIElement.cpp`. -/
inductive LayoutMode where
  | LM_FREE
  | LM_HORIZONTAL
  | LM_VERTICAL
deriving DecidableEq, Repr

/-- The enumeration `HorizontalAlignment` used by `UIElement.cpp`. -/
inductive HorizontalAlignment where
  | HA_LEFT
  | HA_CENTER
  | HA_RIGHT
deriving DecidableEq, Repr

/-- The enumeration `VerticalAlignment` used by `UIElement.cpp`. -/
inductive VerticalAlignment where
  | VA_TOP
  | VA_CENTER
  | VA_BOTTOM
deriving DecidableEq, Repr

/-- The members of a `UIElement` that the tree operations read or write. -/
structure UIElement where
  parent_ : Option Nat
  children_ : List Nat
  priority_ : Int
  bringToFront_ : Bool
  bringToBack_ : Bool
  sortChildren_ : Bool
  enabled_ : Bool
  layoutMode_ : LayoutMode
  horizontalAlignment_ : HorizontalAlignment
  verticalAlignment_ : VerticalAlignment
  sortOrderDirty_ : Bool
  elementEventSender_ : Bool
deriving DecidableEq, Repr

/-- The member initialisers of the constructor `UIElement::UIElement`
(lines 112-153). -/
def UIElement.new : UIElement :=
  { parent_ := none, children_ := [], priority_ := 0, bringToFront_ := false,
    bringToBack_ := true, sortChildren_ := true, enabled_ := false,
    layoutMode_ := LayoutMode.LM_FREE,
    horizontalAlignment_ := HorizontalAlignment.HA_LEFT,
    verticalAlignment_ := VerticalAlignment.VA_TOP,
    sortOrderDirty_ := false, elementEventSender_ := false }

/-- The heap of elements. -/
abbrev UI := Nat → UIElement

/-- The heap with the members of element `i` replaced by `e`. -/
def UI.set (ui : UI) (i : Nat) (e : UIElement) : UI :=
  fun j => if j = i then e else ui j

/-- The largest `unsigned`, the index `AddChild` passes to `InsertChild`. -/
def M_MAX_UNSIGNED : Nat := 4294967295

/-- `UIElement::Detach` (lines 1857-1861): `parent_ = 0`. -/
def Detach (ui : UI) (this : Nat) : UI :=
  ui.set this { ui this with parent_ := none }

/-- `UIElement::RemoveChild(element, index)` (lines 1185-1211).  The loop
looks for the first position `i >= index` with `children_[i] == element`; if
there is one, the element is detached and `children_.Erase(i)` removes that
position: the first `index` children are kept and the first occurrence of
`element` among the others is erased.  If there is none, nothing happens. -/
def RemoveChild (ui : UI) (this : Nat) (element : Nat) (index : Nat) : UI :=
  if element ∈ (ui this).children_.drop index then
    let ui1 := Detach ui element
    ui1.set this { ui1 this with
      children_ := (ui1 this).children_.take index ++
        ((ui1 this).children_.drop index).erase element }
  else
    ui

/-- `UIElement::Remove` (lines 1263-1267): `if (parent_)
parent_->RemoveChild(this)`, the index defaulting to 0. -/
def Remove (ui : UI) (this : Nat) : UI :=
  match (ui this).parent_ with
  | some parent => RemoveChild ui parent this 0
  | none => ui

/-- `UIElement::SetHorizontalAlignment` (lines 687-700). -/
def SetHorizontalAlignment (ui : UI) (this : Nat) (align : HorizontalAlignment) : UI :=
  let forced : Bool :=
    decide (align ≠ HorizontalAlignment.HA_LEFT) &&
      (match (ui this).parent_ with
       | some parent => decide ((ui parent).layoutMode_ = LayoutMode.LM_HORIZONTAL)
       | none => false)
  let align1 := if forced then HorizontalAlignment.HA_LEFT else align
  if (ui this).horizontalAlignment_ ≠ align1 then
    ui.set this { ui this with horizontalAlignment_ := align1 }
  else
    ui

/-- `UIElement::SetVerticalAlignment` (lines 702-715). -/
def SetVerticalAlignment (ui : UI) (this : Nat) (align : VerticalAlignment) : UI :=
  let forced : Bool :=
    decide (align ≠ VerticalAlignment.VA_TOP) &&
      (match (ui this).parent_ with
       | some parent => decide ((ui parent).layoutMode_ = LayoutMode.LM_VERTICAL)
       | none => false)
  let align1 := if forced then VerticalAlignment.VA_TOP else align
  if (ui this).verticalAlignment_ ≠ align1 then
    ui.set this { ui this with verticalAlignment_ := align1 }
  else
    ui

/-- The body of the loop of `VerifyChildAlignment` for one child (lines
1868-1869): both alignments are re-applied. -/
def reapplyAlignment (ui : UI) (child : Nat) : UI :=
  let ui1 := SetHorizontalAlignment ui child (ui child).horizontalAlignment_
  SetVerticalAlignment ui1 child (ui1 child).verticalAlignment_

/-- `UIElement::VerifyChildAlignment` (lines 1863-1871): the loop over
`children_`. -/
def VerifyChildAlignment (ui : UI) (this : Nat) : UI :=
  (ui this).children_.foldl reapplyAlignment ui

/-- The loop "check for possible cyclic parent assignment" of `InsertChild`
(lines 1138-1144), started at `parent`: `some true` when `element` is met on
the parent chain (the function returns), `some false` when the chain ends at
the null pointer, `none` when `fuel` iterations did not end the loop. -/
def cyclicParentAssignment (ui : UI) (element : Nat) : Nat → Option Nat → Option Bool
  | _, none => some false
  | 0, some _ => none
  | fuel + 1, some parent =>
      if parent = element then some true
      else cyclicParentAssignment ui element fuel (ui parent).parent_

/-- `UIElement::InsertChild(index, element)` (lines 1132-1183) on the receiver
`this`.  The result is `none` only when the loop over the parent chain did not
end within `fuel` iterations.  Left out, as they do not touch the members
carried here: `MarkDirty`, the style re-application, `UpdateLayout` and the
`E_ELEMENTADDED` event. -/
def InsertChild (fuel : Nat) (ui : UI) (this : Nat) (index : Nat) (element : Option Nat) :
    Option UI :=
  match element with
  | none => some ui
  | some e =>
      if e = this ∨ (ui e).parent_ = some this then some ui
      else
        match cyclicParentAssignment ui e fuel (ui this).parent_ with
        | none => none
        | some true => some ui
        | some false =>
            let children := (ui this).children_
            let ui1 := ui.set this { ui this with
              children_ :=
                if index ≥ children.length then children ++ [e]
                else children.take index ++ e :: children.drop index }
            let ui2 := Remove ui1 e
            let ui3 :=
              if (ui2 this).sortChildren_ then
                ui2.set this { ui2 this with sortOrderDirty_ := true }
              else ui2
            let ui4 := ui3.set e { ui3 e with parent_ := some this }
            some (VerifyChildAlignment ui4 this)

/-- `UIElement::AddChild` (lines 1127-1130). -/
def AddChild (fuel : Nat) (ui : UI) (this : Nat) (element : Option Nat) : Option UI :=
  InsertChild fuel ui this M_MAX_UNSIGNED element

/-- `UIElement::SetParent(parent, index)` (lines 1275-1279). -/
def SetParent (fuel : Nat) (ui : UI) (this : Nat) (parent : Option Nat) (index : Nat) :
    Option UI :=
  match parent with
  | some p => InsertChild fuel ui p index (some this)
  | none => some ui

/-- The pointer reached from `p` by following `parent_` `n` times; the null
pointer stays null. -/
def nthParent (ui : UI) : Nat → Option Nat → Option Nat
  | 0, p => p
  | n + 1, p => nthParent ui n (p.bind (fun x => (ui x).parent_))

/-- The parent relation has no cycle: the parent chain of every element ends
at the null pointer after finitely many steps.  (On a heap with finitely many
elements this is the absence of a cycle.) -/
def Acyclic (ui : UI) : Prop :=
  ∀ x : Nat, ∃ n : Nat, nthParent ui n (some x) = none

/-- The element tree is well formed: the parent relation has no cycle, no
child list holds an element twice, and an element is in the child list of `p`
exactly when its `parent_` is `p`. -/
def WellFormed (ui : UI) : Prop :=
  Acyclic ui ∧ (∀ p : Nat, (ui p).children_.Nodup) ∧
  (∀ p c : Nat, c ∈ (ui p).children_ ↔ (ui c).parent_ = some p)

/-- A heap of fresh elements in which 1 is the child of 0, and 2 and 3 are the
children of 1. -/
def sampleTree : UI :=
  fun i =>
    match i with
    | 0 => { UIElement.new with children_ := [1] }
    | 1 => { UIElement.new with parent_ := some 0, children_ := [2, 3] }
    | 2 => { UIElement.new with parent_ := some 1 }
    | 3 => { UIElement.new with parent_ := some 1 }
    | _ => UIElement.new

/-! ## Part 3. UIElement: sizes and layout (embedded from `UIElement.cpp`)

The size setters and `UpdateLayout` are embedded as functions on the members
of the receiving element.  The other elements enter through a
`LayoutContext`: what `UpdateLayout` reads from the children, and the sizes
that the parent's layout pass requests for the receiver.  The element tree is
taken to be well formed (the subtrees of the children do not contain the
receiver), the virtual `OnResize` is the empty one of the base class, and no
event subscriber is modelled.  `int` values are unbounded integers: the sums
of `UpdateLayout` are the only arithmetic, signed overflow is undefined in
C++, and every result that is stored passes through `Clamp` or `Min`. -/

/-- The engine's `IntVector2`. -/
structure IntVector2 where
  x_ : Int
  y_ : Int
deriving DecidableEq, Repr

/-- The engine's `IntRect`. -/
structure IntRect where
  left_ : Int
  top_ : Int
  right_ : Int
  bottom_ : Int
deriving DecidableEq, Repr

/-- The largest `int`, the default of `maxSize_`. -/
def M_MAX_INT : Int := 2147483647

/-- The members of the receiving `UIElement` that the size setters and
`UpdateLayout` read or write. -/
structure ElementSize where
  size_ : IntVector2
  minSize_ : IntVector2
  maxSize_ : IntVector2
  layoutMode_ : LayoutMode
  layoutSpacing_ : Int
  layoutBorder_ : IntRect
  resizeNestingLevel_ : Int
  layoutNestingLevel_ : Int
deriving DecidableEq, Repr

/-- The member initialisers of the constructor `UIElement::UIElement`
(lines 112-153) for the members of `ElementSize`. -/
def ElementSize.new : ElementSize :=
  { size_ := { x_ := 0, y_ := 0 }, minSize_ := { x_ := 0, y_ := 0 },
    maxSize_ := { x_ := M_MAX_INT, y_ := M_MAX_INT },
    layoutMode_ := LayoutMode.LM_FREE, layoutSpacing_ := 0,
    layoutBorder_ := { left_ := 0, top_ := 0, right_ := 0, bottom_ := 0 },
    resizeNestingLevel_ := 0, layoutNestingLevel_ := 0 }

/-- What `UpdateLayout` reads from one child: `IsVisible()`, `GetWidth()` and
`GetHeight()`, the minimum and maximum sizes, and `GetIndentWidth()`. -/
structure LayoutChild where
  visible_ : Bool
  size_ : IntVector2
  minSize_ : IntVector2
  maxSize_ : IntVector2
  indentWidth : Int
deriving DecidableEq, Repr

/-- The surroundings of a call on the receiving element.
`Clamp` is the engine's integer clamp, whose definition is not among the
sources; it is a parameter.  `layoutSizes` gives the child sizes that
`CalculateLayout` (lines 1729-1818) leaves for at least one child; they depend
on single-precision accumulation and are a parameter.  `children` is what
`UpdateLayout` reads from `children_`.  `parentPass` lists the sizes that
`parent_->UpdateLayout()` requests for the receiver through
`children_[i]->SetSize(...)`; it is empty when there is no parent or the
parent has no layout. -/
structure LayoutContext where
  Clamp : Int → Int → Int → Int
  layoutSizes : List Int → List Int → List Int → Int → Int → Int → Int → List Int
  children : List LayoutChild
  parentPass : List IntVector2

/-- A clamp function that checks the lower bound first, to instantiate
`LayoutContext.Clamp` in examples. -/
def Clamp (value lo hi : Int) : Int :=
  if value < lo then lo else if value > hi then hi else value

/-- The surroundings of an element with no parent and no children. -/
def LayoutContext.alone : LayoutContext :=
  { Clamp := Urho3D.Clamp, layoutSizes := fun sizes _ _ _ _ _ _ => sizes, children := [],
    parentPass := [] }

/-- The surroundings of an element whose parent requests the size (7, 7) and
which has one visible child of size (30, 40) with minimum size (3, 4). -/
def LayoutContext.sample : LayoutContext :=
  { Clamp := Urho3D.Clamp, layoutSizes := fun sizes _ _ _ _ _ _ => sizes,
    children := [{ visible_ := true, size_ := { x_ := 30, y_ := 40 },
                   minSize_ := { x_ := 3, y_ := 4 },
                   maxSize_ := { x_ := M_MAX_INT, y_ := M_MAX_INT }, indentWidth := 0 }],
    parentPass := [{ x_ := 7, y_ := 7 }] }

/-- What the theorems ask of the parameter `Clamp`: for ordered bounds the
result lies between them. -/
def ClampInRange (clamp : Int → Int → Int → Int) : Prop :=
  ∀ value lo hi : Int, lo ≤ hi → lo ≤ clamp value lo hi ∧ clamp value lo hi ≤ hi

/-- `UIElement::CalculateLayoutParentSize` (lines 1712-1727); `go` is its
loop. -/
def CalculateLayoutParentSize (sizes : List Int) (begin_ end_ spacing : Int) : Int :=
  let rec go : List Int → Int → Int
    | [], width => width - spacing
    | size :: rest, width =>
        if size = M_MAX_INT then M_MAX_INT else go rest (width + (size + spacing))
  if sizes = [] then begin_ + end_ else go sizes (begin_ + end_)

/-- The child sizes after `UIElement::CalculateLayout` (lines 1729-1818): with
no children the function returns at once (line 1733), otherwise the sizes are
those of the context. -/
def CalculateLayout (ctx : LayoutContext) (sizes minSizes maxSizes : List Int)
    (targetSize begin_ end_ spacing : Int) : List Int :=
  if sizes.length = 0 then sizes
  else ctx.layoutSizes sizes minSizes maxSizes targetSize begin_ end_ spacing

/-- `UIElement::SetSize(const IntVector2&)` (lines 564-597), with the two calls
it makes on other code as arguments: `parentUpdateLayout` for
`parent_->UpdateLayout()` and `updateLayout` for the receiver's own
`UpdateLayout()`.  `MarkDirty`, `OnResize` and the `E_RESIZED` event do not
write the members carried here. -/
def SetSizeWith (ctx : LayoutContext) (parentUpdateLayout updateLayout : ElementSize → ElementSize)
    (e : ElementSize) (size : IntVector2) : ElementSize :=
  let e1 := { e with resizeNestingLevel_ := e.resizeNestingLevel_ + 1 }
  let validatedSize : IntVector2 :=
    { x_ := ctx.Clamp size.x_ e1.minSize_.x_ e1.maxSize_.x_,
      y_ := ctx.Clamp size.y_ e1.minSize_.y_ e1.maxSize_.y_ }
  let e2 :=
    if validatedSize ≠ e1.size_ then
      let e3 := { e1 with size_ := validatedSize }
      if e3.resizeNestingLevel_ = 1 then updateLayout (parentUpdateLayout e3)
      else e3
    else e1
  { e2 with resizeNestingLevel_ := e2.resizeNestingLevel_ - 1 }

/-- The effect of `parent_->UpdateLayout()` (called at line 580) on the
receiver: the parent's loop calls `SetSize` on the receiver with the sizes of
`parentPass`.  These calls are entered with `resizeNestingLevel_ == 1`, so
they only validate and store the size: their own calls of `UpdateLayout` are
not reached. -/
def parentUpdateLayout (ctx : LayoutContext) (e : ElementSize) : ElementSize :=
  ctx.parentPass.foldl (fun acc size => SetSizeWith ctx id id acc size) e

/-- The lines 978-981 of `UpdateLayout`, repeated at 1018-1021: "respect fixed
size if already set". -/
def respectFixedSize (e : ElementSize) (minWidth minHeight : Int) : ElementSize :=
  let e1 : ElementSize :=
    if e.minSize_.x_ ≠ e.maxSize_.x_ then
      { e with minSize_ := { e.minSize_ with x_ := minWidth } }
    else e
  if e1.minSize_.y_ ≠ e1.maxSize_.y_ then
    { e1 with minSize_ := { e1.minSize_ with y_ := minHeight } }
  else e1

/-- The branch `layoutMode_ == LM_HORIZONTAL` of `UpdateLayout` (lines
955-996), up to and including its call of `SetSize`.  That call runs with
`layoutNestingLevel_` raised, so the `UpdateLayout()` inside it returns at
line 943: the identity stands for it. -/
def layoutHorizontal (ctx : LayoutContext) (e : ElementSize) : ElementSize :=
  let visible : List LayoutChild := ctx.children.filter (fun c => c.visible_)
  let border : IntRect := e.layoutBorder_
  let sizes0 : List Int := visible.map (fun c => c.size_.x_ + c.indentWidth)
  let minSizes : List Int := visible.map (fun c => c.minSize_.x_ + c.indentWidth)
  let maxSizes : List Int := visible.map (fun c => c.maxSize_.x_ + c.indentWidth)
  let minChildHeight : Int :=
    visible.foldl (fun (m : Int) (c : LayoutChild) => max m c.minSize_.y_) (0 : Int)
  let sizes : List Int := CalculateLayout ctx sizes0 minSizes maxSizes e.size_.x_
    border.left_ border.right_ e.layoutSpacing_
  let width : Int := CalculateLayoutParentSize sizes border.left_ border.right_
    e.layoutSpacing_
  let height : Int := max e.size_.y_ (minChildHeight + border.top_ + border.bottom_)
  let minWidth : Int := min (CalculateLayoutParentSize minSizes border.left_ border.right_
    e.layoutSpacing_) e.maxSize_.x_
  let minHeight : Int := min (minChildHeight + border.top_ + border.bottom_) e.maxSize_.y_
  SetSizeWith ctx (parentUpdateLayout ctx) id (respectFixedSize e minWidth minHeight)
    { x_ := width, y_ := height }

/-- The branch `layoutMode_ == LM_VERTICAL` of `UpdateLayout` (lines
997-1035), up to and including its call of `SetSize`, as in the horizontal
branch. -/
def layoutVertical (ctx : LayoutContext) (e : ElementSize) : ElementSize :=
  let visible : List LayoutChild := ctx.children.filter (fun c => c.visible_)
  let border : IntRect := e.layoutBorder_
  let sizes0 : List Int := visible.map (fun c => c.size_.y_)
  let minSizes : List Int := visible.map (fun c => c.minSize_.y_)
  let maxSizes : List Int := visible.map (fun c => c.maxSize_.y_)
  let minChildWidth : Int :=
    visible.foldl (fun (m : Int) (c : LayoutChild) => max m (c.minSize_.x_ + c.indentWidth))
      (0 : Int)
  let sizes : List Int := CalculateLayout ctx sizes0 minSizes maxSizes e.size_.y_
    border.top_ border.bottom_ e.layoutSpacing_
  let height : Int := CalculateLayoutParentSize sizes border.top_ border.bottom_
    e.layoutSpacing_
  let width : Int := max e.size_.x_ (minChildWidth + border.left_ + border.right_)
  let minHeight : Int := min (CalculateLayoutParentSize minSizes border.top_ border.bottom_
    e.layoutSpacing_) e.maxSize_.y_
  let minWidth : Int := min (minChildWidth + border.left_ + border.right_) e.maxSize_.x_
  SetSizeWith ctx (parentUpdateLayout ctx) id (respectFixedSize e minWidth minHeight)
    { x_ := width, y_ := height }

/-- `UIElement::UpdateLayout` (lines 940-1044) on the receiver, between
`DisableLayoutUpdate` and `EnableLayoutUpdate`.  The loops over the children
that end each branch write positions and sizes of the children only. -/
def UpdateLayout (ctx : LayoutContext) (e : ElementSize) : ElementSize :=
  if e.layoutMode_ = LayoutMode.LM_FREE ∨ e.layoutNestingLevel_ ≠ 0 then e
  else
    let e1 : ElementSize := { e with layoutNestingLevel_ := e.layoutNestingLevel_ + 1 }
    let e2 : ElementSize :=
      if e1.layoutMode_ = LayoutMode.LM_HORIZONTAL then
        layoutHorizontal ctx e1
      else if e1.layoutMode_ = LayoutMode.LM_VERTICAL then
        layoutVertical ctx e1
      else e1
    { e2 with layoutNestingLevel_ := e2.layoutNestingLevel_ - 1 }

/-- `UIElement::SetSize(const IntVector2&)` (lines 564-597). -/
def SetSize (ctx : LayoutContext) (e : ElementSize) (size : IntVector2) : ElementSize :=
  SetSizeWith ctx (parentUpdateLayout ctx) (UpdateLayout ctx) e size

/-- `UIElement::SetWidth` (lines 604-607). -/
def SetWidth (ctx : LayoutContext) (e : ElementSize) (width : Int) : ElementSize :=
  SetSize ctx e { x_ := width, y_ := e.size_.y_ }

/-- `UIElement::SetHeight` (lines 609-612). -/
def SetHeight (ctx : LayoutContext) (e : ElementSize) (height : Int) : ElementSize :=
  SetSize ctx e { x_ := e.size_.x_, y_ := height }

/-- `UIElement::SetMinSize(const IntVector2&)` (lines 614-619). -/
def SetMinSize (ctx : LayoutContext) (e : ElementSize) (minSize : IntVector2) : ElementSize :=
  let e1 := { e with minSize_ := { x_ := max minSize.x_ 0, y_ := max minSize.y_ 0 } }
  SetSize ctx e1 e1.size_

/-- `UIElement::SetMinWidth` (lines 626-629). -/
def SetMinWidth (ctx : LayoutContext) (e : ElementSize) (width : Int) : ElementSize :=
  SetMinSize ctx e { x_ := width, y_ := e.minSize_.y_ }

/-- `UIElement::SetMinHeight` (lines 631-634). -/
def SetMinHeight (ctx : LayoutContext) (e : ElementSize) (height : Int) : ElementSize :=
  SetMinSize ctx e { x_ := e.minSize_.x_, y_ := height }

/-- `UIElement::SetMaxSize(const IntVector2&)` (lines 636-641). -/
def SetMaxSize (ctx : LayoutContext) (e : ElementSize) (maxSize : IntVector2) : ElementSize :=
  let e1 := { e with maxSize_ := { x_ := max maxSize.x_ 0, y_ := max maxSize.y_ 0 } }
  SetSize ctx e1 e1.size_

/-- `UIElement::SetMaxWidth` (lines 648-651). -/
def SetMaxWidth (ctx : LayoutContext) (e : ElementSize) (width : Int) : ElementSize :=
  SetMaxSize ctx e { x_ := width, y_ := e.maxSize_.y_ }

/-- `UIElement::SetMaxHeight` (lines 653-656). -/
def SetMaxHeight (ctx : LayoutContext) (e : ElementSize) (height : Int) : ElementSize :=
  SetMaxSize ctx e { x_ := e.maxSize_.x_, y_ := height }

/-- `UIElement::SetFixedSize(const IntVector2&)` (lines 658-662). -/
def SetFixedSize (ctx : LayoutContext) (e : ElementSize) (size : IntVector2) : ElementSize :=
  let fixed : IntVector2 := { x_ := max size.x_ 0, y_ := max size.y_ 0 }
  SetSize ctx { e with minSize_ := fixed, maxSize_ := fixed } size

/-- `UIElement::SetFixedWidth` (lines 669-673). -/
def SetFixedWidth (ctx : LayoutContext) (e : ElementSize) (width : Int) : ElementSize :=
  SetWidth ctx { e with
    minSize_ := { e.minSize_ with x_ := max width 0 }
    maxSize_ := { e.maxSize_ with x_ := max width 0 } } width

/-- `UIElement::SetFixedHeight` (lines 675-679). -/
def SetFixedHeight (ctx : LayoutContext) (e : ElementSize) (height : Int) : ElementSize :=
  SetHeight ctx { e with
    minSize_ := { e.minSize_ with y_ := max height 0 }
    maxSize_ := { e.maxSize_ with y_ := max height 0 } } height

/-- A call of one of the size setters, with its arguments. -/
inductive SizeCall where
  | SetSize (size : IntVector2)
  | SetWidth (width : Int)
  | SetHeight (height : Int)
  | SetMinSize (minSize : IntVector2)
  | SetMinWidth (width : Int)
  | SetMinHeight (height : Int)
  | SetMaxSize (maxSize : IntVector2)
  | SetMaxWidth (width : Int)
  | SetMaxHeight (height : Int)
  | SetFixedSize (size : IntVector2)
  | SetFixedWidth (width : Int)
  | SetFixedHeight (height : Int)
deriving DecidableEq, Repr

/-- The element after the call. -/
def SizeCall.apply (ctx : LayoutContext) (e : ElementSize) : SizeCall → ElementSize
  | SizeCall.SetSize size => Urho3D.SetSize ctx e size
  | SizeCall.SetWidth width => Urho3D.SetWidth ctx e width
  | SizeCall.SetHeight height => Urho3D.SetHeight ctx e height
  | SizeCall.SetMinSize minSize => Urho3D.SetMinSize ctx e minSize
  | SizeCall.SetMinWidth width => Urho3D.SetMinWidth ctx e width
  | SizeCall.SetMinHeight height => Urho3D.SetMinHeight ctx e height
  | SizeCall.SetMaxSize maxSize => Urho3D.SetMaxSize ctx e maxSize
  | SizeCall.SetMaxWidth width => Urho3D.SetMaxWidth ctx e width
  | SizeCall.SetMaxHeight height => Urho3D.SetMaxHeight ctx e height
  | SizeCall.SetFixedSize size => Urho3D.SetFixedSize ctx e size
  | SizeCall.SetFixedWidth width => Urho3D.SetFixedWidth ctx e width
  | SizeCall.SetFixedHeight height => Urho3D.SetFixedHeight ctx e height

/-- The size respects the limits on both axes: `minSize_ <= size_ <=
maxSize_`. -/
def ElementSize.WithinLimits (e : ElementSize) : Prop :=
  (e.minSize_.x_ ≤ e.size_.x_ ∧ e.size_.x_ ≤ e.maxSize_.x_) ∧
  (e.minSize_.y_ ≤ e.size_.y_ ∧ e.size_.y_ ≤ e.maxSize_.y_)

/-- The size respects the limits on every axis whose limits are ordered. -/
def ElementSize.WithinOrderedLimits (e : ElementSize) : Prop :=
  (e.minSize_.x_ ≤ e.maxSize_.x_ →
    e.minSize_.x_ ≤ e.size_.x_ ∧ e.size_.x_ ≤ e.maxSize_.x_) ∧
  (e.minSize_.y_ ≤ e.maxSize_.y_ →
    e.minSize_.y_ ≤ e.size_.y_ ∧ e.size_.y_ ≤ e.maxSize_.y_)

/-- The width is fixed at `m`: `minSize_.x_`, `maxSize_.x_` and `size_.x_` are
all `m`. -/
def ElementSize.FixedX (e : ElementSize) (m : Int) : Prop :=
  e.minSize_.x_ = m ∧ e.maxSize_.x_ = m ∧ e.size_.x_ = m

/-- The height is fixed at `m`: `minSize_.y_`, `maxSize_.y_` and `size_.y_`
are all `m`. -/
def ElementSize.FixedY (e : ElementSize) (m : Int) : Prop :=
  e.minSize_.y_ = m ∧ e.maxSize_.y_ = m ∧ e.size_.y_ = m

/-! ## Part 4. UIElement: priorities, alignment, event sender and sorting
(embedded from `UIElement.cpp`)

These operations work on the heap `UI` of Part 2.  The accessors of the header
(`GetParent`, `GetPriority`, `IsEnabled`, `GetBringToFront`, `GetChildren`,
`GetLayoutMode`, the alignment getters) return the member of the same name.
A priority is an `int`: a decrement is followed by `wrapInt`, the reduction
to 32 bits in two's complement. -/

/-- The smallest `int`, the start value of `maxPriority` in `BringToFront`. -/
def M_MIN_INT : Int := -2147483648

/-- The value of an `int` expression: `x` reduced to 32 bits, two's
complement. -/
def wrapInt (x : Int) : Int := (x + 2147483648) % 4294967296 - 2147483648

/-- The loop of `UIElement::GetRoot` (lines 1425-1426) started at `root`:
`none` when `fuel` iterations did not end it. -/
def climbToRoot (ui : UI) : Nat → Nat → Option Nat
  | 0, root => if (ui root).parent_ = none then some root else none
  | fuel + 1, root =>
      match (ui root).parent_ with
      | none => some root
      | some parent => climbToRoot ui fuel parent

/-- `UIElement::GetRoot` (lines 1420-1428).  The outer `none` says that the
loop did not end within `fuel` iterations; `some none` is the null pointer. -/
def GetRoot (ui : UI) (fuel : Nat) (this : Nat) : Option (Option Nat) :=
  match (ui this).parent_ with
  | none => some none
  | some root => (climbToRoot ui fuel root).map some

/-- The loop of `BringToFront` that follows the parent chain to the top level
window (lines 1064-1066), started at `ptr`: it ends at the null pointer or at
the first element whose parent is `root`.  The outer `none` says that `fuel`
iterations did not end it. -/
def topLevelWindow (ui : UI) (root : Nat) : Nat → Option Nat → Option (Option Nat)
  | _, none => some none
  | 0, some ptr => if (ui ptr).parent_ = some root then some (some ptr) else none
  | fuel + 1, some ptr =>
      if (ui ptr).parent_ = some root then some (some ptr)
      else topLevelWindow ui root fuel (ui ptr).parent_

/-- `UIElement::SetPriority` (lines 746-751). -/
def SetPriority (ui : UI) (this : Nat) (priority : Int) : UI :=
  let ui1 := ui.set this { ui this with priority_ := priority }
  match (ui1 this).parent_ with
  | some parent => ui1.set parent { ui1 parent with sortOrderDirty_ := true }
  | none => ui1

/-- The test of both loops of `BringToFront` (lines 1080 and 1104):
`other->IsEnabled() && other->bringToBack_ && other != ptr`. -/
def takenIntoAccount (ui : UI) (ptr other : Nat) : Bool :=
  (ui other).enabled_ && (ui other).bringToBack_ && decide (other ≠ ptr)

/-- The body of the first loop of `BringToFront` (lines 1079-1088): the state
is the set `usedPriorities` (a list) and `maxPriority`. -/
def notePriority (ui : UI) (ptr : Nat) (state : List Int × Int) (other : Nat) :
    List Int × Int :=
  if takenIntoAccount ui ptr other then
    let priority := (ui other).priority_
    if priority = M_MAX_INT then state
    else (priority :: state.1, max priority state.2)
  else state

/-- The loop `while (usedPriorities.Contains(minPriority)) --minPriority;` of
`BringToFront` (lines 1096-1097): `none` when `fuel` iterations did not end
it. -/
def firstUnusedBelow (used : List Int) : Nat → Int → Option Int
  | 0, minPriority => if minPriority ∈ used then none else some minPriority
  | fuel + 1, minPriority =>
      if minPriority ∈ used then firstUnusedBelow used fuel (wrapInt (minPriority - 1))
      else some minPriority

/-- The body of the second loop of `BringToFront` (lines 1101-1105). -/
def lowerPriority (ptr : Nat) (minPriority maxPriority : Int) (ui : UI) (other : Nat) : UI :=
  let priority := (ui other).priority_
  if takenIntoAccount ui ptr other ∧ priority ≥ minPriority ∧ priority ≤ maxPriority then
    SetPriority ui other (wrapInt (priority - 1))
  else ui

/-- `UIElement::BringToFront` (lines 1056-1108).  The result is `none` only
when one of its loops did not end within `fuel` iterations. -/
def BringToFront (fuel : Nat) (ui : UI) (this : Nat) : Option UI :=
  match GetRoot ui fuel this with
  | none => none
  | some none => some ui
  | some (some root) =>
      match topLevelWindow ui root fuel (some this) with
      | none => none
      | some none => some ui
      | some (some ptr) =>
          if (ui ptr).bringToFront_ = false then some ui
          else
            let rootChildren := (ui root).children_
            let noted := rootChildren.foldl (notePriority ui ptr) ([], M_MIN_INT)
            let maxPriority := noted.2
            if maxPriority ≠ M_MIN_INT ∧ maxPriority ≥ (ui ptr).priority_ then
              let ui1 := SetPriority ui ptr maxPriority
              match firstUnusedBelow noted.1 fuel maxPriority with
              | none => none
              | some minPriority =>
                  some (rootChildren.foldl (lowerPriority ptr minPriority maxPriority) ui1)
            else some ui

/-- `UIElement::SetAlignment` (lines 681-685). -/
def SetAlignment (ui : UI) (this : Nat) (hAlign : HorizontalAlignment)
    (vAlign : VerticalAlignment) : UI :=
  SetVerticalAlignment (SetHorizontalAlignment ui this hAlign) this vAlign

/-- `UIElement::SetLayoutMode` (lines 903-908); `UpdateLayout` writes sizes
and positions only and is left out. -/
def SetLayoutMode (ui : UI) (this : Nat) (mode : LayoutMode) : UI :=
  VerifyChildAlignment (ui.set this { ui this with layoutMode_ := mode }) this

/-- `UIElement::SetLayout` (lines 894-901); `layoutSpacing_` and
`layoutBorder_` are not among the members of the heap, and `UpdateLayout`
writes sizes and positions only. -/
def SetLayout (ui : UI) (this : Nat) (mode : LayoutMode) (_spacing : Int) (_border : IntRect) :
    UI :=
  VerifyChildAlignment (ui.set this { ui this with layoutMode_ := mode }) this

/-- A call of one of the operations on alignment, layout mode and the tree,
with its receiver and arguments. -/
inductive UIOp where
  | SetHorizontalAlignment (this : Nat) (align : HorizontalAlignment)
  | SetVerticalAlignment (this : Nat) (align : VerticalAlignment)
  | SetAlignment (this : Nat) (hAlign : HorizontalAlignment) (vAlign : VerticalAlignment)
  | SetLayout (this : Nat) (mode : LayoutMode) (spacing : Int) (border : IntRect)
  | SetLayoutMode (this : Nat) (mode : LayoutMode)
  | InsertChild (this : Nat) (index : Nat) (element : Option Nat)
deriving DecidableEq, Repr

/-- The heap after the call; `none` when `InsertChild` ran out of fuel. -/
def UIOp.apply (fuel : Nat) (ui : UI) : UIOp → Option UI
  | UIOp.SetHorizontalAlignment this align => some (Urho3D.SetHorizontalAlignment ui this align)
  | UIOp.SetVerticalAlignment this align => some (Urho3D.SetVerticalAlignment ui this align)
  | UIOp.SetAlignment this hAlign vAlign => some (Urho3D.SetAlignment ui this hAlign vAlign)
  | UIOp.SetLayout this mode spacing border => some (Urho3D.SetLayout ui this mode spacing border)
  | UIOp.SetLayoutMode this mode => some (Urho3D.SetLayoutMode ui this mode)
  | UIOp.InsertChild this index element => Urho3D.InsertChild fuel ui this index element

/-- The heap after a sequence of calls, each with the given fuel. -/
def runOps (fuel : Nat) : UI → List UIOp → Option UI
  | ui, [] => some ui
  | ui, op :: rest =>
      match op.apply fuel ui with
      | none => none
      | some ui1 => runOps fuel ui1 rest

/-- The heap in which every element is freshly constructed. -/
def freshHeap : UI := fun _ => UIElement.new

/-- The alignment of element `x` is forced by the layout of its parent: it is
aligned left when the parent has a horizontal layout and to the top when the
parent has a vertical layout. -/
def AlignmentForcedAt (ui : UI) (x : Nat) : Prop :=
  ∀ p : Nat, (ui x).parent_ = some p →
    ((ui p).layoutMode_ = LayoutMode.LM_HORIZONTAL →
      (ui x).horizontalAlignment_ = HorizontalAlignment.HA_LEFT) ∧
    ((ui p).layoutMode_ = LayoutMode.LM_VERTICAL →
      (ui x).verticalAlignment_ = VerticalAlignment.VA_TOP)

/-- Alignment is forced under a layout: every element whose parent has a
horizontal layout is aligned left, and every element whose parent has a
vertical layout is aligned to the top. -/
def AlignmentForced (ui : UI) : Prop :=
  ∀ x : Nat, AlignmentForcedAt ui x

/-- The loop of `UIElement::GetElementEventSender` (lines 1574-1579) and the
return after it (line 1582), started at `element`: `none` when `fuel`
iterations did not end the loop. -/
def eventSenderLoop (ui : UI) : Nat → Nat → Option Nat
  | 0, element => if (ui element).parent_ = none then some element else none
  | fuel + 1, element =>
      match (ui element).parent_ with
      | none => some element
      | some parent =>
          if (ui parent).elementEventSender_ then some parent
          else eventSenderLoop ui fuel parent

/-- `UIElement::GetElementEventSender` (lines 1568-1583).  The outer `none`
says that the loop did not end within `fuel` iterations; the inner value is
the pointer returned, `none` for the null pointer. -/
def GetElementEventSender (ui : UI) (fuel : Nat) (this : Nat) : Option (Option Nat) :=
  if (ui this).elementEventSender_ then some (some this)
  else (eventSenderLoop ui fuel this).map some

/-- `CompareUIElements` (lines 85-88). -/
def CompareUIElements (ui : UI) (lhs rhs : Nat) : Bool :=
  decide ((ui lhs).priority_ < (ui rhs).priority_)

/-- `UIElement::SortChildren` (lines 1504-1513).  `sortBy` stands for the
engine's function `Sort`, whose definition is not among the sources; it is a
parameter. -/
def SortChildren (sortBy : (Nat → Nat → Bool) → List Nat → List Nat) (ui : UI) (this : Nat) :
    UI :=
  if (ui this).sortChildren_ = true ∧ (ui this).sortOrderDirty_ = true then
    let ui1 :=
      if (ui this).layoutMode_ = LayoutMode.LM_FREE then
        ui.set this { ui this with
          children_ := sortBy (CompareUIElements ui) (ui this).children_ }
      else ui
    ui1.set this { ui1 this with sortOrderDirty_ := false }
  else ui

/-- What the theorems ask of the parameter `sortBy` for the comparison
`less`: the result is a rearrangement of the input in which no element is
followed by one that compares less than it. -/
def SortsBy (sortBy : (Nat → Nat → Bool) → List Nat → List Nat) (less : Nat → Nat → Bool) :
    Prop :=
  ∀ l : List Nat,
    (sortBy less l).Perm l ∧ (sortBy less l).Pairwise (fun a b => less b a = false)

/-- An insertion sort, to instantiate the parameter `sortBy` in examples. -/
def insertionSortBy (less : Nat → Nat → Bool) (l : List Nat) : List Nat :=
  l.insertionSort (fun a b => less b a = false)

/-- A heap with a root 0 and three top level windows: 1 (priority 0, brings to
front, not enabled), 2 (priority 5, enabled) and 3 (priority 5, enabled);
element 4 is a child of 1. -/
def sampleWindows : UI :=
  fun i =>
    match i with
    | 0 => { UIElement.new with children_ := [1, 2, 3] }
    | 1 => { UIElement.new with parent_ := some 0, children_ := [4], bringToFront_ := true }
    | 2 => { UIElement.new with parent_ := some 0, priority_ := 5, enabled_ := true }
    | 3 => { UIElement.new with parent_ := some 0, priority_ := 5, enabled_ := true }
    | 4 => { UIElement.new with parent_ := some 1 }
    | _ => UIElement.new

/-- A heap with a root 0 and two top level windows that both have the priority
`M_MIN_INT`: 1 brings to front, 2 is enabled. -/
def lowestWindows : UI :=
  fun i =>
    match i with
    | 0 => { UIElement.new with children_ := [1, 2] }
    | 1 => { UIElement.new with
             parent_ := some 0
             bringToFront_ := true
             priority_ := M_MIN_INT }
    | 2 => { UIElement.new with parent_ := some 0, priority_ := M_MIN_INT, enabled_ := true }
    | _ => UIElement.new

/-- The sample windows with the children of the root in the order 2, 1, 3 and
the sort order of the root marked dirty. -/
def unsortedWindows : UI :=
  fun i =>
    if i = 0 then { sampleWindows 0 with children_ := [2, 1, 3], sortOrderDirty_ := true }
    else sampleWindows i

/-! ## Theorems, part 1: the hot-reload orchestrator -/

/-- A property kept by every step holds along every run. -/
theorem RCCpp.run_induction (P : RCCpp → Prop) (hstep : ∀ s e, P s → P (s.step e))
    (events : List Event) : ∀ s : RCCpp, P s → P (s.run events) := by
  induction events with
  | nil => intro s hs; exact hs
  | cons e rest ih =>
      intro s hs
      exact ih (s.step e) (hstep s e hs)

/-- Every step leaves at most one job in flight if there was at most one. -/
theorem RCCpp.step_workers_le_one (s : RCCpp) (e : Event) (h : s.workers.length ≤ 1) :
    (s.step e).workers.length ≤ 1 := by
  cases e with
  | FileChanged path =>
      simp only [RCCpp.step, RCCpp.CompileAsync]
      split
      · simp
      · exact h
  | WorkerFinished ok =>
      simpa [RCCpp.step, RCCpp.workerFinished] using h
  | PostUpdate file =>
      simp only [RCCpp.step, RCCpp.HandlePostUpdate]
      split
      · split
        · exact h
        · simp [RCCpp.fail]
        · split
          · simp [RCCpp.ReloadLibrary]
          · simp [RCCpp.fail]
      · exact h
  | Settle =>
      simp only [RCCpp.step]
      split
      · exact h
      · exact h

/-- A change notification is ignored while a job is in flight. -/
theorem RCCpp.changes_ignored (changes : List String) :
    ∀ s : RCCpp, s.workers ≠ [] → s.run (changes.map Event.FileChanged) = s := by
  induction changes with
  | nil => intro s _; rfl
  | cons c rest ih =>
      intro s hs
      have h1 : s.step (Event.FileChanged c) = s := by
        simp [RCCpp.step, RCCpp.CompileAsync, hs]
      simp only [List.map_cons, RCCpp.run, List.foldl_cons, h1]
      exact ih s hs

/-- C1 (single flight).  In every state the orchestrator reaches from its fresh
state, at most one compilation job is in flight; and in every reachable state
in which a compilation is running, any sequence of file-change notifications
leaves the state as it is: the job in flight is the same and the number of
worker threads ever started has not grown. -/
theorem RCCpp.single_flight (mainFile : String) (events : List Event) (changes : List String) :
    ((RCCpp.fresh mainFile).run events).workers.length ≤ 1 ∧
    (((RCCpp.fresh mainFile).run events).workers ≠ [] →
      (((RCCpp.fresh mainFile).run events).run (changes.map Event.FileChanged)).workers
          = ((RCCpp.fresh mainFile).run events).workers ∧
      (((RCCpp.fresh mainFile).run events).run (changes.map Event.FileChanged)).workersStarted
          = ((RCCpp.fresh mainFile).run events).workersStarted ∧
      (((RCCpp.fresh mainFile).run events).run (changes.map Event.FileChanged)).workers.length
          ≤ 1) := by
  have hinv : ((RCCpp.fresh mainFile).run events).workers.length ≤ 1 :=
    RCCpp.run_induction (fun s => s.workers.length ≤ 1) RCCpp.step_workers_le_one events
      (RCCpp.fresh mainFile) (by simp [RCCpp.fresh])
  refine ⟨hinv, ?_⟩
  intro hrun
  rw [RCCpp.changes_ignored changes _ hrun]
  exact ⟨rfl, rfl, hinv⟩

/-- The events that start a compilation in the fresh orchestrator of `a.cpp`. -/
theorem RCCpp.single_flight_witness :
    ((RCCpp.fresh "a.cpp").run [Event.FileChanged "a.cpp"]).workers ≠ [] ∧
    (((RCCpp.fresh "a.cpp").run [Event.FileChanged "a.cpp"]).run
        (["a.cpp", "b.h", "a.cpp"].map Event.FileChanged)).workersStarted = 1 := by
  refine ⟨by decide, ?_⟩
  rw [((RCCpp.single_flight "a.cpp" [Event.FileChanged "a.cpp"] ["a.cpp", "b.h", "a.cpp"]).2
    (by decide)).2.1]
  decide

/-- A load succeeds exactly for a module file that loads, and then every
pointer of the module carries the handle just opened. -/
theorem LoadLib_cases (t : ModuleTable) (libraryPath : String) (file : ModuleFile) :
    (file.loads = true ∧
      LoadLib t libraryPath file =
        (some { libraryPath := libraryPath, library_ := t.nextHandle,
                createObject_ := t.nextHandle, destroyObject_ := t.nextHandle },
         { openHandles := t.nextHandle :: t.openHandles, nextHandle := t.nextHandle + 1 })) ∨
    (file.loads = false ∧ (LoadLib t libraryPath file).1 = none ∧
      (LoadLib t libraryPath file).2.openHandles = t.openHandles) := by
  rcases file with ⟨o, c, d⟩
  cases o <;> cases c <;> cases d <;>
    simp [LoadLib, ModuleFile.loads, ResolveCreateFunction, ResolveDestroyFunction, UnloadLib]

/-- C6 (library loading is all or nothing).  `LoadLib` returns true (a loaded
module) exactly when the module was opened and both the create and the destroy
function were resolved; if either symbol is missing it returns false and the
handle it had just opened is released, so that the process holds the same open
handles as before the call. -/
theorem LoadLib_all_or_nothing (t : ModuleTable) (libraryPath : String) (file : ModuleFile) :
    ((LoadLib t libraryPath file).1.isSome = true ↔
      file.opens = true ∧ file.hasCreate = true ∧ file.hasDestroy = true) ∧
    ((LoadLib t libraryPath file).1.isSome = true →
      ∃ m, (LoadLib t libraryPath file).1 = some m ∧ m.libraryPath = libraryPath ∧
        ResolveCreateFunction file m.library_ = some m.createObject_ ∧
        ResolveDestroyFunction file m.library_ = some m.destroyObject_ ∧
        m.library_ ∈ (LoadLib t libraryPath file).2.openHandles) ∧
    ((file.hasCreate = false ∨ file.hasDestroy = false) →
      (LoadLib t libraryPath file).1 = none ∧
      (LoadLib t libraryPath file).2.openHandles = t.openHandles) := by
  rcases file with ⟨o, c, d⟩
  cases o <;> cases c <;> cases d <;>
    simp [LoadLib, ResolveCreateFunction, ResolveDestroyFunction, UnloadLib]

/-- A module that opens but lacks the destroy symbol: nothing is loaded and the
handle table is as before. -/
theorem LoadLib_all_or_nothing_witness :
    (LoadLib { openHandles := [0], nextHandle := 1 } "a.cpp.lib"
        { opens := true, hasCreate := true, hasDestroy := false }).1 = none ∧
    (LoadLib { openHandles := [0], nextHandle := 1 } "a.cpp.lib"
        { opens := true, hasCreate := true, hasDestroy := false }).2.openHandles = [0] :=
  (LoadLib_all_or_nothing { openHandles := [0], nextHandle := 1 } "a.cpp.lib"
    { opens := true, hasCreate := true, hasDestroy := false }).2.2 (Or.inr rfl)

/-- C2 (no regression on failure).  For every reload attempt that starts in
`Idle` with no job in flight and in which the compilation fails or the library
does not load, the attempt ends in `Failed`, and `GetLibraryPath`, the live
object and the active module are the same after the attempt as before it.
The previous module and object are left untouched: the only adapter call of
the attempt is the compilation, so neither `DestroyObject` nor `UnloadLibrary`
is called, no object is created, and the process holds the same open module
handles as before, the handle of the previous module among them. -/
theorem RCCpp.no_regression_on_failure (s : RCCpp) (path : String) (ok : Bool)
    (file : ModuleFile) (hidle : s.phase = Phase.Idle) (hjobs : s.workers = [])
    (hfail : ok = false ∨ file.loads = false) :
    (s.cycle path ok file).phase = Phase.Failed ∧
    (s.cycle path ok file).GetLibraryPath = s.GetLibraryPath ∧
    (s.cycle path ok file).liveObject = s.liveObject ∧
    (s.cycle path ok file).active = s.active ∧
    (s.cycle path ok file).calls = s.calls ++ [AdapterCall.Compile s.mainRCCppFile_] ∧
    (∀ c ∈ (s.cycle path ok file).calls, c ∈ s.calls ∨ c.isDestroyOrUnload = false) ∧
    (s.cycle path ok file).table.openHandles = s.table.openHandles ∧
    (∀ m, s.active = some m → m.library_ ∈ s.table.openHandles →
      m.library_ ∈ (s.cycle path ok file).table.openHandles) ∧
    (s.cycle path ok file).nextObject = s.nextObject := by
  suffices hmain : (s.cycle path ok file).phase = Phase.Failed ∧
      (s.cycle path ok file).GetLibraryPath = s.GetLibraryPath ∧
      (s.cycle path ok file).liveObject = s.liveObject ∧
      (s.cycle path ok file).active = s.active ∧
      (s.cycle path ok file).calls = s.calls ++ [AdapterCall.Compile s.mainRCCppFile_] ∧
      (s.cycle path ok file).table.openHandles = s.table.openHandles ∧
      (s.cycle path ok file).nextObject = s.nextObject by
    obtain ⟨h1, h2, h3, h4, h5, h6, h7⟩ := hmain
    refine ⟨h1, h2, h3, h4, h5, ?_, h6, ?_, h7⟩
    · intro c hc
      rw [h5] at hc
      rcases List.mem_append.mp hc with hc | hc
      · exact Or.inl hc
      · rw [List.mem_singleton.mp hc]
        exact Or.inr rfl
    · intro m _ hm
      rw [h6]; exact hm
  cases ok with
  | false =>
      simp [RCCpp.cycle, RCCpp.run, RCCpp.step, RCCpp.CompileAsync, hidle, hjobs,
        RCCpp.workerFinished, RCCpp.HandlePostUpdate, RCCpp.fail, RCCpp.GetLibraryPath]
  | true =>
      have hloads : file.loads = false := by
        rcases hfail with h | h
        · exact absurd h (by decide)
        · exact h
      rcases LoadLib_cases s.table (targetLibraryPath s.mainRCCppFile_) file with h | h
      · rw [hloads] at h
        exact absurd h.1 (by decide)
      · have hnone := h.2.1
        have hopen := h.2.2
        simp only [RCCpp.cycle, RCCpp.run, List.foldl_cons, List.foldl_nil, RCCpp.step,
          RCCpp.CompileAsync, hidle, hjobs, and_self, if_true, RCCpp.workerFinished,
          List.map_cons, List.map_nil, RCCpp.HandlePostUpdate]
        generalize hL : LoadLib s.table (targetLibraryPath s.mainRCCppFile_) file = r
          at hnone hopen
        rcases r with ⟨m, t⟩
        simp only at hnone hopen
        subst hnone
        simp [RCCpp.fail, RCCpp.GetLibraryPath, hopen]

/-- After one successful cycle, in which module 0 was loaded and is open, a
second attempt whose module lacks the create symbol fails and leaves the
library path `a.cpp.lib`, the live object and the module: only the compilation
is called and module 0 is still open. -/
theorem RCCpp.no_regression_on_failure_witness :
    (RCCpp.loadedOnce.active.map (fun m => m.library_) = some 0 ∧
      RCCpp.loadedOnce.table.openHandles = [0]) ∧
    ((RCCpp.loadedOnce.cycle "a.cpp" true
        { opens := true, hasCreate := false, hasDestroy := true }).phase = Phase.Failed ∧
    (RCCpp.loadedOnce.cycle "a.cpp" true
        { opens := true, hasCreate := false, hasDestroy := true }).GetLibraryPath
      = RCCpp.loadedOnce.GetLibraryPath ∧
    (RCCpp.loadedOnce.cycle "a.cpp" true
        { opens := true, hasCreate := false, hasDestroy := true }).liveObject
      = RCCpp.loadedOnce.liveObject ∧
    (RCCpp.loadedOnce.cycle "a.cpp" true
        { opens := true, hasCreate := false, hasDestroy := true }).active
      = RCCpp.loadedOnce.active ∧
    (RCCpp.loadedOnce.cycle "a.cpp" true
        { opens := true, hasCreate := false, hasDestroy := true }).calls
      = RCCpp.loadedOnce.calls ++ [AdapterCall.Compile RCCpp.loadedOnce.mainRCCppFile_] ∧
    (∀ c ∈ (RCCpp.loadedOnce.cycle "a.cpp" true
        { opens := true, hasCreate := false, hasDestroy := true }).calls,
      c ∈ RCCpp.loadedOnce.calls ∨ c.isDestroyOrUnload = false) ∧
    (RCCpp.loadedOnce.cycle "a.cpp" true
        { opens := true, hasCreate := false, hasDestroy := true }).table.openHandles
      = RCCpp.loadedOnce.table.openHandles ∧
    (∀ m, RCCpp.loadedOnce.active = some m →
      m.library_ ∈ RCCpp.loadedOnce.table.openHandles →
      m.library_ ∈ (RCCpp.loadedOnce.cycle "a.cpp" true
        { opens := true, hasCreate := false, hasDestroy := true }).table.openHandles) ∧
    (RCCpp.loadedOnce.cycle "a.cpp" true
        { opens := true, hasCreate := false, hasDestroy := true }).nextObject
      = RCCpp.loadedOnce.nextObject) :=
  ⟨by decide,
   RCCpp.no_regression_on_failure RCCpp.loadedOnce "a.cpp" true
    { opens := true, hasCreate := false, hasDestroy := true } (by decide) (by decide)
    (Or.inr (by decide))⟩

/-- The swap of `ReloadLibrary` keeps the pairing invariant when the create and
the destroy pointer of the new module belong to one generation. -/
theorem RCCpp.ReloadLibrary_paired (s : RCCpp) (m : LoadedModule) (t : ModuleTable)
    (hm : m.createObject_ = m.destroyObject_) (h : s.GenerationsPaired) :
    (s.ReloadLibrary m t).GenerationsPaired := by
  obtain ⟨h1, h2⟩ := h
  constructor
  · intro fn obj hmem
    simp only [RCCpp.ReloadLibrary, List.mem_append, List.mem_singleton] at hmem
    rcases hmem with (((hmem | hmem) | hmem) | hmem) | hmem
    · have := h1 fn obj hmem
      exact ⟨by simp [RCCpp.ReloadLibrary, this.1], this.2⟩
    · cases hmem
    · by_cases hfirst : s.firstCompilation_ = true
      · simp [hfirst] at hmem
      · cases hlive : s.liveObject with
        | none => simp [hfirst, hlive] at hmem
        | some o =>
            cases hact : s.active with
            | none => simp [hfirst, hlive, hact] at hmem
            | some previous =>
                simp [hfirst, hlive, hact] at hmem
                obtain ⟨hfn, hobj⟩ := hmem
                have hh := h2 o previous hlive hact
                rw [hfn, hobj]
                exact ⟨by simp [RCCpp.ReloadLibrary, hh.1], hh.2⟩
    · by_cases hfirst : s.firstCompilation_ = true
      · simp [hfirst] at hmem
      · cases hact : s.active with
        | none => simp [hfirst, hact] at hmem
        | some previous => simp [hfirst, hact] at hmem
    · cases hmem
  · intro obj m1 hlive hact
    simp only [RCCpp.ReloadLibrary, Option.some.injEq] at hlive hact
    subst hlive hact
    constructor
    · simp [RCCpp.ReloadLibrary, hm]
    · exact hm.symm

/-- Every step of the state machine keeps the pairing invariant. -/
theorem RCCpp.step_paired (s : RCCpp) (e : Event) (h : s.GenerationsPaired) :
    (s.step e).GenerationsPaired := by
  cases e with
  | FileChanged path =>
      simp only [RCCpp.step, RCCpp.CompileAsync]
      split
      · obtain ⟨h1, h2⟩ := h
        constructor
        · intro fn obj hmem
          have hmem1 : AdapterCall.DestroyObject fn obj ∈ s.calls := by simpa using hmem
          exact ⟨by simp [(h1 fn obj hmem1).1], (h1 fn obj hmem1).2⟩
        · intro obj m hlive hact
          exact ⟨by simp [(h2 obj m hlive hact).1], (h2 obj m hlive hact).2⟩
      · exact h
  | WorkerFinished ok => exact h
  | PostUpdate file =>
      simp only [RCCpp.step, RCCpp.HandlePostUpdate]
      split
      · rename_i job _ _
        split
        · exact h
        · exact h
        · rcases LoadLib_cases s.table job.target file with hl | hl
          · rw [hl.2]
            exact RCCpp.ReloadLibrary_paired s _ _ rfl h
          · split
            · rename_i m t heq
              rw [heq] at hl
              exact absurd hl.2.1 (by simp)
            · exact h
      · exact h
  | Settle =>
      simp only [RCCpp.step]
      split
      · exact h
      · exact h

/-- C3 (module and object generation pairing).  In every state the
orchestrator reaches, each call of `DestroyObject` on a live object used the
destroy function that was resolved from the same loaded library whose create
function produced that object: the create function of the same generation
`fn` produced it, and `fn` is the generation recorded in the object. -/
theorem RCCpp.generation_pairing (mainFile : String) (events : List Event) (fn : Nat)
    (obj : LiveObject) :
    AdapterCall.DestroyObject fn obj ∈ ((RCCpp.fresh mainFile).run events).calls →
      AdapterCall.CreateObject fn obj ∈ ((RCCpp.fresh mainFile).run events).calls ∧
      fn = obj.generation := by
  have hinv : ((RCCpp.fresh mainFile).run events).GenerationsPaired :=
    RCCpp.run_induction RCCpp.GenerationsPaired RCCpp.step_paired events
      (RCCpp.fresh mainFile) (by simp [RCCpp.GenerationsPaired, RCCpp.fresh])
  exact hinv.1 fn obj

/-- In two successive reloads the object of generation 0 is destroyed by the
destroy function of generation 0. -/
theorem RCCpp.generation_pairing_witness :
    AdapterCall.DestroyObject 0 { id := 0, generation := 0 }
        ∈ ((RCCpp.fresh "a.cpp").run RCCpp.twoReloads).calls ∧
    AdapterCall.CreateObject 0 { id := 0, generation := 0 }
        ∈ ((RCCpp.fresh "a.cpp").run RCCpp.twoReloads).calls ∧
    0 = ({ id := 0, generation := 0 } : LiveObject).generation :=
  ⟨by decide,
   RCCpp.generation_pairing "a.cpp" RCCpp.twoReloads 0 { id := 0, generation := 0 }
     (by decide)⟩

/-- C5 (first-cycle distinction).  From the freshly constructed orchestrator,
which has no loaded library, a successful first compilation (asynchronous, or
synchronous through `ExecuteFile`) ends in `Loaded` with a module and a live
object installed and without any call of `DestroyObject` or `UnloadLib`.  The
first cycle is told by the flag `firstCompilation_`, not by the library being
null: the flag is set in the fresh state and cleared by the first cycle; while
it is set the swap makes no `DestroyObject` or `UnloadLib` call whatever the
module pointer is; once it is cleared the swap destroys the previous object
and unloads the previous module; and a failed first cycle clears the flag
although the library is still null. -/
theorem RCCpp.first_cycle (mainFile path : String) (file : ModuleFile)
    (hloads : file.loads = true) :
    (((RCCpp.fresh mainFile).cycle path true file).phase = Phase.Loaded ∧
      ((RCCpp.fresh mainFile).cycle path true file).active ≠ none ∧
      ((RCCpp.fresh mainFile).cycle path true file).liveObject ≠ none ∧
      ∀ c ∈ ((RCCpp.fresh mainFile).cycle path true file).calls,
        c.isDestroyOrUnload = false) ∧
    (((RCCpp.fresh mainFile).ExecuteFile path true file).1 = true ∧
      ∀ c ∈ ((RCCpp.fresh mainFile).ExecuteFile path true file).2.calls,
        c.isDestroyOrUnload = false) ∧
    ((RCCpp.fresh mainFile).firstCompilation_ = true ∧
      (RCCpp.fresh mainFile).active = none ∧
      ((RCCpp.fresh mainFile).cycle path true file).firstCompilation_ = false) ∧
    (∀ (s : RCCpp) (m : LoadedModule) (t : ModuleTable), s.firstCompilation_ = true →
      ∀ c ∈ (s.ReloadLibrary m t).calls, c ∈ s.calls ∨ c.isDestroyOrUnload = false) ∧
    (∀ (s : RCCpp) (m previous : LoadedModule) (t : ModuleTable) (obj : LiveObject),
      s.firstCompilation_ = false → s.liveObject = some obj → s.active = some previous →
      AdapterCall.DestroyObject previous.destroyObject_ obj ∈ (s.ReloadLibrary m t).calls ∧
      AdapterCall.UnloadLibrary previous.library_ ∈ (s.ReloadLibrary m t).calls) ∧
    (∀ other : ModuleFile,
      ((RCCpp.fresh mainFile).cycle path false other).active = none ∧
      ((RCCpp.fresh mainFile).cycle path false other).firstCompilation_ = false) := by
  have hfile : file = { opens := true, hasCreate := true, hasDestroy := true } := by
    rcases file with ⟨o, c, d⟩
    cases o <;> cases c <;> cases d <;> simp_all [ModuleFile.loads]
  subst hfile
  refine ⟨?_, ?_, ?_, ?_, ?_, ?_⟩
  · simp [RCCpp.cycle, RCCpp.run, RCCpp.step, RCCpp.CompileAsync, RCCpp.fresh,
      RCCpp.workerFinished, RCCpp.HandlePostUpdate, LoadLib, ResolveCreateFunction,
      ResolveDestroyFunction, RCCpp.ReloadLibrary, AdapterCall.isDestroyOrUnload]
  · simp [RCCpp.ExecuteFile, RCCpp.cycle, RCCpp.run, RCCpp.step, RCCpp.CompileAsync,
      RCCpp.fresh, RCCpp.workerFinished, RCCpp.HandlePostUpdate, LoadLib,
      ResolveCreateFunction, ResolveDestroyFunction, RCCpp.ReloadLibrary,
      AdapterCall.isDestroyOrUnload]
  · simp [RCCpp.cycle, RCCpp.run, RCCpp.step, RCCpp.CompileAsync, RCCpp.fresh,
      RCCpp.workerFinished, RCCpp.HandlePostUpdate, LoadLib, ResolveCreateFunction,
      ResolveDestroyFunction, RCCpp.ReloadLibrary]
  · intro s m t hfirst c hc
    simp only [RCCpp.ReloadLibrary, hfirst, if_true, List.append_nil, List.mem_append,
      List.mem_singleton] at hc
    rcases hc with (hc | hc) | hc
    · exact Or.inl hc
    · exact Or.inr (by rw [hc]; rfl)
    · exact Or.inr (by rw [hc]; rfl)
  · intro s m previous t obj hfirst hlive hact
    simp [RCCpp.ReloadLibrary, hfirst, hlive, hact]
  · intro other
    simp [RCCpp.cycle, RCCpp.run, RCCpp.step, RCCpp.CompileAsync, RCCpp.fresh,
      RCCpp.workerFinished, RCCpp.HandlePostUpdate, RCCpp.fail]

/-- A first cycle of `a.cpp` with a module that exports both symbols. -/
theorem RCCpp.first_cycle_witness :
    ((RCCpp.fresh "a.cpp").cycle "a.cpp" true
        { opens := true, hasCreate := true, hasDestroy := true }).phase = Phase.Loaded ∧
    ((RCCpp.fresh "a.cpp").cycle "a.cpp" true
        { opens := true, hasCreate := true, hasDestroy := true }).calls
      = [AdapterCall.Compile "a.cpp", AdapterCall.LoadLibrary 0,
         AdapterCall.CreateObject 0 { id := 0, generation := 0 }] :=
  ⟨(RCCpp.first_cycle "a.cpp" "a.cpp"
      { opens := true, hasCreate := true, hasDestroy := true } (by decide)).1.1,
   by decide⟩

/-! ## Theorems, part 2: the element tree -/

/-- The heap after `set`, read at any element. -/
theorem UI.set_apply (ui : UI) (i : Nat) (e : UIElement) (j : Nat) :
    (ui.set i e) j = if j = i then e else ui j := rfl

/-- Replacing an element by one with the same parent and children changes no
parent and no child list. -/
theorem UI.set_tree (ui : UI) (this x : Nat) (e : UIElement)
    (hp : e.parent_ = (ui this).parent_) (hc : e.children_ = (ui this).children_) :
    ((ui.set this e) x).parent_ = (ui x).parent_ ∧
    ((ui.set this e) x).children_ = (ui x).children_ := by
  by_cases hx : x = this
  · subst hx; simp [UI.set_apply, hp, hc]
  · simp [UI.set_apply, hx]

/-- `SetHorizontalAlignment` changes no parent and no child list. -/
theorem SetHorizontalAlignment_tree (ui : UI) (this : Nat) (align : HorizontalAlignment)
    (x : Nat) :
    ((SetHorizontalAlignment ui this align) x).parent_ = (ui x).parent_ ∧
    ((SetHorizontalAlignment ui this align) x).children_ = (ui x).children_ := by
  unfold SetHorizontalAlignment
  simp only
  split_ifs
  · exact UI.set_tree ui this x _ rfl rfl
  · exact ⟨rfl, rfl⟩
  · exact UI.set_tree ui this x _ rfl rfl
  · exact ⟨rfl, rfl⟩

/-- `SetVerticalAlignment` changes no parent and no child list. -/
theorem SetVerticalAlignment_tree (ui : UI) (this : Nat) (align : VerticalAlignment)
    (x : Nat) :
    ((SetVerticalAlignment ui this align) x).parent_ = (ui x).parent_ ∧
    ((SetVerticalAlignment ui this align) x).children_ = (ui x).children_ := by
  unfold SetVerticalAlignment
  simp only
  split_ifs
  · exact UI.set_tree ui this x _ rfl rfl
  · exact ⟨rfl, rfl⟩
  · exact UI.set_tree ui this x _ rfl rfl
  · exact ⟨rfl, rfl⟩

/-- Re-applying the alignments of a child changes no parent and no child list. -/
theorem reapplyAlignment_tree (ui : UI) (child x : Nat) :
    ((reapplyAlignment ui child) x).parent_ = (ui x).parent_ ∧
    ((reapplyAlignment ui child) x).children_ = (ui x).children_ := by
  unfold reapplyAlignment
  constructor
  · rw [(SetVerticalAlignment_tree _ _ _ x).1, (SetHorizontalAlignment_tree _ _ _ x).1]
  · rw [(SetVerticalAlignment_tree _ _ _ x).2, (SetHorizontalAlignment_tree _ _ _ x).2]

/-- The loop of `VerifyChildAlignment` changes no parent and no child list. -/
theorem foldl_reapplyAlignment_tree (children : List Nat) :
    ∀ (ui : UI) (x : Nat),
      ((children.foldl reapplyAlignment ui) x).parent_ = (ui x).parent_ ∧
      ((children.foldl reapplyAlignment ui) x).children_ = (ui x).children_ := by
  induction children with
  | nil => intro ui x; exact ⟨rfl, rfl⟩
  | cons c rest ih =>
      intro ui x
      simp only [List.foldl_cons]
      constructor
      · rw [(ih _ x).1, (reapplyAlignment_tree ui c x).1]
      · rw [(ih _ x).2, (reapplyAlignment_tree ui c x).2]

/-- `VerifyChildAlignment` changes no parent and no child list. -/
theorem VerifyChildAlignment_tree (ui : UI) (this x : Nat) :
    ((VerifyChildAlignment ui this) x).parent_ = (ui x).parent_ ∧
    ((VerifyChildAlignment ui this) x).children_ = (ui x).children_ :=
  foldl_reapplyAlignment_tree _ ui x

/-- The null pointer has no parent chain. -/
theorem nthParent_none (ui : UI) (n : Nat) : nthParent ui n none = none := by
  induction n with
  | zero => rfl
  | succ n ih => simpa [nthParent] using ih

/-- One more step along the chain of `x` is a step from its parent. -/
theorem nthParent_succ_some (ui : UI) (n x : Nat) :
    nthParent ui (n + 1) (some x) = nthParent ui n (ui x).parent_ := rfl

/-- A chain that has ended stays ended. -/
theorem nthParent_none_of_le (ui : UI) (d : Nat) :
    ∀ (p : Option Nat), nthParent ui d p = none → ∀ k, d ≤ k → nthParent ui k p = none := by
  induction d with
  | zero =>
      intro p hp k _
      simp only [nthParent] at hp
      subst hp
      exact nthParent_none ui k
  | succ d ih =>
      intro p hp k hk
      cases p with
      | none => exact nthParent_none ui k
      | some x =>
          obtain ⟨k1, rfl⟩ : ∃ k1, k = k1 + 1 := ⟨k - 1, by omega⟩
          rw [nthParent_succ_some] at hp ⊢
          exact ih _ hp k1 (by omega)

/-- The loop of `InsertChild` ends with "no cycle" when the chain ends within
`d` steps without meeting `e` and the fuel is at least `d`. -/
theorem cyclicParentAssignment_false (ui : UI) (e : Nat) (d : Nat) :
    ∀ (p : Option Nat), nthParent ui d p = none → (∀ k, nthParent ui k p ≠ some e) →
      ∀ fuel, d ≤ fuel → cyclicParentAssignment ui e fuel p = some false := by
  induction d with
  | zero =>
      intro p hp _ fuel _
      simp only [nthParent] at hp
      subst hp
      simp [cyclicParentAssignment]
  | succ d ih =>
      intro p hp hne fuel hfuel
      cases p with
      | none => simp [cyclicParentAssignment]
      | some x =>
          obtain ⟨f, rfl⟩ : ∃ f, fuel = f + 1 := ⟨fuel - 1, by omega⟩
          have hx : x ≠ e := by
            intro h
            exact hne 0 (by simp [nthParent, h])
          simp only [cyclicParentAssignment, hx, if_false]
          exact ih _ (by rw [nthParent_succ_some] at hp; exact hp)
            (fun k => by have := hne (k + 1); rwa [nthParent_succ_some] at this) f (by omega)

/-- The loop of `InsertChild` finds `e` when it is met after `k` steps and the
fuel exceeds `k`. -/
theorem cyclicParentAssignment_true (ui : UI) (e : Nat) (k : Nat) :
    ∀ (p : Option Nat), nthParent ui k p = some e →
      ∀ fuel, k < fuel → cyclicParentAssignment ui e fuel p = some true := by
  induction k with
  | zero =>
      intro p hp fuel hfuel
      simp only [nthParent] at hp
      subst hp
      obtain ⟨f, rfl⟩ : ∃ f, fuel = f + 1 := ⟨fuel - 1, by omega⟩
      simp [cyclicParentAssignment]
  | succ k ih =>
      intro p hp fuel hfuel
      cases p with
      | none => rw [nthParent_none] at hp; cases hp
      | some x =>
          obtain ⟨f, rfl⟩ : ∃ f, fuel = f + 1 := ⟨fuel - 1, by omega⟩
          by_cases hx : x = e
          · simp [cyclicParentAssignment, hx]
          · simp only [cyclicParentAssignment, hx, if_false]
            exact ih _ (by rw [nthParent_succ_some] at hp; exact hp) f (by omega)

/-- `Remove` on `e` changes the parent of no other element. -/
theorem Remove_parent_other (ui : UI) (e x : Nat) (hx : x ≠ e) :
    ((Remove ui e) x).parent_ = (ui x).parent_ := by
  unfold Remove
  cases hq : (ui e).parent_ with
  | none => rfl
  | some q =>
      simp only [RemoveChild, Detach]
      split_ifs
      · by_cases hxq : x = q
        · subst hxq; simp [UI.set_apply, hx]
        · simp [UI.set_apply, hxq, hx]
      · rfl

/-- `Remove` on `e` erases `e` from the child list of its parent and changes no
other child list. -/
theorem Remove_children (ui : UI) (e x : Nat) :
    ((Remove ui e) x).children_ =
      if (ui e).parent_ = some x then (ui x).children_.erase e else (ui x).children_ := by
  unfold Remove
  cases hq : (ui e).parent_ with
  | none => simp
  | some q =>
      simp only [RemoveChild, Detach, List.drop_zero, List.take_zero, List.nil_append,
        Option.some.injEq]
      by_cases hmem : e ∈ (ui q).children_
      · by_cases hx : x = q
        · subst hx
          by_cases hxe : x = e
          · subst hxe; simp [UI.set_apply, hmem]
          · simp [UI.set_apply, hmem, hxe]
        · have hqx : q ≠ x := fun h => hx h.symm
          by_cases hxe : x = e
          · subst hxe; simp [UI.set_apply, hmem, hx, hqx]
          · simp [UI.set_apply, hmem, hx, hxe, hqx]
      · by_cases hx : x = q
        · subst hx; simp [hmem, List.erase_of_not_mem hmem]
        · have hqx : q ≠ x := fun h => hx h.symm
          simp [hmem, hqx]

/-- The parents and child lists after the steps of `InsertChild` that follow
the insertion into `children_` (lines 1154-1166). -/
theorem InsertChild_tail (ui1 ui2 ui3 ui4 : UI) (this e : Nat)
    (h2 : ui2 = Remove ui1 e)
    (h3 : ui3 = if (ui2 this).sortChildren_ then
        ui2.set this { ui2 this with sortOrderDirty_ := true } else ui2)
    (h4 : ui4 = ui3.set e { ui3 e with parent_ := some this }) :
    (∀ x, ((VerifyChildAlignment ui4 this) x).parent_ =
      if x = e then some this else (ui1 x).parent_) ∧
    (∀ x, ((VerifyChildAlignment ui4 this) x).children_ =
      if (ui1 e).parent_ = some x then (ui1 x).children_.erase e else (ui1 x).children_) := by
  have h3t : ∀ x, (ui3 x).parent_ = (ui2 x).parent_ ∧ (ui3 x).children_ = (ui2 x).children_ := by
    intro x
    rw [h3]
    split_ifs
    · exact UI.set_tree ui2 this x _ rfl rfl
    · exact ⟨rfl, rfl⟩
  constructor
  · intro x
    rw [(VerifyChildAlignment_tree _ _ x).1, h4]
    by_cases hx : x = e
    · simp [UI.set_apply, hx]
    · simp only [UI.set_apply, hx, if_false]
      rw [(h3t x).1, h2, Remove_parent_other _ _ _ hx]
  · intro x
    rw [(VerifyChildAlignment_tree _ _ x).2, h4]
    have : ((ui3.set e { ui3 e with parent_ := some this }) x).children_ = (ui3 x).children_ := by
      by_cases hx : x = e
      · subst hx; simp [UI.set_apply]
      · simp [UI.set_apply, hx]
    rw [this, (h3t x).2, h2, Remove_children]

/-- The parents and child lists after an `InsertChild` that is not refused. -/
theorem InsertChild_accept (fuel : Nat) (ui : UI) (this index e : Nat) (hne : e ≠ this)
    (hpar : (ui e).parent_ ≠ some this)
    (hcyc : cyclicParentAssignment ui e fuel (ui this).parent_ = some false) :
    ∃ ui', InsertChild fuel ui this index (some e) = some ui' ∧
      (∀ x, (ui' x).parent_ = if x = e then some this else (ui x).parent_) ∧
      (ui' this).children_ =
        (if index ≥ (ui this).children_.length then (ui this).children_ ++ [e]
         else (ui this).children_.take index ++ e :: (ui this).children_.drop index) ∧
      (∀ x, x ≠ this → (ui' x).children_ =
        if (ui e).parent_ = some x then (ui x).children_.erase e else (ui x).children_) := by
  have hte : this ≠ e := fun h => hne h.symm
  simp only [InsertChild, hne, hpar, or_self, if_false, hcyc]
  refine ⟨_, rfl, ?_, ?_, ?_⟩
  · intro x
    refine ((InsertChild_tail _ _ _ _ this e rfl rfl rfl).1 x).trans ?_
    by_cases hx : x = e
    · simp [hx]
    · by_cases hxt : x = this
      · subst hxt; simp [UI.set_apply, hx]
      · simp [UI.set_apply, hx, hxt]
  · refine ((InsertChild_tail _ _ _ _ this e rfl rfl rfl).2 this).trans ?_
    simp [UI.set_apply, hne, hpar]
  · intro x hx
    refine ((InsertChild_tail _ _ _ _ this e rfl rfl rfl).2 x).trans ?_
    simp [UI.set_apply, hne, hx]

/-- Along a chain that never meets `e`, re-parenting `e` changes nothing. -/
theorem nthParent_reparent (ui ui' : UI) (this e : Nat)
    (hp : ∀ x, (ui' x).parent_ = if x = e then some this else (ui x).parent_) (k : Nat) :
    ∀ p : Option Nat, (∀ j, nthParent ui j p ≠ some e) →
      nthParent ui' k p = nthParent ui k p := by
  induction k with
  | zero => intro p _; rfl
  | succ k ih =>
      intro p hne
      cases p with
      | none => rw [nthParent_none, nthParent_none]
      | some x =>
          have hx : x ≠ e := fun h => hne 0 (by simp [nthParent, h])
          rw [nthParent_succ_some, nthParent_succ_some, hp x, if_neg hx]
          exact ih _ (fun j => by have := hne (j + 1); rwa [nthParent_succ_some] at this)

/-- Re-parenting `e` under `this` keeps the parent relation free of cycles when
`e` is neither `this` nor one of its ancestors. -/
theorem Acyclic_reparent (ui ui' : UI) (this e : Nat) (hne : e ≠ this)
    (hanc : ∀ k, nthParent ui k (ui this).parent_ ≠ some e)
    (hp : ∀ x, (ui' x).parent_ = if x = e then some this else (ui x).parent_)
    (hac : Acyclic ui) : Acyclic ui' := by
  have hthis : ∀ j, nthParent ui j (some this) ≠ some e := by
    intro j
    cases j with
    | zero => simpa [nthParent] using fun h : this = e => hne h.symm
    | succ j => rw [nthParent_succ_some]; exact hanc j
  obtain ⟨d0, hd0⟩ := hac this
  have hd0' : nthParent ui' d0 (some this) = none := by
    rw [nthParent_reparent ui ui' this e hp d0 _ hthis]; exact hd0
  have key : ∀ n, ∀ p : Option Nat, nthParent ui n p = none →
      ∃ m, nthParent ui' m p = none := by
    intro n
    induction n with
    | zero => intro p hp0; exact ⟨0, hp0⟩
    | succ n ih =>
        intro p hpn
        cases p with
        | none => exact ⟨0, rfl⟩
        | some x =>
            by_cases hx : x = e
            · refine ⟨d0 + 1, ?_⟩
              rw [nthParent_succ_some, hp x, if_pos hx]
              exact hd0'
            · rw [nthParent_succ_some] at hpn
              obtain ⟨m, hm⟩ := ih _ hpn
              refine ⟨m + 1, ?_⟩
              rw [nthParent_succ_some, hp x, if_neg hx]
              exact hm
  intro x
  obtain ⟨n, hn⟩ := hac x
  exact key n _ hn

/-- Following `parent_` `a + b` times is following it `a` times, then `b`
times. -/
theorem nthParent_add (ui : UI) (a b : Nat) :
    ∀ p : Option Nat, nthParent ui (a + b) p = nthParent ui b (nthParent ui a p) := by
  induction a with
  | zero => intro p; simp [nthParent]
  | succ a ih =>
      intro p
      have h : a + 1 + b = (a + b) + 1 := by omega
      rw [h]
      simp only [nthParent]
      exact ih _

/-- When every parent chain ends at the null pointer, no element is reached
again from itself: there is no cycle. -/
theorem Acyclic.no_cycle {ui : UI} (hac : Acyclic ui) (x k : Nat) (hk : 0 < k) :
    nthParent ui k (some x) ≠ some x := by
  intro hcyc
  have hrep : ∀ m : Nat, nthParent ui (m * k) (some x) = some x := by
    intro m
    induction m with
    | zero => simp [nthParent]
    | succ m ih =>
        have h : (m + 1) * k = m * k + k := by ring
        rw [h, nthParent_add, ih, hcyc]
  obtain ⟨n, hn⟩ := hac x
  have hle : n ≤ n * k := Nat.le_mul_of_pos_right n hk
  have := nthParent_none_of_le ui n _ hn (n * k) hle
  rw [hrep n] at this
  cases this

/-- C7 (`InsertChild` never creates a cycle).  For every receiver `this`,
index and element: if the element is null, is the receiver itself, already
has the receiver as its parent, or is an ancestor of the receiver (met on the
receiver's parent chain after `k` steps), then `InsertChild` returns with the
heap unchanged, whatever the fuel in the first three cases and for every fuel
above `k` in the last.  Consequently, if the parent relation is acyclic
before the call (every parent chain ends at the null pointer), the call
returns (for every fuel from some bound on) and the parent relation is
acyclic afterwards: every parent chain ends, and no element is reached again
from itself. -/
theorem InsertChild_never_creates_cycle (ui : UI) (this index : Nat) (element : Option Nat) :
    ((element = none ∨ element = some this ∨
        (∃ e, element = some e ∧ (ui e).parent_ = some this)) →
      ∀ fuel, InsertChild fuel ui this index element = some ui) ∧
    (∀ e k, element = some e → nthParent ui k (ui this).parent_ = some e →
      ∀ fuel, k < fuel → InsertChild fuel ui this index element = some ui) ∧
    (Acyclic ui → ∃ d, ∀ fuel, d ≤ fuel →
      ∃ ui', InsertChild fuel ui this index element = some ui' ∧ Acyclic ui' ∧
        ∀ x k, 0 < k → nthParent ui' k (some x) ≠ some x) := by
  suffices hmain : ((element = none ∨ element = some this ∨
        (∃ e, element = some e ∧ (ui e).parent_ = some this)) →
      ∀ fuel, InsertChild fuel ui this index element = some ui) ∧
    (∀ e k, element = some e → nthParent ui k (ui this).parent_ = some e →
      ∀ fuel, k < fuel → InsertChild fuel ui this index element = some ui) ∧
    (Acyclic ui → ∃ d, ∀ fuel, d ≤ fuel →
      ∃ ui', InsertChild fuel ui this index element = some ui' ∧ Acyclic ui') by
    refine ⟨hmain.1, hmain.2.1, fun hac => ?_⟩
    obtain ⟨d, hd⟩ := hmain.2.2 hac
    refine ⟨d, fun fuel hfuel => ?_⟩
    obtain ⟨ui', hI, hac'⟩ := hd fuel hfuel
    exact ⟨ui', hI, hac', fun x k hk => hac'.no_cycle x k hk⟩
  refine ⟨?_, ?_, ?_⟩
  · rintro (h | h | ⟨e, h, hp⟩) fuel
    · subst h; rfl
    · subst h; simp [InsertChild]
    · subst h; simp [InsertChild, hp]
  · intro e k he hk fuel hfuel
    subst he
    by_cases hre : e = this ∨ (ui e).parent_ = some this
    · simp [InsertChild, hre]
    · simp only [InsertChild, hre, if_false]
      rw [cyclicParentAssignment_true ui e k _ hk fuel hfuel]
  · intro hac
    obtain ⟨n, hn⟩ := hac this
    obtain ⟨d, rfl⟩ : ∃ d, n = d + 1 := by
      cases n with
      | zero => simp [nthParent] at hn
      | succ d => exact ⟨d, rfl⟩
    rw [nthParent_succ_some] at hn
    refine ⟨d, fun fuel hfuel => ?_⟩
    cases element with
    | none => exact ⟨ui, rfl, hac⟩
    | some e =>
        by_cases hre : e = this ∨ (ui e).parent_ = some this
        · exact ⟨ui, by simp [InsertChild, hre], hac⟩
        · by_cases hanc : ∃ k, nthParent ui k (ui this).parent_ = some e
          · obtain ⟨k, hk⟩ := hanc
            have hkd : k < d := by
              by_contra hcon
              have := nthParent_none_of_le ui d _ hn k (by omega)
              rw [this] at hk; cases hk
            refine ⟨ui, ?_, hac⟩
            simp only [InsertChild, hre, if_false]
            rw [cyclicParentAssignment_true ui e k _ hk fuel (by omega)]
          · have hanc' : ∀ k, nthParent ui k (ui this).parent_ ≠ some e :=
              fun k hk => hanc ⟨k, hk⟩
            have hne : e ≠ this := fun h => hre (Or.inl h)
            have hpar : (ui e).parent_ ≠ some this := fun h => hre (Or.inr h)
            obtain ⟨ui', hI, hp, _, _⟩ := InsertChild_accept fuel ui this index e hne hpar
              (cyclicParentAssignment_false ui e d _ hn hanc' fuel hfuel)
            exact ⟨ui', hI, Acyclic_reparent ui ui' this e hne hanc' hp hac⟩

/-- The sample tree has no cycle. -/
theorem sampleTree_acyclic : Acyclic sampleTree := by
  intro x
  refine ⟨3, ?_⟩
  match x with
  | 0 => rfl
  | 1 => rfl
  | 2 => rfl
  | 3 => rfl
  | n + 4 => rfl

/-- In the sample tree, inserting the root 0 under its descendant 3 is
refused, and inserting 3 under 0 keeps the tree free of cycles. -/
theorem InsertChild_never_creates_cycle_witness :
    InsertChild 2 sampleTree 3 0 (some 0) = some sampleTree ∧
    ∃ d, ∀ fuel, d ≤ fuel →
      ∃ ui', InsertChild fuel sampleTree 0 0 (some 3) = some ui' ∧ Acyclic ui' ∧
        ∀ x k, 0 < k → nthParent ui' k (some x) ≠ some x :=
  ⟨(InsertChild_never_creates_cycle sampleTree 3 0 (some 0)).2.1 0 1 rfl rfl 2 (by decide),
   (InsertChild_never_creates_cycle sampleTree 0 0 (some 3)).2.2 sampleTree_acyclic⟩

/-- The insertion of lines 1147-1150 puts the element at position
`min index n`. -/
theorem insert_position (l : List Nat) (index e : Nat) :
    (if index ≥ l.length then l ++ [e] else l.take index ++ e :: l.drop index) =
      l.take (min index l.length) ++ e :: l.drop (min index l.length) := by
  split_ifs with h
  · have : min index l.length = l.length := by omega
    rw [this]; simp
  · have : min index l.length = index := by omega
    rw [this]

/-- Re-parenting by `InsertChild`, from what the code needs of the heap: the
parent chain of the receiver ends within `d` steps without meeting `e`, and
the child list of the former parent of `e` holds no element twice. -/
theorem reparent_of_chain (ui : UI) (this index e d : Nat)
    (hne : e ≠ this) (hchild : (ui e).parent_ ≠ some this)
    (hanc : ∀ k, nthParent ui k (ui this).parent_ ≠ some e)
    (hdepth : nthParent ui d (ui this).parent_ = none)
    (hnodup : ∀ q, (ui e).parent_ = some q → (ui q).children_.Nodup) :
    ∀ fuel, d ≤ fuel →
      ∃ ui', InsertChild fuel ui this index (some e) = some ui' ∧
        (ui' this).children_ =
          (ui this).children_.take (min index (ui this).children_.length) ++
            e :: (ui this).children_.drop (min index (ui this).children_.length) ∧
        (ui' this).children_[min index (ui this).children_.length]? = some e ∧
        (ui' this).children_.length = (ui this).children_.length + 1 ∧
        (ui' this).children_.eraseIdx (min index (ui this).children_.length) =
          (ui this).children_ ∧
        (ui' e).parent_ = some this ∧
        (∀ q, (ui e).parent_ = some q →
          e ∉ (ui' q).children_ ∧ (ui' q).children_ = (ui q).children_.erase e) ∧
        ((ui this).children_.length ≤ M_MAX_UNSIGNED →
          ∃ ui2, AddChild fuel ui this (some e) = some ui2 ∧
            (ui2 this).children_ = (ui this).children_ ++ [e] ∧
            (ui2 e).parent_ = some this) := by
  intro fuel hfuel
  obtain ⟨ui', hI, hp, hc, hq⟩ := InsertChild_accept fuel ui this index e hne hchild
    (cyclicParentAssignment_false ui e d _ hdepth hanc fuel hfuel)
  rw [insert_position] at hc
  have hk : min index (ui this).children_.length ≤ (ui this).children_.length := by omega
  refine ⟨ui', hI, hc, ?_, ?_, ?_, ?_, ?_, ?_⟩
  · rw [hc, List.getElem?_append_right (by simp [List.length_take])]
    simp [List.length_take]
  · rw [hc]
    simp only [List.length_append, List.length_take, List.length_cons, List.length_drop]
    omega
  · rw [hc, List.eraseIdx_append_of_length_le (by simp [List.length_take])]
    simp [List.length_take]
  · rw [hp e]; simp
  · intro q hqe
    have hqt : q ≠ this := by
      intro h; subst h; exact hchild hqe
    have := hq q hqt
    rw [if_pos hqe] at this
    refine ⟨?_, this⟩
    rw [this]
    exact fun hmem => ((hnodup q hqe).mem_erase_iff.mp hmem).1 rfl
  · intro hn
    obtain ⟨ui2, hI2, hp2, hc2, _⟩ := InsertChild_accept fuel ui this M_MAX_UNSIGNED e hne
      hchild (cyclicParentAssignment_false ui e d _ hdepth hanc fuel hfuel)
    refine ⟨ui2, hI2, ?_, ?_⟩
    · rw [hc2, if_pos hn]
    · rw [hp2 e]; simp

/-- When the loop of `InsertChild` ends with "no cycle", `e` is not on the
chain. -/
theorem cyclicParentAssignment_false_inv (ui : UI) (e : Nat) (fuel : Nat) :
    ∀ p : Option Nat, cyclicParentAssignment ui e fuel p = some false →
      ∀ k, nthParent ui k p ≠ some e := by
  induction fuel with
  | zero =>
      intro p hp k
      cases p with
      | none => rw [nthParent_none]; simp
      | some x => simp [cyclicParentAssignment] at hp
  | succ f ih =>
      intro p hp k
      cases p with
      | none => rw [nthParent_none]; simp
      | some x =>
          by_cases hx : x = e
          · simp [cyclicParentAssignment, hx] at hp
          · simp only [cyclicParentAssignment, hx, if_false] at hp
            cases k with
            | zero => simpa [nthParent] using hx
            | succ k => rw [nthParent_succ_some]; exact ih _ hp k

/-- The heap of fresh elements is well formed. -/
theorem WellFormed_fresh : WellFormed (fun _ => UIElement.new) := by
  refine ⟨fun x => ⟨1, rfl⟩, fun p => by simp [UIElement.new], fun p c => ?_⟩
  simp [UIElement.new]

/-- `InsertChild` keeps the element tree well formed. -/
theorem InsertChild_wellFormed (fuel : Nat) (ui ui' : UI) (this index : Nat)
    (element : Option Nat) (hwf : WellFormed ui)
    (hI : InsertChild fuel ui this index element = some ui') : WellFormed ui' := by
  cases element with
  | none =>
      simp only [InsertChild, Option.some.injEq] at hI
      rw [← hI]; exact hwf
  | some e =>
      by_cases hre : e = this ∨ (ui e).parent_ = some this
      · simp only [InsertChild, hre, if_true, Option.some.injEq] at hI
        rw [← hI]; exact hwf
      · cases hcyc : cyclicParentAssignment ui e fuel (ui this).parent_ with
        | none => simp [InsertChild, hre, hcyc] at hI
        | some b =>
            cases b with
            | true =>
                simp only [InsertChild, hre, if_false, hcyc, Option.some.injEq] at hI
                rw [← hI]; exact hwf
            | false =>
                have hne : e ≠ this := fun h => hre (Or.inl h)
                have hpar : (ui e).parent_ ≠ some this := fun h => hre (Or.inr h)
                obtain ⟨ui2, hI2, hp, hc, hq⟩ :=
                  InsertChild_accept fuel ui this index e hne hpar hcyc
                have hEq : ui2 = ui' := by
                  rw [hI2] at hI; exact Option.some.inj hI
                subst hEq
                obtain ⟨hac, hnd, hcons⟩ := hwf
                have hemem : e ∉ (ui this).children_ := fun h => hpar ((hcons this e).mp h)
                rw [insert_position] at hc
                have hmem_this : ∀ c, c ∈ (ui2 this).children_ ↔ c = e ∨ c ∈ (ui this).children_ := by
                  intro c
                  rw [hc]
                  simp only [List.mem_append, List.mem_cons]
                  constructor
                  · rintro (h | h | h)
                    · exact Or.inr (List.mem_of_mem_take h)
                    · exact Or.inl h
                    · exact Or.inr (List.mem_of_mem_drop h)
                  · rintro (h | h)
                    · exact Or.inr (Or.inl h)
                    · rw [← List.take_append_drop (min index (ui this).children_.length)
                        (ui this).children_] at h
                      rcases List.mem_append.mp h with h | h
                      · exact Or.inl h
                      · exact Or.inr (Or.inr h)
                refine ⟨Acyclic_reparent ui ui2 this e hne
                  (cyclicParentAssignment_false_inv ui e fuel _ hcyc) hp hac, ?_, ?_⟩
                · intro p
                  by_cases hpt : p = this
                  · subst hpt
                    rw [hc]
                    have hsplit := hnd p
                    rw [← List.take_append_drop (min index (ui p).children_.length)
                      (ui p).children_] at hsplit
                    rw [List.nodup_append] at hsplit ⊢
                    obtain ⟨h1, h2, h3⟩ := hsplit
                    refine ⟨h1, ?_, ?_⟩
                    · rw [List.nodup_cons]
                      exact ⟨fun h => hemem (List.mem_of_mem_drop h), h2⟩
                    · intro a ha1 ha2
                      rcases List.mem_cons.mp ha2 with h | h
                      · subst h; exact hemem (List.mem_of_mem_take ha1)
                      · exact h3 ha1 h
                  · rw [hq p hpt]
                    split_ifs
                    · exact (hnd p).erase e
                    · exact hnd p
                · intro p c
                  rw [hp c]
                  by_cases hpt : p = this
                  · subst hpt
                    rw [hmem_this c]
                    by_cases hce : c = e
                    · simp [hce]
                    · simp only [hce, false_or, if_false]
                      exact hcons p c
                  · rw [hq p hpt]
                    by_cases hce : c = e
                    · subst hce
                      have hpt' : this ≠ p := fun h => hpt h.symm
                      simp only [if_true, Option.some.injEq, hpt', iff_false]
                      split_ifs with h
                      · exact fun hm => ((hnd p).mem_erase_iff.mp hm).1 rfl
                      · exact fun hm => h ((hcons p c).mp hm)
                    · simp only [hce, if_false]
                      split_ifs with h
                      · rw [(hnd p).mem_erase_iff]
                        simp only [ne_eq, hce, not_false_eq_true, true_and]
                        exact hcons p c
                      · exact hcons p c

/-- The sample tree is well formed. -/
theorem sampleTree_wellFormed : WellFormed sampleTree := by
  refine ⟨sampleTree_acyclic, ?_, ?_⟩
  · intro p
    rcases p with _ | _ | _ | _ | p <;> simp [sampleTree, UIElement.new]
  · intro p c
    rcases p with _ | _ | _ | _ | p <;> rcases c with _ | _ | _ | _ | c <;>
      simp [sampleTree, UIElement.new]

/-- C8 (re-parenting by `InsertChild`).  In a well-formed element tree, let the
receiver `this` have `n` children and let `e` be an element that is not
`this`, not a child of `this` and not an ancestor of `this`.  Then
`InsertChild(index, e)` returns (for every fuel from some bound on) a heap in
which `e` is the child of `this` at position `min index n`, `this` has `n + 1`
children, removing position `min index n` gives back the previous children in
their order, the parent of `e` is `this`, and `e` no longer occurs among the
children of its former parent, whose other children are kept; the tree is
again well formed.  `AddChild` (`index = M_MAX_UNSIGNED`) appends `e`. -/
theorem InsertChild_reparents (ui : UI) (this index e : Nat) (hwf : WellFormed ui)
    (hne : e ≠ this) (hchild : e ∉ (ui this).children_)
    (hanc : ∀ k, nthParent ui k (ui this).parent_ ≠ some e) :
    ∃ d, ∀ fuel, d ≤ fuel →
      ∃ ui', InsertChild fuel ui this index (some e) = some ui' ∧
        (ui' this).children_ =
          (ui this).children_.take (min index (ui this).children_.length) ++
            e :: (ui this).children_.drop (min index (ui this).children_.length) ∧
        (ui' this).children_[min index (ui this).children_.length]? = some e ∧
        (ui' this).children_.length = (ui this).children_.length + 1 ∧
        (ui' this).children_.eraseIdx (min index (ui this).children_.length) =
          (ui this).children_ ∧
        (ui' e).parent_ = some this ∧
        (∀ q, (ui e).parent_ = some q →
          e ∉ (ui' q).children_ ∧ (ui' q).children_ = (ui q).children_.erase e) ∧
        ((ui this).children_.length ≤ M_MAX_UNSIGNED →
          ∃ ui2, AddChild fuel ui this (some e) = some ui2 ∧
            (ui2 this).children_ = (ui this).children_ ++ [e] ∧
            (ui2 e).parent_ = some this) ∧
        WellFormed ui' := by
  obtain ⟨n, hn⟩ := hwf.1 this
  obtain ⟨d, rfl⟩ : ∃ d, n = d + 1 := by
    cases n with
    | zero => simp [nthParent] at hn
    | succ d => exact ⟨d, rfl⟩
  rw [nthParent_succ_some] at hn
  have hpar : (ui e).parent_ ≠ some this := fun h => hchild ((hwf.2.2 this e).mpr h)
  refine ⟨d, fun fuel hfuel => ?_⟩
  obtain ⟨ui', hI, h1, h2, h3, h4, h5, h6, h7⟩ :=
    reparent_of_chain ui this index e d hne hpar hanc hn
      (fun q _ => hwf.2.1 q) fuel hfuel
  exact ⟨ui', hI, h1, h2, h3, h4, h5, h6, h7, InsertChild_wellFormed fuel ui ui' this index
    (some e) hwf hI⟩

/-- In the sample tree, element 3 is moved from its parent 1 to the front of
the children of the root 0. -/
theorem InsertChild_reparents_witness :
    (InsertChild 2 sampleTree 0 0 (some 3)).map (fun ui' => (ui' 0).children_)
      = some [3, 1] ∧
    ∃ d, ∀ fuel, d ≤ fuel →
      ∃ ui', InsertChild fuel sampleTree 0 0 (some 3) = some ui' ∧
        (ui' 0).children_ = [3, 1] ∧
        (ui' 0).children_[0]? = some 3 ∧
        (ui' 0).children_.length = 2 ∧
        (ui' 0).children_.eraseIdx 0 = [1] ∧
        (ui' 3).parent_ = some 0 ∧
        (∀ q, (sampleTree 3).parent_ = some q →
          3 ∉ (ui' q).children_ ∧ (ui' q).children_ = (sampleTree q).children_.erase 3) ∧
        ((sampleTree 0).children_.length ≤ M_MAX_UNSIGNED →
          ∃ ui2, AddChild fuel sampleTree 0 (some 3) = some ui2 ∧
            (ui2 0).children_ = [1, 3] ∧ (ui2 3).parent_ = some 0) ∧
        WellFormed ui' :=
  ⟨by decide,
   InsertChild_reparents sampleTree 0 0 3 sampleTree_wellFormed (by decide) (by decide)
    (fun k => by rw [show (sampleTree 0).parent_ = none from rfl, nthParent_none]; simp)⟩

/-! ## Theorems, part 3: sizes and layout -/

/-- Between equal bounds a clamp returns the bound. -/
theorem ClampInRange.eq_of_fixed {clamp : Int → Int → Int → Int} (h : ClampInRange clamp)
    (value m : Int) : clamp value m m = m := by
  have := h value m m (le_refl m)
  omega

/-- The clamp of the examples keeps its result between ordered bounds. -/
theorem Clamp_inRange : ClampInRange Clamp := by
  intro value lo hi h
  unfold Clamp
  split_ifs <;> omega

/-- `SetSize` leaves the size within ordered limits when the calls it makes
keep it there. -/
theorem SetSizeWith_within (ctx : LayoutContext) (hC : ClampInRange ctx.Clamp)
    (pl ul : ElementSize → ElementSize)
    (hpl : ∀ e, e.WithinOrderedLimits → (pl e).WithinOrderedLimits)
    (hul : ∀ e, e.WithinOrderedLimits → (ul e).WithinOrderedLimits)
    (e : ElementSize) (size : IntVector2) :
    (SetSizeWith ctx pl ul e size).WithinOrderedLimits := by
  have hset : ({ e with
      resizeNestingLevel_ := e.resizeNestingLevel_ + 1
      size_ := { x_ := ctx.Clamp size.x_ e.minSize_.x_ e.maxSize_.x_,
                 y_ := ctx.Clamp size.y_ e.minSize_.y_ e.maxSize_.y_ } } :
      ElementSize).WithinOrderedLimits :=
    ⟨fun h => hC _ _ _ h, fun h => hC _ _ _ h⟩
  unfold SetSizeWith
  simp only
  split_ifs with h1 h2
  · exact hul _ (hpl _ hset)
  · exact hset
  · have hx : e.size_.x_ = ctx.Clamp size.x_ e.minSize_.x_ e.maxSize_.x_ := by
      have := congrArg IntVector2.x_ (not_not.mp h1); exact this.symm
    have hy : e.size_.y_ = ctx.Clamp size.y_ e.minSize_.y_ e.maxSize_.y_ := by
      have := congrArg IntVector2.y_ (not_not.mp h1); exact this.symm
    exact ⟨fun h => by show _ ≤ e.size_.x_ ∧ e.size_.x_ ≤ _; rw [hx]; exact hC _ _ _ h,
           fun h => by show _ ≤ e.size_.y_ ∧ e.size_.y_ ≤ _; rw [hy]; exact hC _ _ _ h⟩

/-- A sequence of nested `SetSize` calls keeps the size within ordered limits. -/
theorem foldl_SetSizeWith_within (ctx : LayoutContext) (hC : ClampInRange ctx.Clamp)
    (sizes : List IntVector2) :
    ∀ e : ElementSize, e.WithinOrderedLimits →
      (sizes.foldl (fun acc size => SetSizeWith ctx id id acc size) e).WithinOrderedLimits := by
  induction sizes with
  | nil => intro e he; exact he
  | cons s rest ih =>
      intro e _
      exact ih _ (SetSizeWith_within ctx hC id id (fun _ h => h) (fun _ h => h) e s)

/-- The layout pass of the parent keeps the size within ordered limits. -/
theorem parentUpdateLayout_within (ctx : LayoutContext) (hC : ClampInRange ctx.Clamp)
    (e : ElementSize) (he : e.WithinOrderedLimits) :
    (parentUpdateLayout ctx e).WithinOrderedLimits :=
  foldl_SetSizeWith_within ctx hC ctx.parentPass e he

/-- Being within ordered limits depends on the three size members only. -/
theorem ElementSize.within_congr (e e' : ElementSize) (hs : e'.size_ = e.size_)
    (hmin : e'.minSize_ = e.minSize_) (hmax : e'.maxSize_ = e.maxSize_)
    (he : e.WithinOrderedLimits) : e'.WithinOrderedLimits := by
  unfold ElementSize.WithinOrderedLimits at he ⊢
  rw [hs, hmin, hmax]
  exact he

/-- The horizontal branch of `UpdateLayout` leaves the size within ordered
limits. -/
theorem layoutHorizontal_within (ctx : LayoutContext) (hC : ClampInRange ctx.Clamp)
    (e : ElementSize) : (layoutHorizontal ctx e).WithinOrderedLimits :=
  SetSizeWith_within ctx hC _ _ (parentUpdateLayout_within ctx hC) (fun _ h => h) _ _

/-- The vertical branch of `UpdateLayout` leaves the size within ordered
limits. -/
theorem layoutVertical_within (ctx : LayoutContext) (hC : ClampInRange ctx.Clamp)
    (e : ElementSize) : (layoutVertical ctx e).WithinOrderedLimits :=
  SetSizeWith_within ctx hC _ _ (parentUpdateLayout_within ctx hC) (fun _ h => h) _ _

/-- The paths through `UpdateLayout`: the guard returns, or one of the branches
runs between `DisableLayoutUpdate` and `EnableLayoutUpdate`. -/
theorem UpdateLayout_cases (ctx : LayoutContext) (e : ElementSize) :
    UpdateLayout ctx e = e ∨
    ∃ e2 : ElementSize,
      (e2 = layoutHorizontal ctx { e with layoutNestingLevel_ := e.layoutNestingLevel_ + 1 } ∨
       e2 = layoutVertical ctx { e with layoutNestingLevel_ := e.layoutNestingLevel_ + 1 } ∨
       e2 = { e with layoutNestingLevel_ := e.layoutNestingLevel_ + 1 }) ∧
      UpdateLayout ctx e = { e2 with layoutNestingLevel_ := e2.layoutNestingLevel_ - 1 } := by
  unfold UpdateLayout
  by_cases h1 : e.layoutMode_ = LayoutMode.LM_FREE ∨ e.layoutNestingLevel_ ≠ 0
  · left; rw [if_pos h1]
  · right
    rw [if_neg h1]
    by_cases h2 : e.layoutMode_ = LayoutMode.LM_HORIZONTAL
    · exact ⟨_, Or.inl rfl, by simp only [h2, if_true]⟩
    · by_cases h3 : e.layoutMode_ = LayoutMode.LM_VERTICAL
      · exact ⟨_, Or.inr (Or.inl rfl), by simp only [h3, if_true]; simp⟩
      · exact ⟨_, Or.inr (Or.inr rfl), by simp only [h2, h3, if_false]⟩

/-- `UpdateLayout` keeps the size within ordered limits. -/
theorem UpdateLayout_within (ctx : LayoutContext) (hC : ClampInRange ctx.Clamp)
    (e : ElementSize) (he : e.WithinOrderedLimits) :
    (UpdateLayout ctx e).WithinOrderedLimits := by
  rcases UpdateLayout_cases ctx e with h | ⟨e2, h2, h⟩
  · rw [h]; exact he
  · rw [h]
    refine ElementSize.within_congr e2 _ rfl rfl rfl ?_
    rcases h2 with h2 | h2 | h2
    · rw [h2]; exact layoutHorizontal_within ctx hC _
    · rw [h2]; exact layoutVertical_within ctx hC _
    · rw [h2]; exact ElementSize.within_congr e _ rfl rfl rfl he

/-- `SetSize` leaves the size within ordered limits. -/
theorem SetSize_within (ctx : LayoutContext) (hC : ClampInRange ctx.Clamp)
    (e : ElementSize) (size : IntVector2) : (SetSize ctx e size).WithinOrderedLimits :=
  SetSizeWith_within ctx hC _ _ (parentUpdateLayout_within ctx hC) (UpdateLayout_within ctx hC)
    e size

/-- C9, amended.  For every clamp function that keeps its result between
ordered bounds, after any call of `SetSize`, `SetMinSize`, `SetMaxSize` or
`SetFixedSize` or of one of their width and height variants, with any
arguments, `minSize_ <= size_ <= maxSize_` holds on every axis on which
`minSize_ <= maxSize_` holds after the call. -/
theorem size_within_ordered_limits (ctx : LayoutContext) (hClamp : ClampInRange ctx.Clamp)
    (e : ElementSize) (call : SizeCall) : (call.apply ctx e).WithinOrderedLimits := by
  cases call <;> exact SetSize_within ctx hClamp _ _

/-- C9, counterexample.  A fresh element without parent and children is given
the maximum size (5, 5), after which it respects its limits; the call
`SetMinSize(10, 10)` then leaves `minSize_ = (10, 10)` above
`maxSize_ = (5, 5)`, so `minSize_ <= size_ <= maxSize_` fails. -/
theorem size_limits_counterexample :
    (SetMaxSize LayoutContext.alone ElementSize.new { x_ := 5, y_ := 5 }).WithinLimits ∧
    (SizeCall.apply LayoutContext.alone
        (SetMaxSize LayoutContext.alone ElementSize.new { x_ := 5, y_ := 5 })
        (SizeCall.SetMinSize { x_ := 10, y_ := 10 })).minSize_ = { x_ := 10, y_ := 10 } ∧
    (SizeCall.apply LayoutContext.alone
        (SetMaxSize LayoutContext.alone ElementSize.new { x_ := 5, y_ := 5 })
        (SizeCall.SetMinSize { x_ := 10, y_ := 10 })).maxSize_ = { x_ := 5, y_ := 5 } ∧
    ¬ (SizeCall.apply LayoutContext.alone
        (SetMaxSize LayoutContext.alone ElementSize.new { x_ := 5, y_ := 5 })
        (SizeCall.SetMinSize { x_ := 10, y_ := 10 })).WithinLimits := by
  refine ⟨?_, ?_, ?_, ?_⟩
  · unfold ElementSize.WithinLimits; decide
  · decide
  · decide
  · unfold ElementSize.WithinLimits; decide

/-- An element with a horizontal layout, a parent and a child is resized. -/
theorem size_within_ordered_limits_witness :
    ClampInRange LayoutContext.sample.Clamp ∧
    (SizeCall.apply LayoutContext.sample
      { ElementSize.new with layoutMode_ := LayoutMode.LM_HORIZONTAL }
      (SizeCall.SetSize { x_ := 100, y_ := 20 })).WithinOrderedLimits :=
  ⟨Clamp_inRange,
   size_within_ordered_limits LayoutContext.sample Clamp_inRange
     { ElementSize.new with layoutMode_ := LayoutMode.LM_HORIZONTAL }
     (SizeCall.SetSize { x_ := 100, y_ := 20 })⟩

/-- `SetSize` on an element whose width limits are both `m` leaves the width
fixed at `m`, when the calls it makes keep it fixed. -/
theorem SetSizeWith_fixedX (ctx : LayoutContext) (hC : ClampInRange ctx.Clamp) (m : Int)
    (pl ul : ElementSize → ElementSize)
    (hpl : ∀ e, e.FixedX m → (pl e).FixedX m) (hul : ∀ e, e.FixedX m → (ul e).FixedX m)
    (e : ElementSize) (size : IntVector2) (hmin : e.minSize_.x_ = m)
    (hmax : e.maxSize_.x_ = m) : (SetSizeWith ctx pl ul e size).FixedX m := by
  have hclamp : ctx.Clamp size.x_ e.minSize_.x_ e.maxSize_.x_ = m := by
    rw [hmin, hmax]; exact hC.eq_of_fixed _ _
  have hset : ({ e with
      resizeNestingLevel_ := e.resizeNestingLevel_ + 1
      size_ := { x_ := ctx.Clamp size.x_ e.minSize_.x_ e.maxSize_.x_,
                 y_ := ctx.Clamp size.y_ e.minSize_.y_ e.maxSize_.y_ } } :
      ElementSize).FixedX m := ⟨hmin, hmax, hclamp⟩
  unfold SetSizeWith
  simp only
  split_ifs with h1 h2
  · exact hul _ (hpl _ hset)
  · exact hset
  · have hx : e.size_.x_ = ctx.Clamp size.x_ e.minSize_.x_ e.maxSize_.x_ := by
      have := congrArg IntVector2.x_ (not_not.mp h1); exact this.symm
    exact ⟨hmin, hmax, hx.trans hclamp⟩

/-- `SetSize` on an element whose height limits are both `m` leaves the height
fixed at `m`, when the calls it makes keep it fixed. -/
theorem SetSizeWith_fixedY (ctx : LayoutContext) (hC : ClampInRange ctx.Clamp) (m : Int)
    (pl ul : ElementSize → ElementSize)
    (hpl : ∀ e, e.FixedY m → (pl e).FixedY m) (hul : ∀ e, e.FixedY m → (ul e).FixedY m)
    (e : ElementSize) (size : IntVector2) (hmin : e.minSize_.y_ = m)
    (hmax : e.maxSize_.y_ = m) : (SetSizeWith ctx pl ul e size).FixedY m := by
  have hclamp : ctx.Clamp size.y_ e.minSize_.y_ e.maxSize_.y_ = m := by
    rw [hmin, hmax]; exact hC.eq_of_fixed _ _
  have hset : ({ e with
      resizeNestingLevel_ := e.resizeNestingLevel_ + 1
      size_ := { x_ := ctx.Clamp size.x_ e.minSize_.x_ e.maxSize_.x_,
                 y_ := ctx.Clamp size.y_ e.minSize_.y_ e.maxSize_.y_ } } :
      ElementSize).FixedY m := ⟨hmin, hmax, hclamp⟩
  unfold SetSizeWith
  simp only
  split_ifs with h1 h2
  · exact hul _ (hpl _ hset)
  · exact hset
  · have hy : e.size_.y_ = ctx.Clamp size.y_ e.minSize_.y_ e.maxSize_.y_ := by
      have := congrArg IntVector2.y_ (not_not.mp h1); exact this.symm
    exact ⟨hmin, hmax, hy.trans hclamp⟩

/-- The layout pass of the parent keeps a fixed width. -/
theorem parentUpdateLayout_fixedX (ctx : LayoutContext) (hC : ClampInRange ctx.Clamp)
    (m : Int) (e : ElementSize) (he : e.FixedX m) : (parentUpdateLayout ctx e).FixedX m := by
  unfold parentUpdateLayout
  generalize ctx.parentPass = sizes
  induction sizes generalizing e with
  | nil => exact he
  | cons s rest ih =>
      exact ih _ (SetSizeWith_fixedX ctx hC m id id (fun _ h => h) (fun _ h => h) e s he.1 he.2.1)

/-- The layout pass of the parent keeps a fixed height. -/
theorem parentUpdateLayout_fixedY (ctx : LayoutContext) (hC : ClampInRange ctx.Clamp)
    (m : Int) (e : ElementSize) (he : e.FixedY m) : (parentUpdateLayout ctx e).FixedY m := by
  unfold parentUpdateLayout
  generalize ctx.parentPass = sizes
  induction sizes generalizing e with
  | nil => exact he
  | cons s rest ih =>
      exact ih _ (SetSizeWith_fixedY ctx hC m id id (fun _ h => h) (fun _ h => h) e s he.1 he.2.1)

/-- The members after lines 978-981 of `UpdateLayout`. -/
theorem respectFixedSize_fields (e : ElementSize) (minWidth minHeight : Int) :
    (respectFixedSize e minWidth minHeight).size_ = e.size_ ∧
    (respectFixedSize e minWidth minHeight).maxSize_ = e.maxSize_ ∧
    (respectFixedSize e minWidth minHeight).minSize_.x_ =
      (if e.minSize_.x_ ≠ e.maxSize_.x_ then minWidth else e.minSize_.x_) ∧
    (respectFixedSize e minWidth minHeight).minSize_.y_ =
      (if e.minSize_.y_ ≠ e.maxSize_.y_ then minHeight else e.minSize_.y_) := by
  by_cases hx : e.minSize_.x_ = e.maxSize_.x_ <;> by_cases hy : e.minSize_.y_ = e.maxSize_.y_ <;>
    simp [respectFixedSize, hx, hy]

/-- Lines 978-981 of `UpdateLayout` keep a fixed width. -/
theorem respectFixedSize_fixedX (e : ElementSize) (minWidth minHeight m : Int)
    (he : e.FixedX m) : (respectFixedSize e minWidth minHeight).FixedX m := by
  obtain ⟨h1, h2, h3⟩ := he
  obtain ⟨f1, f2, f3, _⟩ := respectFixedSize_fields e minWidth minHeight
  have hx : ¬ e.minSize_.x_ ≠ e.maxSize_.x_ := by rw [h1, h2]; simp
  rw [if_neg hx] at f3
  exact ⟨f3.trans h1, by rw [f2]; exact h2, by rw [f1]; exact h3⟩

/-- Lines 978-981 of `UpdateLayout` keep a fixed height. -/
theorem respectFixedSize_fixedY (e : ElementSize) (minWidth minHeight m : Int)
    (he : e.FixedY m) : (respectFixedSize e minWidth minHeight).FixedY m := by
  obtain ⟨h1, h2, h3⟩ := he
  obtain ⟨f1, f2, _, f4⟩ := respectFixedSize_fields e minWidth minHeight
  have hy : ¬ e.minSize_.y_ ≠ e.maxSize_.y_ := by rw [h1, h2]; simp
  rw [if_neg hy] at f4
  exact ⟨f4.trans h1, by rw [f2]; exact h2, by rw [f1]; exact h3⟩

/-- The horizontal branch of `UpdateLayout` keeps a fixed width. -/
theorem layoutHorizontal_fixedX (ctx : LayoutContext) (hC : ClampInRange ctx.Clamp)
    (m : Int) (e : ElementSize) (he : e.FixedX m) : (layoutHorizontal ctx e).FixedX m := by
  unfold layoutHorizontal
  exact SetSizeWith_fixedX ctx hC m _ _ (parentUpdateLayout_fixedX ctx hC m) (fun _ h => h) _ _
    (respectFixedSize_fixedX e _ _ m he).1 (respectFixedSize_fixedX e _ _ m he).2.1

/-- The horizontal branch of `UpdateLayout` keeps a fixed height. -/
theorem layoutHorizontal_fixedY (ctx : LayoutContext) (hC : ClampInRange ctx.Clamp)
    (m : Int) (e : ElementSize) (he : e.FixedY m) : (layoutHorizontal ctx e).FixedY m := by
  unfold layoutHorizontal
  exact SetSizeWith_fixedY ctx hC m _ _ (parentUpdateLayout_fixedY ctx hC m) (fun _ h => h) _ _
    (respectFixedSize_fixedY e _ _ m he).1 (respectFixedSize_fixedY e _ _ m he).2.1

/-- The vertical branch of `UpdateLayout` keeps a fixed width. -/
theorem layoutVertical_fixedX (ctx : LayoutContext) (hC : ClampInRange ctx.Clamp)
    (m : Int) (e : ElementSize) (he : e.FixedX m) : (layoutVertical ctx e).FixedX m := by
  unfold layoutVertical
  exact SetSizeWith_fixedX ctx hC m _ _ (parentUpdateLayout_fixedX ctx hC m) (fun _ h => h) _ _
    (respectFixedSize_fixedX e _ _ m he).1 (respectFixedSize_fixedX e _ _ m he).2.1

/-- The vertical branch of `UpdateLayout` keeps a fixed height. -/
theorem layoutVertical_fixedY (ctx : LayoutContext) (hC : ClampInRange ctx.Clamp)
    (m : Int) (e : ElementSize) (he : e.FixedY m) : (layoutVertical ctx e).FixedY m := by
  unfold layoutVertical
  exact SetSizeWith_fixedY ctx hC m _ _ (parentUpdateLayout_fixedY ctx hC m) (fun _ h => h) _ _
    (respectFixedSize_fixedY e _ _ m he).1 (respectFixedSize_fixedY e _ _ m he).2.1

/-- `UpdateLayout` keeps a fixed width. -/
theorem UpdateLayout_fixedX (ctx : LayoutContext) (hC : ClampInRange ctx.Clamp)
    (m : Int) (e : ElementSize) (he : e.FixedX m) : (UpdateLayout ctx e).FixedX m := by
  rcases UpdateLayout_cases ctx e with h | ⟨e2, h2, h⟩
  · rw [h]; exact he
  · rw [h]
    have h2' : e2.FixedX m := by
      rcases h2 with h2 | h2 | h2
      · rw [h2]; exact layoutHorizontal_fixedX ctx hC m _ he
      · rw [h2]; exact layoutVertical_fixedX ctx hC m _ he
      · rw [h2]; exact he
    exact h2'

/-- `UpdateLayout` keeps a fixed height. -/
theorem UpdateLayout_fixedY (ctx : LayoutContext) (hC : ClampInRange ctx.Clamp)
    (m : Int) (e : ElementSize) (he : e.FixedY m) : (UpdateLayout ctx e).FixedY m := by
  rcases UpdateLayout_cases ctx e with h | ⟨e2, h2, h⟩
  · rw [h]; exact he
  · rw [h]
    have h2' : e2.FixedY m := by
      rcases h2 with h2 | h2 | h2
      · rw [h2]; exact layoutHorizontal_fixedY ctx hC m _ he
      · rw [h2]; exact layoutVertical_fixedY ctx hC m _ he
      · rw [h2]; exact he
    exact h2'

/-- A vector is determined by its two components. -/
theorem IntVector2.eq_of (v : IntVector2) (a b : Int) (hx : v.x_ = a) (hy : v.y_ = b) :
    v = { x_ := a, y_ := b } := by
  cases v; simp_all

/-- C10 (layout respects a fixed size).  For every clamp function that keeps
its result between ordered bounds, every context and every element:
`SetFixedSize(size)` leaves `minSize_ = maxSize_ = size_ = (max(size.x, 0),
max(size.y, 0))`; and on every axis on which `minSize_` equals `maxSize_` and
`size_` equals that value, `UpdateLayout` (whatever the layout mode, the
children and the parent's requests) leaves `minSize_`, `maxSize_` and `size_`
on that axis unchanged. -/
theorem layout_respects_fixed_size (ctx : LayoutContext) (hClamp : ClampInRange ctx.Clamp)
    (e : ElementSize) (size : IntVector2) :
    ((SetFixedSize ctx e size).minSize_ = { x_ := max size.x_ 0, y_ := max size.y_ 0 } ∧
      (SetFixedSize ctx e size).maxSize_ = { x_ := max size.x_ 0, y_ := max size.y_ 0 } ∧
      (SetFixedSize ctx e size).size_ = { x_ := max size.x_ 0, y_ := max size.y_ 0 }) ∧
    (e.minSize_.x_ = e.maxSize_.x_ → e.size_.x_ = e.maxSize_.x_ →
      (UpdateLayout ctx e).minSize_.x_ = e.minSize_.x_ ∧
      (UpdateLayout ctx e).maxSize_.x_ = e.maxSize_.x_ ∧
      (UpdateLayout ctx e).size_.x_ = e.size_.x_) ∧
    (e.minSize_.y_ = e.maxSize_.y_ → e.size_.y_ = e.maxSize_.y_ →
      (UpdateLayout ctx e).minSize_.y_ = e.minSize_.y_ ∧
      (UpdateLayout ctx e).maxSize_.y_ = e.maxSize_.y_ ∧
      (UpdateLayout ctx e).size_.y_ = e.size_.y_) := by
  refine ⟨?_, ?_, ?_⟩
  · have hX : (SetFixedSize ctx e size).FixedX (max size.x_ 0) :=
      SetSizeWith_fixedX ctx hClamp _ _ _ (parentUpdateLayout_fixedX ctx hClamp _)
        (UpdateLayout_fixedX ctx hClamp _) _ _ rfl rfl
    have hY : (SetFixedSize ctx e size).FixedY (max size.y_ 0) :=
      SetSizeWith_fixedY ctx hClamp _ _ _ (parentUpdateLayout_fixedY ctx hClamp _)
        (UpdateLayout_fixedY ctx hClamp _) _ _ rfl rfl
    exact ⟨IntVector2.eq_of _ _ _ hX.1 hY.1, IntVector2.eq_of _ _ _ hX.2.1 hY.2.1,
      IntVector2.eq_of _ _ _ hX.2.2 hY.2.2⟩
  · intro h1 h2
    have := UpdateLayout_fixedX ctx hClamp e.maxSize_.x_ e ⟨h1, rfl, h2⟩
    exact ⟨this.1.trans h1.symm, this.2.1, this.2.2.trans h2.symm⟩
  · intro h1 h2
    have := UpdateLayout_fixedY ctx hClamp e.maxSize_.y_ e ⟨h1, rfl, h2⟩
    exact ⟨this.1.trans h1.symm, this.2.1, this.2.2.trans h2.symm⟩

/-- A fixed size with a negative width, and a vertical layout pass over an
element of fixed width 9. -/
theorem layout_respects_fixed_size_witness :
    ClampInRange LayoutContext.sample.Clamp ∧
    (SetFixedSize LayoutContext.sample
        { ElementSize.new with layoutMode_ := LayoutMode.LM_HORIZONTAL }
        { x_ := -3, y_ := 20 }).size_ = { x_ := 0, y_ := 20 } ∧
    (UpdateLayout LayoutContext.sample
        { ElementSize.new with
          layoutMode_ := LayoutMode.LM_VERTICAL
          minSize_ := { x_ := 9, y_ := 0 }
          maxSize_ := { x_ := 9, y_ := 100 }
          size_ := { x_ := 9, y_ := 0 } }).size_.x_ = 9 :=
  ⟨Clamp_inRange,
   (layout_respects_fixed_size LayoutContext.sample Clamp_inRange
      { ElementSize.new with layoutMode_ := LayoutMode.LM_HORIZONTAL }
      { x_ := -3, y_ := 20 }).1.2.2,
   ((layout_respects_fixed_size LayoutContext.sample Clamp_inRange
      { ElementSize.new with
        layoutMode_ := LayoutMode.LM_VERTICAL
        minSize_ := { x_ := 9, y_ := 0 }
        maxSize_ := { x_ := 9, y_ := 100 }
        size_ := { x_ := 9, y_ := 0 } }
      { x_ := 0, y_ := 0 }).2.1 rfl rfl).2.2⟩

/-! ## Theorems, part 4: event sender, sorting, priorities and alignment -/

/-- The loop of `GetElementEventSender`, started at an element whose parent
chain ends within `d` steps, returns for every fuel of at least `d`: the
result is the nearest proper ancestor whose flag is set, or else the end of the
chain. -/
theorem eventSenderLoop_spec (ui : UI) (d : Nat) :
    ∀ element : Nat, nthParent ui d (ui element).parent_ = none →
      ∀ fuel, d ≤ fuel →
        ∃ r k, eventSenderLoop ui fuel element = some r ∧
          nthParent ui k (some element) = some r ∧
          (∀ j y, 0 < j → j < k → nthParent ui j (some element) = some y →
            (ui y).elementEventSender_ = false) ∧
          ((ui r).elementEventSender_ = true ∨ (ui r).parent_ = none) := by
  induction d with
  | zero =>
      intro element hd fuel _
      simp only [nthParent] at hd
      refine ⟨element, 0, ?_, rfl, fun j y h1 h2 => absurd h1 (by omega), Or.inr hd⟩
      cases fuel <;> simp [eventSenderLoop, hd]
  | succ d ih =>
      intro element hd fuel hfuel
      cases hp : (ui element).parent_ with
      | none =>
          refine ⟨element, 0, ?_, rfl, fun j y h1 h2 => absurd h1 (by omega), Or.inr hp⟩
          cases fuel <;> simp [eventSenderLoop, hp]
      | some p =>
          obtain ⟨f, rfl⟩ : ∃ f, fuel = f + 1 := ⟨fuel - 1, by omega⟩
          by_cases hflag : (ui p).elementEventSender_ = true
          · refine ⟨p, 1, by simp [eventSenderLoop, hp, hflag], ?_,
              fun j y h1 h2 => absurd h1 (by omega), Or.inl hflag⟩
            rw [nthParent_succ_some, hp]; rfl
          · rw [hp, nthParent_succ_some] at hd
            obtain ⟨r, k, hr, hk, hbetween, hend⟩ := ih p hd f (by omega)
            refine ⟨r, k + 1, by simp [eventSenderLoop, hp, hflag, hr], ?_, ?_, hend⟩
            · rw [nthParent_succ_some, hp]; exact hk
            · intro j y h1 h2 hy
              obtain ⟨j', rfl⟩ : ∃ j', j = j' + 1 := ⟨j - 1, by omega⟩
              rw [nthParent_succ_some, hp] at hy
              cases j' with
              | zero =>
                  simp only [nthParent, Option.some.injEq] at hy
                  rw [← hy]; simpa using hflag
              | succ j'' => exact hbetween (j'' + 1) y (by omega) (by omega) hy

/-- C14 (`GetElementEventSender` never returns null).  When the parent chain of
the receiver ends within `d` steps, the function returns for every fuel of at
least `d`, and it returns a non-null element `r`: `r` lies on the chain of the
receiver and its ancestors, no element before `r` on that chain has the flag
`elementEventSender_` set, and `r` has the flag set or has no parent.  So the
result is the receiver if its flag is set, otherwise the nearest ancestor
whose flag is set, otherwise the root of the parent chain, which is the
receiver itself when it has no parent. -/
theorem GetElementEventSender_spec (ui : UI) (this d : Nat)
    (hdepth : nthParent ui d (ui this).parent_ = none) :
    ∀ fuel, d ≤ fuel →
      ∃ r k, GetElementEventSender ui fuel this = some (some r) ∧
        nthParent ui k (some this) = some r ∧
        (∀ j y, j < k → nthParent ui j (some this) = some y →
          (ui y).elementEventSender_ = false) ∧
        ((ui r).elementEventSender_ = true ∨ (ui r).parent_ = none) ∧
        ((ui this).elementEventSender_ = true → r = this) ∧
        ((ui this).parent_ = none → r = this) := by
  intro fuel hfuel
  by_cases hflag : (ui this).elementEventSender_ = true
  · exact ⟨this, 0, by simp [GetElementEventSender, hflag], rfl,
      fun j y h => absurd h (by omega), Or.inl hflag, fun _ => rfl, fun _ => rfl⟩
  · obtain ⟨r, k, hr, hk, hbetween, hend⟩ := eventSenderLoop_spec ui d this hdepth fuel hfuel
    refine ⟨r, k, by simp [GetElementEventSender, hflag, hr], hk, ?_, hend,
      fun h => absurd h hflag, ?_⟩
    · intro j y hj hy
      cases j with
      | zero =>
          simp only [nthParent, Option.some.injEq] at hy
          rw [← hy]; simpa using hflag
      | succ j' => exact hbetween (j' + 1) y (by omega) hj hy
    · intro hnone
      cases k with
      | zero => simpa [nthParent] using hk.symm
      | succ k' =>
          rw [nthParent_succ_some, hnone, nthParent_none] at hk
          cases hk

/-- In the sample windows, no element has the flag set: the event sender of
element 4 is the root 0, two steps up. -/
theorem GetElementEventSender_spec_witness :
    GetElementEventSender sampleWindows 2 4 = some (some 0) ∧
    ∃ r k, GetElementEventSender sampleWindows 2 4 = some (some r) ∧
      nthParent sampleWindows k (some 4) = some r ∧
      (∀ j y, j < k → nthParent sampleWindows j (some 4) = some y →
        (sampleWindows y).elementEventSender_ = false) ∧
      ((sampleWindows r).elementEventSender_ = true ∨ (sampleWindows r).parent_ = none) ∧
      ((sampleWindows 4).elementEventSender_ = true → r = 4) ∧
      ((sampleWindows 4).parent_ = none → r = 4) :=
  ⟨by decide, GetElementEventSender_spec sampleWindows 4 2 rfl 2 (Nat.le_refl 2)⟩

/-- The insertion sort of the examples sorts by the comparison of
`SortChildren`. -/
theorem insertionSortBy_sorts (ui : UI) : SortsBy insertionSortBy (CompareUIElements ui) := by
  intro l
  haveI : IsTotal Nat (fun a b => CompareUIElements ui b a = false) :=
    ⟨fun a b => by simp only [CompareUIElements, decide_eq_false_iff_not, not_lt]; omega⟩
  haveI : IsTrans Nat (fun a b => CompareUIElements ui b a = false) :=
    ⟨fun a b c => by simp only [CompareUIElements, decide_eq_false_iff_not, not_lt]; omega⟩
  exact ⟨List.perm_insertionSort _ l, List.sorted_insertionSort _ l⟩

/-- C15 (`SortChildren` only sorts when there is no layout).  For every sorting
function that rearranges its input into an order in which no element is
followed by one that compares less: if `sortChildren_` and `sortOrderDirty_`
are both set and the layout mode is `LM_FREE`, the children afterwards are a
permutation of the previous children in non-decreasing priority order; in
every other case the children are unchanged, so the children are reordered
only in the first case.  No priority changes and no other element is
touched. -/
theorem SortChildren_spec (sortBy : (Nat → Nat → Bool) → List Nat → List Nat) (ui : UI)
    (this : Nat) (hSort : SortsBy sortBy (CompareUIElements ui)) :
    (((ui this).sortChildren_ = true ∧ (ui this).sortOrderDirty_ = true ∧
        (ui this).layoutMode_ = LayoutMode.LM_FREE) →
      ((SortChildren sortBy ui this) this).children_.Perm (ui this).children_ ∧
      ((SortChildren sortBy ui this) this).children_.Pairwise
        (fun a b => ((SortChildren sortBy ui this) a).priority_ ≤
          ((SortChildren sortBy ui this) b).priority_)) ∧
    (¬ ((ui this).sortChildren_ = true ∧ (ui this).sortOrderDirty_ = true ∧
        (ui this).layoutMode_ = LayoutMode.LM_FREE) →
      ((SortChildren sortBy ui this) this).children_ = (ui this).children_) ∧
    (((SortChildren sortBy ui this) this).children_ ≠ (ui this).children_ →
      (ui this).sortChildren_ = true ∧ (ui this).sortOrderDirty_ = true ∧
        (ui this).layoutMode_ = LayoutMode.LM_FREE) ∧
    (∀ x, ((SortChildren sortBy ui this) x).priority_ = (ui x).priority_) ∧
    (∀ x, x ≠ this → (SortChildren sortBy ui this) x = ui x) := by
  have hprio : ∀ x, ((SortChildren sortBy ui this) x).priority_ = (ui x).priority_ := by
    intro x
    unfold SortChildren
    by_cases h1 : (ui this).sortChildren_ = true ∧ (ui this).sortOrderDirty_ = true
    · rw [if_pos h1]
      by_cases h2 : (ui this).layoutMode_ = LayoutMode.LM_FREE
      · by_cases hx : x = this
        · subst hx; simp [h2, UI.set_apply]
        · simp [h2, UI.set_apply, hx]
      · by_cases hx : x = this
        · subst hx; simp [h2, UI.set_apply]
        · simp [h2, UI.set_apply, hx]
    · rw [if_neg h1]
  have hkeep : ¬ ((ui this).sortChildren_ = true ∧ (ui this).sortOrderDirty_ = true ∧
        (ui this).layoutMode_ = LayoutMode.LM_FREE) →
      ((SortChildren sortBy ui this) this).children_ = (ui this).children_ := by
    intro hnot
    unfold SortChildren
    by_cases h1 : (ui this).sortChildren_ = true ∧ (ui this).sortOrderDirty_ = true
    · have h2 : ¬ (ui this).layoutMode_ = LayoutMode.LM_FREE :=
        fun h => hnot ⟨h1.1, h1.2, h⟩
      rw [if_pos h1]
      simp [h2, UI.set_apply]
    · rw [if_neg h1]
  refine ⟨?_, hkeep, ?_, hprio, ?_⟩
  · rintro ⟨h1, h2, h3⟩
    have hc : ((SortChildren sortBy ui this) this).children_ =
        sortBy (CompareUIElements ui) (ui this).children_ := by
      unfold SortChildren
      simp [h1, h2, h3, UI.set_apply]
    rw [hc]
    refine ⟨(hSort _).1, ?_⟩
    refine (hSort _).2.imp ?_
    intro a b hab
    rw [hprio a, hprio b]
    simpa [CompareUIElements] using hab
  · intro hne
    by_contra hnot
    exact hne (hkeep hnot)
  · intro x hx
    unfold SortChildren
    by_cases h1 : (ui this).sortChildren_ = true ∧ (ui this).sortOrderDirty_ = true
    · rw [if_pos h1]
      by_cases h2 : (ui this).layoutMode_ = LayoutMode.LM_FREE
      · simp [h2, UI.set_apply, hx]
      · simp [h2, UI.set_apply, hx]
    · rw [if_neg h1]

/-- The children 2, 1, 3 of the root of the unsorted windows, with priorities
5, 0, 5, are sorted into the order 1, 2, 3. -/
theorem SortChildren_spec_witness :
    ((SortChildren insertionSortBy unsortedWindows 0) 0).children_ = [1, 2, 3] ∧
    SortsBy insertionSortBy (CompareUIElements unsortedWindows) ∧
    ((SortChildren insertionSortBy unsortedWindows 0) 0).children_.Perm
      (unsortedWindows 0).children_ ∧
    ((SortChildren insertionSortBy unsortedWindows 0) 0).children_.Pairwise
      (fun a b => ((SortChildren insertionSortBy unsortedWindows 0) a).priority_ ≤
        ((SortChildren insertionSortBy unsortedWindows 0) b).priority_) :=
  ⟨by decide, insertionSortBy_sorts unsortedWindows,
   (SortChildren_spec insertionSortBy unsortedWindows 0
      (insertionSortBy_sorts unsortedWindows)).1 ⟨rfl, rfl, rfl⟩⟩

/-- The members after `SetPriority`: the priority of the receiver is the new
one, every other priority and every flag, parent and child list is kept. -/
theorem SetPriority_fields (ui : UI) (a : Nat) (priority : Int) (x : Nat) :
    ((SetPriority ui a priority) x).priority_ =
      (if x = a then priority else (ui x).priority_) ∧
    ((SetPriority ui a priority) x).enabled_ = (ui x).enabled_ ∧
    ((SetPriority ui a priority) x).bringToBack_ = (ui x).bringToBack_ ∧
    ((SetPriority ui a priority) x).parent_ = (ui x).parent_ ∧
    ((SetPriority ui a priority) x).children_ = (ui x).children_ := by
  unfold SetPriority
  simp only [UI.set_apply, if_true]
  cases hp : (ui a).parent_ with
  | none =>
      by_cases hx : x = a
      · subst hx; simp [UI.set_apply, hp]
      · simp [UI.set_apply, hx]
  | some parent =>
      by_cases hx : x = a
      · subst hx
        by_cases hxp : x = parent
        · subst hxp; simp [UI.set_apply, hp]
        · simp [UI.set_apply, hxp, hp]
      · by_cases hxp : x = parent
        · subst hxp; simp [UI.set_apply, hx]
        · simp [UI.set_apply, hx, hxp]

/-- `SetPriority` does not change which elements are taken into account. -/
theorem SetPriority_takenIntoAccount (ui : UI) (a : Nat) (priority : Int) (ptr x : Nat) :
    takenIntoAccount (SetPriority ui a priority) ptr x = takenIntoAccount ui ptr x := by
  unfold takenIntoAccount
  rw [(SetPriority_fields ui a priority x).2.1, (SetPriority_fields ui a priority x).2.2.1]

/-- The loop of `GetRoot` reaches a parentless element met after `j` steps. -/
theorem climbToRoot_spec (ui : UI) (root : Nat) (hroot : (ui root).parent_ = none) (j : Nat) :
    ∀ x, nthParent ui j (some x) = some root →
      ∀ fuel, j ≤ fuel → climbToRoot ui fuel x = some root := by
  induction j with
  | zero =>
      intro x hx fuel _
      simp only [nthParent, Option.some.injEq] at hx
      subst hx
      cases fuel <;> simp [climbToRoot, hroot]
  | succ j ih =>
      intro x hx fuel hfuel
      rw [nthParent_succ_some] at hx
      cases hp : (ui x).parent_ with
      | none => rw [hp, nthParent_none] at hx; cases hx
      | some p =>
          obtain ⟨f, rfl⟩ : ∃ f, fuel = f + 1 := ⟨fuel - 1, by omega⟩
          rw [hp] at hx
          simp only [climbToRoot, hp]
          exact ih p hx f (by omega)

/-- The loop to the top level window stops at the child `T` of the root that is
met after `k` steps. -/
theorem topLevelWindow_spec (ui : UI) (root T : Nat) (hTroot : (ui T).parent_ = some root)
    (hroot : (ui root).parent_ = none) (k : Nat) :
    ∀ x, nthParent ui k (some x) = some T →
      ∀ fuel, k ≤ fuel → topLevelWindow ui root fuel (some x) = some (some T) := by
  induction k with
  | zero =>
      intro x hx fuel _
      simp only [nthParent, Option.some.injEq] at hx
      subst hx
      cases fuel <;> simp [topLevelWindow, hTroot]
  | succ k ih =>
      intro x hx fuel hfuel
      rw [nthParent_succ_some] at hx
      have hnot : (ui x).parent_ ≠ some root := by
        intro h
        rw [h] at hx
        cases k with
        | zero =>
            simp only [nthParent, Option.some.injEq] at hx
            subst hx
            rw [hroot] at hTroot; cases hTroot
        | succ k' =>
            rw [nthParent_succ_some, hroot, nthParent_none] at hx; cases hx
      cases hp : (ui x).parent_ with
      | none => rw [hp, nthParent_none] at hx; cases hx
      | some p =>
          obtain ⟨f, rfl⟩ : ∃ f, fuel = f + 1 := ⟨fuel - 1, by omega⟩
          rw [hp] at hx hnot
          simp only [topLevelWindow, hp, hnot, if_false]
          exact ih p hx f (by omega)

/-- `GetRoot` returns the root above the top level window `T`. -/
theorem GetRoot_spec (ui : UI) (this root T k : Nat)
    (hT : nthParent ui k (some this) = some T) (hTroot : (ui T).parent_ = some root)
    (hroot : (ui root).parent_ = none) :
    ∀ fuel, k ≤ fuel → GetRoot ui fuel this = some (some root) := by
  intro fuel hfuel
  have hchain : nthParent ui (k + 1) (some this) = some root := by
    rw [nthParent_add, hT]
    simp [nthParent, hTroot]
  rw [nthParent_succ_some] at hchain
  unfold GetRoot
  cases hp : (ui this).parent_ with
  | none => rw [hp, nthParent_none] at hchain; cases hchain
  | some p =>
      rw [hp] at hchain
      simp only [climbToRoot_spec ui root hroot k p hchain fuel hfuel, Option.map_some']

/-- The first loop of `BringToFront`: the highest priority never falls, every
element taken into account whose priority is not `M_MAX_INT` has its priority
noted and bounded by the highest one, every noted priority comes from such an
element, and the highest priority is the start value or a noted one. -/
theorem notePriority_fold (ui : UI) (ptr : Nat) (l : List Nat) :
    ∀ st : List Int × Int,
      st.2 ≤ (l.foldl (notePriority ui ptr) st).2 ∧
      (∀ other ∈ l, takenIntoAccount ui ptr other = true →
        (ui other).priority_ ≠ M_MAX_INT →
        (ui other).priority_ ≤ (l.foldl (notePriority ui ptr) st).2) ∧
      (∀ p ∈ (l.foldl (notePriority ui ptr) st).1, p ∈ st.1 ∨
        ∃ other ∈ l, takenIntoAccount ui ptr other = true ∧ (ui other).priority_ = p ∧
          p ≠ M_MAX_INT) ∧
      (∀ p ∈ st.1, p ∈ (l.foldl (notePriority ui ptr) st).1) ∧
      ((l.foldl (notePriority ui ptr) st).2 = st.2 ∨
        (l.foldl (notePriority ui ptr) st).2 ∈ (l.foldl (notePriority ui ptr) st).1) ∧
      (l.foldl (notePriority ui ptr) st).1.length ≤ st.1.length + l.length := by
  induction l with
  | nil =>
      intro st
      exact ⟨le_refl _, fun o ho => absurd ho (List.not_mem_nil o), fun p hp => Or.inl hp,
        fun p hp => hp, Or.inl rfl, by simp⟩
  | cons a rest ih =>
      intro st
      simp only [List.foldl_cons]
      obtain ⟨h1, h2, h3, h4, h5, h6⟩ := ih (notePriority ui ptr st a)
      by_cases hnote : takenIntoAccount ui ptr a = true ∧ (ui a).priority_ ≠ M_MAX_INT
      · have hst : notePriority ui ptr st a = ((ui a).priority_ :: st.1, max (ui a).priority_ st.2) := by
          simp [notePriority, hnote.1, hnote.2]
        rw [hst] at h1 h2 h3 h4 h5 h6 ⊢
        refine ⟨le_trans (le_max_right _ _) h1, ?_, ?_, ?_, ?_, ?_⟩
        · intro other ho htaken hmax
          rcases List.mem_cons.mp ho with h | h
          · subst h; exact le_trans (le_max_left _ _) h1
          · exact h2 other h htaken hmax
        · intro p hp
          rcases h3 p hp with h | ⟨o, ho, h⟩
          · rcases List.mem_cons.mp h with h | h
            · exact Or.inr ⟨a, List.mem_cons_self _ _, hnote.1, h.symm, by rw [h]; exact hnote.2⟩
            · exact Or.inl h
          · exact Or.inr ⟨o, List.mem_cons_of_mem _ ho, h⟩
        · intro p hp
          exact h4 p (List.mem_cons_of_mem _ hp)
        · rcases h5 with h | h
          · rcases max_cases (ui a).priority_ st.2 with ⟨hm, _⟩ | ⟨hm, _⟩
            · right
              have e := h.trans hm
              rw [e]; exact h4 _ (List.mem_cons_self _ _)
            · left
              exact h.trans hm
          · exact Or.inr h
        · simp only [List.length_cons] at h6 ⊢; omega
      · have hst : notePriority ui ptr st a = st := by
          unfold notePriority
          by_cases ht : takenIntoAccount ui ptr a = true
          · have : (ui a).priority_ = M_MAX_INT := by
              by_contra hne; exact hnote ⟨ht, hne⟩
            simp [ht, this]
          · simp [ht]
        rw [hst] at h1 h2 h3 h4 h5 h6 ⊢
        refine ⟨h1, ?_, ?_, h4, h5, ?_⟩
        · intro other ho htaken hmax
          rcases List.mem_cons.mp ho with h | h
          · subst h; exact absurd ⟨htaken, hmax⟩ hnote
          · exact h2 other h htaken hmax
        · intro p hp
          rcases h3 p hp with h | ⟨o, ho, h⟩
          · exact Or.inl h
          · exact Or.inr ⟨o, List.mem_cons_of_mem _ ho, h⟩
        · simp only [List.length_cons]; omega

/-- An element of `used` makes the number of used priorities up to it larger
than the number up to its predecessor. -/
theorem used_below_lt (used : List Int) (p : Int) (hp : p ∈ used) :
    (used.filter (fun q => decide (q ≤ p - 1))).length <
      (used.filter (fun q => decide (q ≤ p))).length := by
  have h : used.filter (fun q => decide (q ≤ p - 1)) =
      (used.filter (fun q => decide (q ≤ p))).filter (fun q => decide (q ≤ p - 1)) := by
    rw [List.filter_filter]
    congr 1
    funext q
    by_cases hq : q ≤ p - 1
    · have : q ≤ p := by omega
      simp [hq, this]
    · simp [hq]
  rw [h]
  apply List.length_filter_lt_length_iff_exists.mpr
  exact ⟨p, List.mem_filter.mpr ⟨hp, by simp⟩, by simp⟩

/-- Reduction to 32 bits keeps a value that is within the range of `int`. -/
theorem wrapInt_of_range (x : Int) (hlo : M_MIN_INT ≤ x) (hhi : x ≤ M_MAX_INT) :
    wrapInt x = x := by
  unfold wrapInt
  unfold M_MIN_INT at hlo
  unfold M_MAX_INT at hhi
  omega

/-- The predecessor of the smallest `int` is the largest one. -/
theorem wrapInt_underflow : wrapInt (M_MIN_INT - 1) = M_MAX_INT := by
  decide

/-- The loop that looks for the first unused priority stops at once at an
unused value. -/
theorem firstUnusedBelow_unused (used : List Int) (p : Int) (hp : p ∉ used) (fuel : Nat) :
    firstUnusedBelow used fuel p = some p := by
  cases fuel <;> simp [firstUnusedBelow, hp]

/-- The loop that looks for the first unused priority ends when the fuel covers
the used priorities up to the start value, provided `M_MAX_INT` is not used: the
result is unused and an `int`; when no used priority is `M_MIN_INT` the result
is not above the start value. -/
theorem firstUnusedBelow_spec (used : List Int)
    (hrange : ∀ q ∈ used, M_MIN_INT ≤ q ∧ q < M_MAX_INT) :
    ∀ (fuel : Nat) (p : Int), M_MIN_INT ≤ p → p ≤ M_MAX_INT →
      (used.filter (fun q => decide (q ≤ p))).length ≤ fuel →
      ∃ m, firstUnusedBelow used fuel p = some m ∧ m ∉ used ∧
        M_MIN_INT ≤ m ∧ m ≤ M_MAX_INT ∧ ((∀ q ∈ used, M_MIN_INT < q) → m ≤ p) := by
  intro fuel
  induction fuel with
  | zero =>
      intro p hlo hhi hlen
      have hp : p ∉ used := by
        intro h
        have := used_below_lt used p h
        omega
      exact ⟨p, by simp [firstUnusedBelow, hp], hp, hlo, hhi, fun _ => le_refl _⟩
  | succ f ih =>
      intro p hlo hhi hlen
      by_cases hp : p ∈ used
      · by_cases hmin : p = M_MIN_INT
        · have hmax : M_MAX_INT ∉ used := fun h => absurd (hrange _ h).2 (lt_irrefl _)
          refine ⟨M_MAX_INT, ?_, hmax, by decide, le_refl _, fun h => ?_⟩
          · simp only [firstUnusedBelow, hp, if_true]
            rw [hmin, wrapInt_underflow]
            exact firstUnusedBelow_unused used _ hmax f
          · exact absurd (h p hp) (by rw [hmin]; exact lt_irrefl _)
        · have hlo1 : M_MIN_INT ≤ p - 1 := by
            have : M_MIN_INT < p := lt_of_le_of_ne hlo (Ne.symm hmin)
            omega
          have hhi1 : p - 1 ≤ M_MAX_INT := by omega
          have := used_below_lt used p hp
          obtain ⟨m, hm, hm1, hm2, hm3, hm4⟩ := ih (p - 1) hlo1 hhi1 (by omega)
          refine ⟨m, ?_, hm1, hm2, hm3, fun h => ?_⟩
          · simp only [firstUnusedBelow, hp, if_true]
            rw [wrapInt_of_range _ hlo1 hhi1]
            exact hm
          · have := hm4 h
            omega
      · exact ⟨p, by simp [firstUnusedBelow, hp], hp, hlo, hhi, fun _ => le_refl _⟩

/-- The members after one step of the second loop of `BringToFront`. -/
theorem lowerPriority_fields (ptr : Nat) (lo hi : Int) (ui : UI) (a x : Nat) :
    ((lowerPriority ptr lo hi ui a) x).priority_ =
      (if x = a ∧ takenIntoAccount ui ptr a = true ∧ lo ≤ (ui a).priority_ ∧
          (ui a).priority_ ≤ hi then wrapInt ((ui a).priority_ - 1) else (ui x).priority_) ∧
    ((lowerPriority ptr lo hi ui a) x).enabled_ = (ui x).enabled_ ∧
    ((lowerPriority ptr lo hi ui a) x).bringToBack_ = (ui x).bringToBack_ ∧
    ((lowerPriority ptr lo hi ui a) x).parent_ = (ui x).parent_ ∧
    ((lowerPriority ptr lo hi ui a) x).children_ = (ui x).children_ := by
  unfold lowerPriority
  by_cases hc : takenIntoAccount ui ptr a = true ∧ (ui a).priority_ ≥ lo ∧ (ui a).priority_ ≤ hi
  · simp only [hc, and_self, if_true]
    obtain ⟨f1, f2, f3, f4, f5⟩ := SetPriority_fields ui a (wrapInt ((ui a).priority_ - 1)) x
    refine ⟨?_, f2, f3, f4, f5⟩
    rw [f1]
    have hlo : lo ≤ (ui a).priority_ := hc.2.1
    by_cases hx : x = a
    · simp [hx, hc.1, hlo, hc.2.2]
    · simp [hx]
  · rw [if_neg hc]
    refine ⟨?_, rfl, rfl, rfl, rfl⟩
    have : ¬ (x = a ∧ takenIntoAccount ui ptr a = true ∧ lo ≤ (ui a).priority_ ∧
        (ui a).priority_ ≤ hi) := fun h => hc ⟨h.2.1, h.2.2.1, h.2.2.2⟩
    rw [if_neg this]

/-- One step of the second loop of `BringToFront` does not change which elements
are taken into account. -/
theorem lowerPriority_takenIntoAccount (ptr : Nat) (lo hi : Int) (ui : UI) (a x : Nat) :
    takenIntoAccount (lowerPriority ptr lo hi ui a) ptr x = takenIntoAccount ui ptr x := by
  unfold takenIntoAccount
  rw [(lowerPriority_fields ptr lo hi ui a x).2.1, (lowerPriority_fields ptr lo hi ui a x).2.2.1]

/-- The second loop of `BringToFront` keeps the flags, the parent and the child
list of every element. -/
theorem lowerPriority_fold_frame (ptr : Nat) (lo hi : Int) (l : List Nat) :
    ∀ (ui : UI) (x : Nat),
      ((l.foldl (lowerPriority ptr lo hi) ui) x).enabled_ = (ui x).enabled_ ∧
      ((l.foldl (lowerPriority ptr lo hi) ui) x).bringToBack_ = (ui x).bringToBack_ ∧
      ((l.foldl (lowerPriority ptr lo hi) ui) x).parent_ = (ui x).parent_ ∧
      ((l.foldl (lowerPriority ptr lo hi) ui) x).children_ = (ui x).children_ := by
  induction l with
  | nil => intro ui x; exact ⟨rfl, rfl, rfl, rfl⟩
  | cons a rest ih =>
      intro ui x
      simp only [List.foldl_cons]
      obtain ⟨h1, h2, h3, h4⟩ := ih (lowerPriority ptr lo hi ui a) x
      obtain ⟨_, f2, f3, f4, f5⟩ := lowerPriority_fields ptr lo hi ui a x
      exact ⟨h1.trans f2, h2.trans f3, h3.trans f4, h4.trans f5⟩

/-- The second loop of `BringToFront` keeps the priority of an element that is
not in the list, is not taken into account, or has a priority above the
highest one. -/
theorem lowerPriority_fold_keeps (ptr : Nat) (lo hi : Int) (l : List Nat) :
    ∀ (ui : UI) (x : Nat),
      (x ∉ l ∨ takenIntoAccount ui ptr x = false ∨ hi < (ui x).priority_) →
      ((l.foldl (lowerPriority ptr lo hi) ui) x).priority_ = (ui x).priority_ := by
  induction l with
  | nil => intro ui x _; rfl
  | cons a rest ih =>
      intro ui x hx
      simp only [List.foldl_cons]
      have hstep : ((lowerPriority ptr lo hi ui a) x).priority_ = (ui x).priority_ := by
        rw [(lowerPriority_fields ptr lo hi ui a x).1]
        apply if_neg
        rintro ⟨rfl, ht, _, hhi⟩
        rcases hx with h | h | h
        · exact h (List.mem_cons_self _ _)
        · rw [h] at ht; cases ht
        · omega
      rw [ih (lowerPriority ptr lo hi ui a) x ?_, hstep]
      rcases hx with h | h | h
      · exact Or.inl (fun hm => h (List.mem_cons_of_mem _ hm))
      · exact Or.inr (Or.inl (by rw [lowerPriority_takenIntoAccount]; exact h))
      · exact Or.inr (Or.inr (by rw [hstep]; exact h))

/-- The second loop of `BringToFront` over a list without duplicates: an element
of the list that is taken into account and whose priority lies between the
lowest and the highest one is lowered once, every other priority is kept. -/
theorem lowerPriority_fold_spec (ptr : Nat) (lo hi : Int) (l : List Nat) (hl : l.Nodup) :
    ∀ (ui : UI) (x : Nat),
      ((l.foldl (lowerPriority ptr lo hi) ui) x).priority_ =
        (if x ∈ l ∧ takenIntoAccount ui ptr x = true ∧ lo ≤ (ui x).priority_ ∧
            (ui x).priority_ ≤ hi then wrapInt ((ui x).priority_ - 1)
         else (ui x).priority_) := by
  induction l with
  | nil => intro ui x; simp
  | cons a rest ih =>
      intro ui x
      have ha : a ∉ rest := (List.nodup_cons.mp hl).1
      simp only [List.foldl_cons]
      by_cases hx : x = a
      · subst hx
        rw [lowerPriority_fold_keeps ptr lo hi rest _ x (Or.inl ha),
          (lowerPriority_fields ptr lo hi ui x x).1]
        simp
      · rw [ih (List.nodup_cons.mp hl).2 (lowerPriority ptr lo hi ui a) x,
          lowerPriority_takenIntoAccount, (lowerPriority_fields ptr lo hi ui a x).1]
        simp [hx]


/-- When the top level window `T` above the receiver is `k` steps away and the
fuel covers these steps, `BringToFront` is its body after the two chain
walks, with `ptr = T`. -/
theorem BringToFront_at (ui : UI) (this root T k : Nat)
    (hT : nthParent ui k (some this) = some T) (hTroot : (ui T).parent_ = some root)
    (hroot : (ui root).parent_ = none) (fuel : Nat) (hk : k ≤ fuel) :
    BringToFront fuel ui this =
      if (ui T).bringToFront_ = false then some ui
      else
        if ((ui root).children_.foldl (notePriority ui T) ([], M_MIN_INT)).2 ≠ M_MIN_INT ∧
            ((ui root).children_.foldl (notePriority ui T) ([], M_MIN_INT)).2 ≥
              (ui T).priority_ then
          match firstUnusedBelow ((ui root).children_.foldl (notePriority ui T) ([], M_MIN_INT)).1
              fuel ((ui root).children_.foldl (notePriority ui T) ([], M_MIN_INT)).2 with
          | none => none
          | some minPriority =>
              some ((ui root).children_.foldl
                (lowerPriority T minPriority
                  ((ui root).children_.foldl (notePriority ui T) ([], M_MIN_INT)).2)
                (SetPriority ui T
                  ((ui root).children_.foldl (notePriority ui T) ([], M_MIN_INT)).2))
        else some ui := by
  unfold BringToFront
  rw [GetRoot_spec ui this root T k hT hTroot hroot fuel hk]
  simp only [topLevelWindow_spec ui root T hTroot hroot k this hT fuel hk]

/-- The priorities noted by the first loop of `BringToFront` when the priorities
of the children of the root are `int` values: every noted priority is an `int`
below `M_MAX_INT`, the highest priority is an `int`, and the loop for the first
unused priority ends within as many iterations as the root has children. -/
theorem BringToFront_lowest (ui : UI) (root T : Nat)
    (hrange : ∀ c ∈ (ui root).children_,
      M_MIN_INT ≤ (ui c).priority_ ∧ (ui c).priority_ ≤ M_MAX_INT)
    (fuel : Nat) (hlen : (ui root).children_.length ≤ fuel) :
    ((ui root).children_.foldl (notePriority ui T) ([], M_MIN_INT)).2 < M_MAX_INT ∧
    ∃ m, firstUnusedBelow ((ui root).children_.foldl (notePriority ui T) ([], M_MIN_INT)).1
        fuel ((ui root).children_.foldl (notePriority ui T) ([], M_MIN_INT)).2 = some m ∧
      M_MIN_INT ≤ m ∧
      ((∀ other ∈ (ui root).children_, takenIntoAccount ui T other = true →
          (ui other).priority_ ≠ M_MAX_INT → M_MIN_INT < (ui other).priority_) →
        m ≤ ((ui root).children_.foldl (notePriority ui T) ([], M_MIN_INT)).2) := by
  obtain ⟨h1, _, h3, _, h5, h6⟩ := notePriority_fold ui T (ui root).children_ ([], M_MIN_INT)
  have hused : ∀ q ∈ ((ui root).children_.foldl (notePriority ui T) ([], M_MIN_INT)).1,
      M_MIN_INT ≤ q ∧ q < M_MAX_INT := by
    intro q hq
    rcases h3 q hq with h | ⟨o, ho, _, hp, hne⟩
    · exact absurd h (List.not_mem_nil q)
    · have := hrange o ho
      rw [hp] at this
      exact ⟨this.1, lt_of_le_of_ne this.2 hne⟩
  have hmax : ((ui root).children_.foldl (notePriority ui T) ([], M_MIN_INT)).2 < M_MAX_INT := by
    rcases h5 with h | h
    · rw [h]; decide
    · exact (hused _ h).2
  refine ⟨hmax, ?_⟩
  have hfuel : (((ui root).children_.foldl (notePriority ui T) ([], M_MIN_INT)).1.filter
      (fun q => decide (q ≤ ((ui root).children_.foldl (notePriority ui T)
        ([], M_MIN_INT)).2))).length ≤ fuel := by
    have := List.length_filter_le
      (fun q => decide (q ≤ ((ui root).children_.foldl (notePriority ui T)
        ([], M_MIN_INT)).2))
      ((ui root).children_.foldl (notePriority ui T) ([], M_MIN_INT)).1
    simp only [List.length_nil, Nat.zero_add] at h6
    omega
  obtain ⟨m, hm, _, hm2, _, hm4⟩ := firstUnusedBelow_spec _ hused fuel _ h1 (le_of_lt hmax) hfuel
  refine ⟨m, hm, hm2, fun hlow => hm4 ?_⟩
  intro q hq
  rcases h3 q hq with h | ⟨o, ho, ht, hp, hne⟩
  · exact absurd h (List.not_mem_nil q)
  · rw [← hp]
    exact hlow o ho ht (by rw [hp]; exact hne)

/-- Claim C11 as stated fails: in `lowestWindows` the top level window 1 has the
bringToFront flag and the other root child 2 is enabled, has bringToBack set and
a priority other than `M_MAX_INT`, yet `BringToFront` on 1 changes nothing for
every fuel, and the priority of 2 is not lower than the priority of 1. -/
theorem BringToFront_sentinel_counterexample :
    (lowestWindows 1).parent_ = some 0 ∧ (lowestWindows 0).parent_ = none ∧
    (lowestWindows 1).bringToFront_ = true ∧
    2 ∈ (lowestWindows 0).children_ ∧
    (lowestWindows 2).enabled_ = true ∧ (lowestWindows 2).bringToBack_ = true ∧
    (lowestWindows 2).priority_ ≠ M_MAX_INT ∧
    (∀ fuel, BringToFront fuel lowestWindows 1 = some lowestWindows) ∧
    ¬ (lowestWindows 2).priority_ < (lowestWindows 1).priority_ := by
  refine ⟨rfl, rfl, rfl, by decide, rfl, rfl, by decide, ?_, by decide⟩
  intro fuel
  rw [BringToFront_at lowestWindows 1 0 1 0 rfl rfl rfl fuel (Nat.zero_le _)]
  rw [if_neg (by decide), if_neg (by decide)]

/-- Claim C11, amended: let `T` be the top level window above the receiver
(`k` parent steps away, a child of the parentless `root`) and let it have the
bringToFront flag.  If the child list of the root has no duplicates, the
priorities of the root children are `int` values, and every other root child
that is taken into account (enabled, bringToBack set, priority not
`M_MAX_INT`) has a priority above `M_MIN_INT`, then `BringToFront` returns for
every fuel that covers the `k` steps and the number of root children, and
afterwards every other root child that is enabled, has bringToBack set and a
priority other than `M_MAX_INT` has a priority strictly lower than the one
of `T`. -/
theorem BringToFront_in_front (ui : UI) (this T root k : Nat)
    (hT : nthParent ui k (some this) = some T)
    (hTroot : (ui T).parent_ = some root)
    (hroot : (ui root).parent_ = none)
    (hflag : (ui T).bringToFront_ = true)
    (hnodup : (ui root).children_.Nodup)
    (hrange : ∀ c ∈ (ui root).children_,
      M_MIN_INT ≤ (ui c).priority_ ∧ (ui c).priority_ ≤ M_MAX_INT)
    (hlow : ∀ other ∈ (ui root).children_, takenIntoAccount ui T other = true →
      (ui other).priority_ ≠ M_MAX_INT → M_MIN_INT < (ui other).priority_) :
    ∀ fuel, k ≤ fuel → (ui root).children_.length ≤ fuel →
      ∃ ui', BringToFront fuel ui this = some ui' ∧
        ∀ other ∈ (ui root).children_, other ≠ T →
          (ui' other).enabled_ = true → (ui' other).bringToBack_ = true →
          (ui' other).priority_ ≠ M_MAX_INT →
          (ui' other).priority_ < (ui' T).priority_ := by
  intro fuel hk hlen
  rw [BringToFront_at ui this root T k hT hTroot hroot fuel hk]
  rw [if_neg (by rw [hflag]; decide)]
  obtain ⟨_, h2, _, _, _, _⟩ := notePriority_fold ui T (ui root).children_ ([], M_MIN_INT)
  obtain ⟨hmax, m, hm, hmlo, hmhi⟩ := BringToFront_lowest ui root T hrange fuel hlen
  have hmle := hmhi hlow
  by_cases hguard :
      ((ui root).children_.foldl (notePriority ui T) ([], M_MIN_INT)).2 ≠ M_MIN_INT ∧
      ((ui root).children_.foldl (notePriority ui T) ([], M_MIN_INT)).2 ≥ (ui T).priority_
  · rw [if_pos hguard, hm]
    refine ⟨_, rfl, ?_⟩
    intro other ho hne hen hbb hpr
    obtain ⟨e1, e2, _, _⟩ := lowerPriority_fold_frame T m
      ((ui root).children_.foldl (notePriority ui T) ([], M_MIN_INT)).2 (ui root).children_
      (SetPriority ui T ((ui root).children_.foldl (notePriority ui T) ([], M_MIN_INT)).2) other
    obtain ⟨s1, s2, s3, _, _⟩ := SetPriority_fields ui T
      ((ui root).children_.foldl (notePriority ui T) ([], M_MIN_INT)).2 other
    rw [if_neg hne] at s1
    rw [e1, s2] at hen
    rw [e2, s3] at hbb
    have htaken : takenIntoAccount ui T other = true := by
      simp [takenIntoAccount, hen, hbb, hne]
    have hTkeep := lowerPriority_fold_keeps T m
      ((ui root).children_.foldl (notePriority ui T) ([], M_MIN_INT)).2 (ui root).children_
      (SetPriority ui T ((ui root).children_.foldl (notePriority ui T) ([], M_MIN_INT)).2) T
      (Or.inr (Or.inl (by simp [takenIntoAccount])))
    rw [hTkeep, (SetPriority_fields ui T _ T).1, if_pos rfl]
    have hspec := lowerPriority_fold_spec T m
      ((ui root).children_.foldl (notePriority ui T) ([], M_MIN_INT)).2 (ui root).children_
      hnodup
      (SetPriority ui T ((ui root).children_.foldl (notePriority ui T) ([], M_MIN_INT)).2) other
    rw [SetPriority_takenIntoAccount, s1] at hspec
    rw [hspec] at hpr ⊢
    by_cases hmax0 : (ui other).priority_ = M_MAX_INT
    · have hnot : ¬ (other ∈ (ui root).children_ ∧ takenIntoAccount ui T other = true ∧
          m ≤ (ui other).priority_ ∧ (ui other).priority_ ≤
            ((ui root).children_.foldl (notePriority ui T) ([], M_MIN_INT)).2) := by
        rintro ⟨_, _, _, h⟩
        omega
      rw [if_neg hnot] at hpr
      exact absurd hmax0 hpr
    · have hle := h2 other ho htaken hmax0
      have hgt := hlow other ho htaken hmax0
      have hr := (hrange other ho).2
      by_cases hin : m ≤ (ui other).priority_
      · rw [if_pos ⟨ho, htaken, hin, hle⟩, wrapInt_of_range _ (by omega) (by omega)]
        omega
      · have hnot : ¬ (other ∈ (ui root).children_ ∧ takenIntoAccount ui T other = true ∧
            m ≤ (ui other).priority_ ∧ (ui other).priority_ ≤
              ((ui root).children_.foldl (notePriority ui T) ([], M_MIN_INT)).2) :=
          fun h => hin h.2.2.1
        rw [if_neg hnot]
        omega
  · rw [if_neg hguard]
    refine ⟨ui, rfl, ?_⟩
    intro other ho hne hen hbb hpr
    have htaken : takenIntoAccount ui T other = true := by
      simp [takenIntoAccount, hen, hbb, hne]
    have hle := h2 other ho htaken hpr
    have hgt := hlow other ho htaken hpr
    by_contra hcon
    apply hguard
    constructor
    · intro h; omega
    · show (ui T).priority_ ≤ _
      omega

/-- Witness for C11: element 4 of `sampleWindows` sits in the top level window 1;
after `BringToFront` the windows 2 and 3 lie below window 1. -/
theorem BringToFront_in_front_witness :
    ∃ ui', BringToFront 3 sampleWindows 4 = some ui' ∧
      ∀ other ∈ (sampleWindows 0).children_, other ≠ 1 →
        (ui' other).enabled_ = true → (ui' other).bringToBack_ = true →
        (ui' other).priority_ ≠ M_MAX_INT →
        (ui' other).priority_ < (ui' 1).priority_ :=
  BringToFront_in_front sampleWindows 4 1 0 1 (by decide) (by decide) (by decide) (by decide)
    (by decide) (by decide) (by decide) 3 (by decide) (by decide)

/-- Claim C12 as stated fails in its last part: in `sampleWindows` the root
child 1 is disabled and has priority 0, and `BringToFront` on its child 4
changes the priority of 1 to 5, because 1 is the top level window that is
brought to front. -/
theorem BringToFront_disabled_window_counterexample :
    1 ∈ (sampleWindows 0).children_ ∧ (sampleWindows 1).enabled_ = false ∧
    (sampleWindows 1).priority_ = 0 ∧
    (BringToFront 3 sampleWindows 4).map (fun ui' => (ui' 1).priority_) = some 5 := by
  decide

/-- Claim C12, amended: `BringToFront` changes nothing when the receiver has no
parent, and nothing when the top level window `T` above the receiver (`k`
parent steps away, a child of the parentless `root`) lacks the bringToFront
flag; and when the priorities of the root children are `int` values it
returns, for every fuel that covers the `k` steps and the number of root
children, a state in which every element other than `T` whose priority is
`M_MAX_INT`, that is disabled, or that has bringToBack cleared keeps its
priority. -/
theorem BringToFront_frame (ui : UI) (this : Nat) :
    ((ui this).parent_ = none → ∀ fuel, BringToFront fuel ui this = some ui) ∧
    (∀ T root k, nthParent ui k (some this) = some T → (ui T).parent_ = some root →
      (ui root).parent_ = none → ∀ fuel, k ≤ fuel →
        ((ui T).bringToFront_ = false → BringToFront fuel ui this = some ui) ∧
        ((∀ c ∈ (ui root).children_,
            M_MIN_INT ≤ (ui c).priority_ ∧ (ui c).priority_ ≤ M_MAX_INT) →
          (ui root).children_.length ≤ fuel →
          ∃ ui', BringToFront fuel ui this = some ui' ∧
            ∀ x, x ≠ T →
              ((ui x).priority_ = M_MAX_INT ∨ (ui x).enabled_ = false ∨
                (ui x).bringToBack_ = false) →
              (ui' x).priority_ = (ui x).priority_)) := by
  constructor
  · intro hp fuel
    simp [BringToFront, GetRoot, hp]
  · intro T root k hT hTroot hroot fuel hk
    rw [BringToFront_at ui this root T k hT hTroot hroot fuel hk]
    constructor
    · intro hflag
      rw [if_pos hflag]
    · intro hrange hlen
      by_cases hflag : (ui T).bringToFront_ = false
      · rw [if_pos hflag]
        exact ⟨ui, rfl, fun _ _ _ => rfl⟩
      · rw [if_neg hflag]
        obtain ⟨hmax, m, hm, _, _⟩ := BringToFront_lowest ui root T hrange fuel hlen
        by_cases hguard :
            ((ui root).children_.foldl (notePriority ui T) ([], M_MIN_INT)).2 ≠ M_MIN_INT ∧
            ((ui root).children_.foldl (notePriority ui T) ([], M_MIN_INT)).2 ≥
              (ui T).priority_
        · rw [if_pos hguard, hm]
          refine ⟨_, rfl, ?_⟩
          intro x hx hcase
          obtain ⟨s1, _, _, _, _⟩ := SetPriority_fields ui T
            ((ui root).children_.foldl (notePriority ui T) ([], M_MIN_INT)).2 x
          rw [if_neg hx] at s1
          rw [lowerPriority_fold_keeps T m _ (ui root).children_ _ x ?_, s1]
          rw [SetPriority_takenIntoAccount, s1]
          rcases hcase with h | h | h
          · exact Or.inr (Or.inr (by rw [h]; exact hmax))
          · exact Or.inr (Or.inl (by simp [takenIntoAccount, h]))
          · exact Or.inr (Or.inl (by simp [takenIntoAccount, h]))
        · rw [if_neg hguard]
          exact ⟨ui, rfl, fun _ _ _ => rfl⟩

/-- Witness for C12 on `sampleWindows`: the root 0 has no parent, the top level
window 2 lacks the bringToFront flag, and `BringToFront` on 4 keeps the
priority of every element other than window 1 that is not taken into
account. -/
theorem BringToFront_frame_witness :
    BringToFront 0 sampleWindows 0 = some sampleWindows ∧
    BringToFront 0 sampleWindows 2 = some sampleWindows ∧
    ∃ ui', BringToFront 3 sampleWindows 4 = some ui' ∧
      ∀ x, x ≠ 1 →
        ((sampleWindows x).priority_ = M_MAX_INT ∨ (sampleWindows x).enabled_ = false ∨
          (sampleWindows x).bringToBack_ = false) →
        (ui' x).priority_ = (sampleWindows x).priority_ :=
  ⟨(BringToFront_frame sampleWindows 0).1 rfl 0,
   ((BringToFront_frame sampleWindows 2).2 2 0 0 rfl rfl rfl 0 (le_refl _)).1 rfl,
   ((BringToFront_frame sampleWindows 4).2 1 0 1 (by decide) rfl rfl 3 (by decide)).2
     (by decide) (by decide)⟩


/-! ## Theorems, part 5: alignment under a layout -/

/-- `SetHorizontalAlignment` keeps every layout mode and vertical alignment and
the horizontal alignment of every other element; the receiver ends aligned
left when its parent has a horizontal layout. -/
theorem SetHorizontalAlignment_forces (ui : UI) (this : Nat) (align : HorizontalAlignment) :
    (∀ x, ((SetHorizontalAlignment ui this align) x).layoutMode_ = (ui x).layoutMode_ ∧
      ((SetHorizontalAlignment ui this align) x).verticalAlignment_ =
        (ui x).verticalAlignment_ ∧
      (x ≠ this → ((SetHorizontalAlignment ui this align) x).horizontalAlignment_ =
        (ui x).horizontalAlignment_)) ∧
    (∀ p, (ui this).parent_ = some p → (ui p).layoutMode_ = LayoutMode.LM_HORIZONTAL →
      ((SetHorizontalAlignment ui this align) this).horizontalAlignment_ =
        HorizontalAlignment.HA_LEFT) := by
  constructor
  · intro x
    unfold SetHorizontalAlignment
    simp only
    by_cases hx : x = this
    · subst hx
      split_ifs <;> simp [UI.set_apply]
    · split_ifs <;> simp [UI.set_apply, hx]
  · intro p hp hlm
    unfold SetHorizontalAlignment
    simp only [hp, hlm, decide_True, Bool.and_true]
    by_cases ha : align = HorizontalAlignment.HA_LEFT
    · subst ha
      by_cases hcur : (ui this).horizontalAlignment_ = HorizontalAlignment.HA_LEFT
      · simp [hcur]
      · simp [hcur, UI.set_apply]
    · by_cases hcur : (ui this).horizontalAlignment_ = HorizontalAlignment.HA_LEFT
      · simp [ha, hcur]
      · simp [ha, hcur, UI.set_apply]

/-- `SetVerticalAlignment` keeps every layout mode and horizontal alignment and
the vertical alignment of every other element; the receiver ends aligned to
the top when its parent has a vertical layout. -/
theorem SetVerticalAlignment_forces (ui : UI) (this : Nat) (align : VerticalAlignment) :
    (∀ x, ((SetVerticalAlignment ui this align) x).layoutMode_ = (ui x).layoutMode_ ∧
      ((SetVerticalAlignment ui this align) x).horizontalAlignment_ =
        (ui x).horizontalAlignment_ ∧
      (x ≠ this → ((SetVerticalAlignment ui this align) x).verticalAlignment_ =
        (ui x).verticalAlignment_)) ∧
    (∀ p, (ui this).parent_ = some p → (ui p).layoutMode_ = LayoutMode.LM_VERTICAL →
      ((SetVerticalAlignment ui this align) this).verticalAlignment_ =
        VerticalAlignment.VA_TOP) := by
  constructor
  · intro x
    unfold SetVerticalAlignment
    simp only
    by_cases hx : x = this
    · subst hx
      split_ifs <;> simp [UI.set_apply]
    · split_ifs <;> simp [UI.set_apply, hx]
  · intro p hp hlm
    unfold SetVerticalAlignment
    simp only [hp, hlm, decide_True, Bool.and_true]
    by_cases ha : align = VerticalAlignment.VA_TOP
    · subst ha
      by_cases hcur : (ui this).verticalAlignment_ = VerticalAlignment.VA_TOP
      · simp [hcur]
      · simp [hcur, UI.set_apply]
    · by_cases hcur : (ui this).verticalAlignment_ = VerticalAlignment.VA_TOP
      · simp [ha, hcur]
      · simp [ha, hcur, UI.set_apply]

/-- `SetHorizontalAlignment` keeps the alignment forced at every element. -/
theorem SetHorizontalAlignment_keeps (ui : UI) (this : Nat) (align : HorizontalAlignment)
    (x : Nat) (hx : AlignmentForcedAt ui x) :
    AlignmentForcedAt (SetHorizontalAlignment ui this align) x := by
  obtain ⟨hframe, hforce⟩ := SetHorizontalAlignment_forces ui this align
  intro p hp
  rw [(SetHorizontalAlignment_tree ui this align x).1] at hp
  rw [(hframe p).1, (hframe x).2.1]
  refine ⟨fun hlm => ?_, (hx p hp).2⟩
  by_cases hxt : x = this
  · subst hxt; exact hforce p hp hlm
  · rw [(hframe x).2.2 hxt]; exact (hx p hp).1 hlm

/-- `SetVerticalAlignment` keeps the alignment forced at every element. -/
theorem SetVerticalAlignment_keeps (ui : UI) (this : Nat) (align : VerticalAlignment)
    (x : Nat) (hx : AlignmentForcedAt ui x) :
    AlignmentForcedAt (SetVerticalAlignment ui this align) x := by
  obtain ⟨hframe, hforce⟩ := SetVerticalAlignment_forces ui this align
  intro p hp
  rw [(SetVerticalAlignment_tree ui this align x).1] at hp
  rw [(hframe p).1, (hframe x).2.1]
  refine ⟨(hx p hp).1, fun hlm => ?_⟩
  by_cases hxt : x = this
  · subst hxt; exact hforce p hp hlm
  · rw [(hframe x).2.2 hxt]; exact (hx p hp).2 hlm

/-- Re-applying the alignments of a child keeps every layout mode. -/
theorem reapplyAlignment_layoutMode (ui : UI) (child x : Nat) :
    ((reapplyAlignment ui child) x).layoutMode_ = (ui x).layoutMode_ := by
  unfold reapplyAlignment
  rw [((SetVerticalAlignment_forces _ _ _).1 x).1, ((SetHorizontalAlignment_forces _ _ _).1 x).1]

/-- Re-applying the alignments of a child forces the alignment of that child
and keeps the alignment forced at every element where it was. -/
theorem reapplyAlignment_forces (ui : UI) (child x : Nat)
    (hx : x = child ∨ AlignmentForcedAt ui x) :
    AlignmentForcedAt (reapplyAlignment ui child) x := by
  rcases hx with hx | hx
  · subst hx
    intro p hp
    rw [(reapplyAlignment_tree ui x x).1] at hp
    rw [reapplyAlignment_layoutMode]
    unfold reapplyAlignment
    constructor
    · intro hlm
      rw [((SetVerticalAlignment_forces _ _ _).1 x).2.1]
      exact (SetHorizontalAlignment_forces ui x _).2 p hp hlm
    · intro hlm
      apply (SetVerticalAlignment_forces _ x _).2 p
      · rw [(SetHorizontalAlignment_tree ui x _ x).1]; exact hp
      · rw [((SetHorizontalAlignment_forces ui x _).1 p).1]; exact hlm
  · unfold reapplyAlignment
    exact SetVerticalAlignment_keeps _ _ _ x (SetHorizontalAlignment_keeps ui _ _ x hx)

/-- The loop of `VerifyChildAlignment` keeps every layout mode, forces the
alignment of every element of the list, and keeps the alignment forced at
every element where it was. -/
theorem foldl_reapplyAlignment_forces (children : List Nat) :
    ∀ (ui : UI) (x : Nat),
      ((children.foldl reapplyAlignment ui) x).layoutMode_ = (ui x).layoutMode_ ∧
      ((x ∈ children ∨ AlignmentForcedAt ui x) →
        AlignmentForcedAt (children.foldl reapplyAlignment ui) x) := by
  induction children with
  | nil =>
      intro ui x
      refine ⟨rfl, fun h => ?_⟩
      rcases h with h | h
      · exact absurd h (List.not_mem_nil x)
      · exact h
  | cons c rest ih =>
      intro ui x
      simp only [List.foldl_cons]
      refine ⟨by rw [(ih _ x).1, reapplyAlignment_layoutMode], fun h => ?_⟩
      apply (ih (reapplyAlignment ui c) x).2
      rcases h with h | h
      · rcases List.mem_cons.mp h with h | h
        · exact Or.inr (reapplyAlignment_forces ui c x (Or.inl h))
        · exact Or.inl h
      · exact Or.inr (reapplyAlignment_forces ui c x (Or.inr h))

/-- `VerifyChildAlignment` forces the alignment of every element: of the
children of the receiver by re-applying it, of every other element when it was
forced before. -/
theorem VerifyChildAlignment_forces (ui : UI) (this : Nat)
    (hchildren : ∀ x, (ui x).parent_ = some this → x ∈ (ui this).children_)
    (hother : ∀ x, (ui x).parent_ ≠ some this → AlignmentForcedAt ui x) :
    AlignmentForced (VerifyChildAlignment ui this) := by
  intro x
  apply (foldl_reapplyAlignment_forces (ui this).children_ ui x).2
  by_cases hp : (ui x).parent_ = some this
  · exact Or.inl (hchildren x hp)
  · exact Or.inr (hother x hp)

/-- The parent chain depends on the parents only. -/
theorem nthParent_congr (ui ui' : UI) (h : ∀ x, (ui' x).parent_ = (ui x).parent_) (n : Nat) :
    ∀ p, nthParent ui' n p = nthParent ui n p := by
  induction n with
  | zero => intro p; rfl
  | succ n ih =>
      intro p
      cases p with
      | none => rw [nthParent_none, nthParent_none]
      | some x => rw [nthParent_succ_some, nthParent_succ_some, h x, ih]

/-- Well-formedness depends on the parents and the child lists only. -/
theorem WellFormed_congr (ui ui' : UI)
    (h : ∀ x, (ui' x).parent_ = (ui x).parent_ ∧ (ui' x).children_ = (ui x).children_)
    (hwf : WellFormed ui) : WellFormed ui' := by
  obtain ⟨hac, hnd, hpc⟩ := hwf
  refine ⟨fun x => ?_, fun p => ?_, fun p c => ?_⟩
  · obtain ⟨n, hn⟩ := hac x
    exact ⟨n, by rw [nthParent_congr ui ui' (fun y => (h y).1)]; exact hn⟩
  · rw [(h p).2]; exact hnd p
  · rw [(h p).2, (h c).1]; exact hpc p c

/-- `Remove` changes no alignment and no layout mode. -/
theorem Remove_alignment (ui : UI) (e x : Nat) :
    ((Remove ui e) x).horizontalAlignment_ = (ui x).horizontalAlignment_ ∧
    ((Remove ui e) x).verticalAlignment_ = (ui x).verticalAlignment_ ∧
    ((Remove ui e) x).layoutMode_ = (ui x).layoutMode_ := by
  unfold Remove
  cases hq : (ui e).parent_ with
  | none => exact ⟨rfl, rfl, rfl⟩
  | some q =>
      simp only [RemoveChild, Detach]
      split_ifs
      · by_cases hxq : x = q
        · by_cases hxe : x = e
          · subst hxq; subst hxe; simp [UI.set_apply]
          · subst hxq; simp [UI.set_apply, hxe]
        · by_cases hxe : x = e
          · subst hxe; simp [UI.set_apply, hxq]
          · simp [UI.set_apply, hxq, hxe]
      · exact ⟨rfl, rfl, rfl⟩

/-- Replacing an element by one with the same alignments and layout mode
changes no alignment and no layout mode. -/
theorem UI.set_alignment (ui : UI) (this x : Nat) (e : UIElement)
    (hh : e.horizontalAlignment_ = (ui this).horizontalAlignment_)
    (hv : e.verticalAlignment_ = (ui this).verticalAlignment_)
    (hl : e.layoutMode_ = (ui this).layoutMode_) :
    ((ui.set this e) x).horizontalAlignment_ = (ui x).horizontalAlignment_ ∧
    ((ui.set this e) x).verticalAlignment_ = (ui x).verticalAlignment_ ∧
    ((ui.set this e) x).layoutMode_ = (ui x).layoutMode_ := by
  by_cases hx : x = this
  · subst hx; simp [UI.set_apply, hh, hv, hl]
  · simp [UI.set_apply, hx]

/-- The alignments and layout modes after the steps of `InsertChild` that
follow the insertion into `children_` and precede `VerifyChildAlignment`
(lines 1154-1163) are the ones before. -/
theorem InsertChild_tail_alignment (ui1 ui2 ui3 ui4 : UI) (this e : Nat)
    (h2 : ui2 = Remove ui1 e)
    (h3 : ui3 = if (ui2 this).sortChildren_ then
        ui2.set this { ui2 this with sortOrderDirty_ := true } else ui2)
    (h4 : ui4 = ui3.set e { ui3 e with parent_ := some this }) (x : Nat) :
    (ui4 x).horizontalAlignment_ = (ui1 x).horizontalAlignment_ ∧
    (ui4 x).verticalAlignment_ = (ui1 x).verticalAlignment_ ∧
    (ui4 x).layoutMode_ = (ui1 x).layoutMode_ := by
  have h3a : (ui3 x).horizontalAlignment_ = (ui2 x).horizontalAlignment_ ∧
      (ui3 x).verticalAlignment_ = (ui2 x).verticalAlignment_ ∧
      (ui3 x).layoutMode_ = (ui2 x).layoutMode_ := by
    rw [h3]
    split_ifs
    · exact UI.set_alignment ui2 this x _ rfl rfl rfl
    · exact ⟨rfl, rfl, rfl⟩
  have h4a : (ui4 x).horizontalAlignment_ = (ui3 x).horizontalAlignment_ ∧
      (ui4 x).verticalAlignment_ = (ui3 x).verticalAlignment_ ∧
      (ui4 x).layoutMode_ = (ui3 x).layoutMode_ := by
    rw [h4]
    exact UI.set_alignment ui3 e x _ rfl rfl rfl
  have h2a := Remove_alignment ui1 e x
  rw [← h2] at h2a
  exact ⟨h4a.1.trans (h3a.1.trans h2a.1), h4a.2.1.trans (h3a.2.1.trans h2a.2.1),
    h4a.2.2.trans (h3a.2.2.trans h2a.2.2)⟩

/-- The outcomes of `InsertChild`: the heap is returned unchanged, or the
element `e` is inserted and the result is `VerifyChildAlignment` on a heap
with the alignments and layout modes of the old one, in which `e` has the
receiver as its parent and every other parent is the old one. -/
theorem InsertChild_outcomes (fuel : Nat) (ui ui' : UI) (this index : Nat)
    (element : Option Nat) (hI : InsertChild fuel ui this index element = some ui') :
    ui' = ui ∨ ∃ e ui4, element = some e ∧ ui' = VerifyChildAlignment ui4 this ∧
      (∀ x, (ui4 x).horizontalAlignment_ = (ui x).horizontalAlignment_ ∧
        (ui4 x).verticalAlignment_ = (ui x).verticalAlignment_ ∧
        (ui4 x).layoutMode_ = (ui x).layoutMode_) ∧
      (∀ x, (ui4 x).parent_ = if x = e then some this else (ui x).parent_) := by
  cases element with
  | none =>
      simp only [InsertChild, Option.some.injEq] at hI
      exact Or.inl hI.symm
  | some e =>
      by_cases hre : e = this ∨ (ui e).parent_ = some this
      · simp only [InsertChild, hre, if_true, Option.some.injEq] at hI
        exact Or.inl hI.symm
      · cases hcyc : cyclicParentAssignment ui e fuel (ui this).parent_ with
        | none => simp [InsertChild, hre, hcyc] at hI
        | some b =>
            cases b with
            | true =>
                simp only [InsertChild, hre, if_false, hcyc, Option.some.injEq] at hI
                exact Or.inl hI.symm
            | false =>
                simp only [InsertChild, hre, if_false, hcyc, Option.some.injEq] at hI
                right
                refine ⟨e, _, rfl, hI.symm, ?_, ?_⟩
                · intro x
                  obtain ⟨a1, a2, a3⟩ := InsertChild_tail_alignment _ _ _ _ this e rfl rfl rfl x
                  obtain ⟨b1, b2, b3⟩ := UI.set_alignment ui this x
                    { ui this with children_ :=
                        if index ≥ (ui this).children_.length then (ui this).children_ ++ [e]
                        else (ui this).children_.take index ++ e :: (ui this).children_.drop index }
                    rfl rfl rfl
                  exact ⟨a1.trans b1, a2.trans b2, a3.trans b3⟩
                · intro x
                  rw [← (VerifyChildAlignment_tree _ this x).1]
                  refine ((InsertChild_tail _ _ _ _ this e rfl rfl rfl).1 x).trans ?_
                  by_cases hx : x = e
                  · simp [hx]
                  · rw [if_neg hx, if_neg hx]
                    by_cases hxt : x = this
                    · subst hxt; simp [UI.set_apply]
                    · simp [UI.set_apply, hxt]

/-- `SetLayoutMode` keeps the alignment forced in a well-formed tree: the
children of the receiver are re-aligned, and nothing changes for the others. -/
theorem SetLayoutMode_forced (ui : UI) (this : Nat) (mode : LayoutMode)
    (hwf : WellFormed ui) (hal : AlignmentForced ui) :
    AlignmentForced (SetLayoutMode ui this mode) := by
  have ht : ∀ y, ((ui.set this { ui this with layoutMode_ := mode }) y).parent_ =
        (ui y).parent_ ∧
      ((ui.set this { ui this with layoutMode_ := mode }) y).children_ = (ui y).children_ :=
    fun y => UI.set_tree ui this y _ rfl rfl
  unfold SetLayoutMode
  apply VerifyChildAlignment_forces
  · intro x hx
    rw [(ht x).1] at hx
    rw [(ht this).2]
    exact (hwf.2.2 this x).mpr hx
  · intro x hx p hp
    rw [(ht x).1] at hx hp
    have hpt : p ≠ this := by
      intro h
      rw [h] at hp
      exact hx hp
    have hlm : ((ui.set this { ui this with layoutMode_ := mode }) p).layoutMode_ =
        (ui p).layoutMode_ := by
      simp [UI.set_apply, hpt]
    have hhv : ((ui.set this { ui this with layoutMode_ := mode }) x).horizontalAlignment_ =
          (ui x).horizontalAlignment_ ∧
        ((ui.set this { ui this with layoutMode_ := mode }) x).verticalAlignment_ =
          (ui x).verticalAlignment_ := by
      by_cases hxt : x = this
      · subst hxt; simp [UI.set_apply]
      · simp [UI.set_apply, hxt]
    rw [hlm, hhv.1, hhv.2]
    exact hal x p hp

/-- `SetLayoutMode` changes no parent and no child list. -/
theorem SetLayoutMode_tree (ui : UI) (this : Nat) (mode : LayoutMode) (x : Nat) :
    ((SetLayoutMode ui this mode) x).parent_ = (ui x).parent_ ∧
    ((SetLayoutMode ui this mode) x).children_ = (ui x).children_ := by
  unfold SetLayoutMode
  rw [(VerifyChildAlignment_tree _ this x).1, (VerifyChildAlignment_tree _ this x).2]
  exact UI.set_tree ui this x _ rfl rfl

/-- `InsertChild` keeps the alignment forced in a well-formed tree: the inserted
element is re-aligned with the other children of the receiver. -/
theorem InsertChild_forced (fuel : Nat) (ui ui' : UI) (this index : Nat)
    (element : Option Nat) (hwf : WellFormed ui) (hal : AlignmentForced ui)
    (hI : InsertChild fuel ui this index element = some ui') : AlignmentForced ui' := by
  have hwf' := InsertChild_wellFormed fuel ui ui' this index element hwf hI
  rcases InsertChild_outcomes fuel ui ui' this index element hI with h | ⟨e, ui4, _, h, hal4, hpar4⟩
  · rw [h]; exact hal
  · rw [h] at hwf' ⊢
    apply VerifyChildAlignment_forces
    · intro x hx
      have hmem := (hwf'.2.2 this x).mpr
        (by rw [(VerifyChildAlignment_tree ui4 this x).1]; exact hx)
      rwa [(VerifyChildAlignment_tree ui4 this this).2] at hmem
    · intro x hx p hp
      have hxe : x ≠ e := by
        intro hxe
        apply hx
        rw [hpar4 x, if_pos hxe]
      rw [hpar4 x, if_neg hxe] at hp
      rw [(hal4 p).2.2, (hal4 x).1, (hal4 x).2.1]
      exact hal x p hp

/-- `InsertChild` returns the same heap for every fuel from some bound on when
the parent relation has no cycle. -/
theorem InsertChild_returns (ui : UI) (this index : Nat) (element : Option Nat)
    (hac : Acyclic ui) :
    ∃ d ui', ∀ fuel, d ≤ fuel → InsertChild fuel ui this index element = some ui' := by
  cases element with
  | none => exact ⟨0, ui, fun fuel _ => by simp [InsertChild]⟩
  | some e =>
      by_cases hre : e = this ∨ (ui e).parent_ = some this
      · exact ⟨0, ui, fun fuel _ => by simp only [InsertChild, hre, if_true]⟩
      · obtain ⟨n, hn⟩ := hac this
        have hn1 : nthParent ui n (ui this).parent_ = none := by
          have := nthParent_none_of_le ui n (some this) hn (n + 1) (Nat.le_succ n)
          rwa [nthParent_succ_some] at this
        by_cases hex : ∃ k, nthParent ui k (ui this).parent_ = some e
        · obtain ⟨k, hk⟩ := hex
          refine ⟨k + 1, ui, fun fuel hf => ?_⟩
          simp only [InsertChild, hre, if_false,
            cyclicParentAssignment_true ui e k _ hk fuel (by omega)]
        · have hne : ∀ k, nthParent ui k (ui this).parent_ ≠ some e :=
            fun k hk => hex ⟨k, hk⟩
          have hcyc := cyclicParentAssignment_false ui e n _ hn1 hne
          obtain ⟨ui', hI, _⟩ := InsertChild_accept n ui this index e
            (fun h => hre (Or.inl h)) (fun h => hre (Or.inr h)) (hcyc n (le_refl n))
          refine ⟨n, ui', fun fuel hf => ?_⟩
          rw [← hI]
          simp only [InsertChild, hre, if_false, hcyc fuel hf, hcyc n (le_refl n)]

/-- Every call keeps the tree well formed and the alignment forced. -/
theorem UIOp.apply_invariant (fuel : Nat) (ui ui' : UI) (op : UIOp)
    (hwf : WellFormed ui) (hal : AlignmentForced ui) (h : op.apply fuel ui = some ui') :
    WellFormed ui' ∧ AlignmentForced ui' := by
  cases op with
  | SetHorizontalAlignment this align =>
      simp only [UIOp.apply, Option.some.injEq] at h
      rw [← h]
      exact ⟨WellFormed_congr ui _ (SetHorizontalAlignment_tree ui this align) hwf,
        fun x => SetHorizontalAlignment_keeps ui this align x (hal x)⟩
  | SetVerticalAlignment this align =>
      simp only [UIOp.apply, Option.some.injEq] at h
      rw [← h]
      exact ⟨WellFormed_congr ui _ (SetVerticalAlignment_tree ui this align) hwf,
        fun x => SetVerticalAlignment_keeps ui this align x (hal x)⟩
  | SetAlignment this hAlign vAlign =>
      simp only [UIOp.apply, Option.some.injEq] at h
      rw [← h]
      unfold Urho3D.SetAlignment
      exact ⟨WellFormed_congr _ _ (SetVerticalAlignment_tree _ this vAlign)
          (WellFormed_congr ui _ (SetHorizontalAlignment_tree ui this hAlign) hwf),
        fun x => SetVerticalAlignment_keeps _ this vAlign x
          (SetHorizontalAlignment_keeps ui this hAlign x (hal x))⟩
  | SetLayout this mode spacing border =>
      simp only [UIOp.apply, Option.some.injEq] at h
      rw [← h]
      exact ⟨WellFormed_congr ui _ (SetLayoutMode_tree ui this mode) hwf,
        SetLayoutMode_forced ui this mode hwf hal⟩
  | SetLayoutMode this mode =>
      simp only [UIOp.apply, Option.some.injEq] at h
      rw [← h]
      exact ⟨WellFormed_congr ui _ (SetLayoutMode_tree ui this mode) hwf,
        SetLayoutMode_forced ui this mode hwf hal⟩
  | InsertChild this index element =>
      simp only [UIOp.apply] at h
      exact ⟨InsertChild_wellFormed fuel ui ui' this index element hwf h,
        InsertChild_forced fuel ui ui' this index element hwf hal h⟩

/-- Every call returns the same heap for every fuel from some bound on when the
parent relation has no cycle. -/
theorem UIOp.apply_returns (ui : UI) (op : UIOp) (hac : Acyclic ui) :
    ∃ d ui', ∀ fuel, d ≤ fuel → op.apply fuel ui = some ui' := by
  cases op with
  | SetHorizontalAlignment this align => exact ⟨0, _, fun _ _ => rfl⟩
  | SetVerticalAlignment this align => exact ⟨0, _, fun _ _ => rfl⟩
  | SetAlignment this hAlign vAlign => exact ⟨0, _, fun _ _ => rfl⟩
  | SetLayout this mode spacing border => exact ⟨0, _, fun _ _ => rfl⟩
  | SetLayoutMode this mode => exact ⟨0, _, fun _ _ => rfl⟩
  | InsertChild this index element => exact InsertChild_returns ui this index element hac

/-- Every sequence of calls keeps the tree well formed and the alignment
forced. -/
theorem runOps_invariant (fuel : Nat) (ops : List UIOp) :
    ∀ ui ui', WellFormed ui → AlignmentForced ui → runOps fuel ui ops = some ui' →
      WellFormed ui' ∧ AlignmentForced ui' := by
  induction ops with
  | nil =>
      intro ui ui' hwf hal h
      simp only [runOps, Option.some.injEq] at h
      rw [← h]; exact ⟨hwf, hal⟩
  | cons op rest ih =>
      intro ui ui' hwf hal h
      cases h1 : op.apply fuel ui with
      | none => simp [runOps, h1] at h
      | some ui1 =>
          simp only [runOps, h1] at h
          obtain ⟨hwf1, hal1⟩ := UIOp.apply_invariant fuel ui ui1 op hwf hal h1
          exact ih ui1 ui' hwf1 hal1 h

/-- Every sequence of calls on a well-formed tree with forced alignment returns
the same heap for every fuel from some bound on. -/
theorem runOps_returns (ops : List UIOp) :
    ∀ ui, WellFormed ui → AlignmentForced ui →
      ∃ d ui', ∀ fuel, d ≤ fuel → runOps fuel ui ops = some ui' := by
  induction ops with
  | nil => intro ui _ _; exact ⟨0, ui, fun _ _ => rfl⟩
  | cons op rest ih =>
      intro ui hwf hal
      obtain ⟨d1, ui1, h1⟩ := UIOp.apply_returns ui op hwf.1
      obtain ⟨hwf1, hal1⟩ := UIOp.apply_invariant d1 ui ui1 op hwf hal (h1 d1 (le_refl d1))
      obtain ⟨d2, ui', h2⟩ := ih ui1 hwf1 hal1
      refine ⟨max d1 d2, ui', fun fuel hf => ?_⟩
      simp only [runOps, h1 fuel (le_trans (le_max_left d1 d2) hf)]
      exact h2 fuel (le_trans (le_max_right d1 d2) hf)

/-- Every freshly constructed element has no parent, so its alignment is
forced. -/
theorem AlignmentForced_fresh : AlignmentForced freshHeap := by
  intro x p hp
  simp [freshHeap, UIElement.new] at hp

/-- Claim C13 (alignment is forced under a layout).  Start from freshly
constructed elements and apply any sequence of calls of
`SetHorizontalAlignment`, `SetVerticalAlignment`, `SetAlignment`, `SetLayout`,
`SetLayoutMode` and `InsertChild`, with any receivers and arguments.  In the
state reached, every element whose parent has the layout mode `LM_HORIZONTAL`
has the horizontal alignment `HA_LEFT` and every element whose parent has the
layout mode `LM_VERTICAL` has the vertical alignment `VA_TOP`; and the sequence
does reach a state: from some fuel on, every fuel gives the same heap. -/
theorem alignment_forced_under_layout (ops : List UIOp) :
    (∀ fuel ui', runOps fuel freshHeap ops = some ui' →
      ∀ x p, (ui' x).parent_ = some p →
        ((ui' p).layoutMode_ = LayoutMode.LM_HORIZONTAL →
          (ui' x).horizontalAlignment_ = HorizontalAlignment.HA_LEFT) ∧
        ((ui' p).layoutMode_ = LayoutMode.LM_VERTICAL →
          (ui' x).verticalAlignment_ = VerticalAlignment.VA_TOP)) ∧
    (∃ d ui', ∀ fuel, d ≤ fuel → runOps fuel freshHeap ops = some ui') :=
  ⟨fun fuel ui' h =>
      (runOps_invariant fuel ops freshHeap ui' WellFormed_fresh AlignmentForced_fresh h).2,
    runOps_returns ops freshHeap WellFormed_fresh AlignmentForced_fresh⟩

/-- Witness for C13: element 1 is inserted into element 0, asks for a centred
alignment, and the parent then gets a horizontal layout; afterwards a request
for right and bottom alignment is made.  The alignment is forced in the state
reached, and element 1 is aligned left in it. -/
theorem alignment_forced_under_layout_witness :
    (∀ fuel ui', runOps fuel freshHeap
        [UIOp.InsertChild 0 0 (some 1),
         UIOp.SetHorizontalAlignment 1 HorizontalAlignment.HA_CENTER,
         UIOp.SetLayoutMode 0 LayoutMode.LM_HORIZONTAL,
         UIOp.SetAlignment 1 HorizontalAlignment.HA_RIGHT VerticalAlignment.VA_BOTTOM]
          = some ui' →
      ∀ x p, (ui' x).parent_ = some p →
        ((ui' p).layoutMode_ = LayoutMode.LM_HORIZONTAL →
          (ui' x).horizontalAlignment_ = HorizontalAlignment.HA_LEFT) ∧
        ((ui' p).layoutMode_ = LayoutMode.LM_VERTICAL →
          (ui' x).verticalAlignment_ = VerticalAlignment.VA_TOP)) ∧
    (runOps 1 freshHeap
        [UIOp.InsertChild 0 0 (some 1),
         UIOp.SetHorizontalAlignment 1 HorizontalAlignment.HA_CENTER,
         UIOp.SetLayoutMode 0 LayoutMode.LM_HORIZONTAL,
         UIOp.SetAlignment 1 HorizontalAlignment.HA_RIGHT VerticalAlignment.VA_BOTTOM]).map
      (fun ui' => ((ui' 1).parent_, (ui' 0).layoutMode_, (ui' 1).horizontalAlignment_,
        (ui' 1).verticalAlignment_)) =
      some (some 0, LayoutMode.LM_HORIZONTAL, HorizontalAlignment.HA_LEFT,
        VerticalAlignment.VA_BOTTOM) :=
  ⟨(alignment_forced_under_layout _).1, by decide⟩

end Urho3D
